import Mathlib

/-!
# Verification of the Exitem Review Store and retrieval pipeline

A shallow embedding of the core of the Exitem repository:

* `src/src/modules/reviewStore.ts` — the JSON-file document store
  (folders, records, membership links, integrity-repair pass and the
  public mutation operations);
* `src/src/modules/reviewAI.ts` — the text chunker,
  the cosine-similarity ranker and the prompt assembler.

Modelling conventions:

* JavaScript strings that the code inspects character by character
  (folder names, chunked text, prompt templates) are modelled as
  `List Char`; the code only ever uses BMP text, where one JavaScript
  UTF-16 unit is one `Char`.  Opaque content fields that are only
  copied around are modelled as `String`.
* `String.prototype.trim` / `toLowerCase` are modelled by `jsTrim` /
  `jsLower`; `toLowerCase` is modelled on the ASCII range (the range the
  repository's data exercises — the sentinel folder name is Chinese and
  is a fixed point of both functions).
* `nowISO()` timestamps are modelled as a `Nat` parameter threaded into
  each operation; one operation uses a single timestamp value.
* Fallible operations return `Except String α`; a thrown `Error`
  becomes `.error msg`, in which case nothing is persisted.
* Numeric id lists passed by callers are integer-valued, so
  `normalizeIDList`'s `Math.floor` is the identity and its
  `Number.isFinite` test always holds; the remaining filter (`v > 0`)
  and `Set` de-duplication are modelled exactly.
-/

namespace Exitem

/-! ## JavaScript string primitives over `List Char` -/

/-- One character of `String.prototype.toLowerCase`, on the ASCII range:
uppercase `A`-`Z` maps to `a`-`z`, everything else is fixed. -/
def jsLowerChar (c : Char) : Char :=
  if 65 ≤ c.toNat ∧ c.toNat ≤ 90 then Char.ofNat (c.toNat + 32) else c

/-- `String.prototype.toLowerCase`. -/
def jsLower (s : List Char) : List Char :=
  s.map jsLowerChar

/-- The whitespace class of `String.prototype.trim` (the code points the
repository's data can contain). -/
def isJsSpace (c : Char) : Bool :=
  c = ' ' || c = '\t' || c = '\n' || c = '\r' || c = '\x0b' || c = '\x0c'

/-- `String.prototype.trim`: strip leading and trailing whitespace. -/
def jsTrim (s : List Char) : List Char :=
  ((s.dropWhile isJsSpace).reverse.dropWhile isJsSpace).reverse

/-- `Array.from(new Set(list))`: de-duplicate keeping first occurrences. -/
def jsDedup (l : List Nat) : List Nat :=
  l.foldl (fun acc a => if a ∈ acc then acc else acc ++ [a]) []

/-! ## Review Store data model (`reviewStore.ts` interfaces) -/

/-- `DEFAULT_FOLDER_NAME = "未分类"`. -/
def DEFAULT_FOLDER_NAME : List Char := "未分类".toList

/-- `PROTECTED_FOLDER_NAMES = new Set([DEFAULT_FOLDER_NAME])`, as a
membership test on the exact folder name. -/
def isProtectedName (name : List Char) : Bool :=
  name = DEFAULT_FOLDER_NAME

/-- `ReviewRecordType`. -/
inductive ReviewRecordType where
  | literature
  | folderSummary
deriving DecidableEq, Repr

/-- `JSONStoreFolder`. -/
structure JSONStoreFolder where
  id : Nat
  name : List Char
  createdAt : Nat
  updatedAt : Nat
deriving DecidableEq, Repr

/-- `JSONStoreRecord`. -/
structure JSONStoreRecord where
  id : Nat
  zoteroItemID : Nat
  recordType : ReviewRecordType
  title : String
  authors : String
  journal : String
  publicationDate : String
  abstractText : String
  pdfAnnotationNotesText : String
  researchBackground : String
  literatureReview : String
  researchMethods : String
  researchConclusions : String
  keyFindings : List String
  classificationTags : List String
  aiProvider : String
  aiModel : String
  rawAIResponse : String
  sourceRecordIDs : List Nat
  sourceZoteroItemIDs : List Nat
  createdAt : Nat
  updatedAt : Nat
deriving DecidableEq, Repr

/-- `JSONStoreRecordFolderLink`. -/
structure JSONStoreRecordFolderLink where
  recordID : Nat
  folderID : Nat
  createdAt : Nat
deriving DecidableEq, Repr

/-- `JSONStoreEvent`. -/
structure JSONStoreEvent where
  id : Nat
  eventName : String
  payloadJSON : String
  createdAt : Nat
deriving DecidableEq, Repr

/-- `JSONStoreData`, with the three `nextIDs` counters inlined. -/
structure JSONStoreData where
  schemaVersion : Nat
  createdAt : Nat
  updatedAt : Nat
  nextFolderID : Nat
  nextRecordID : Nat
  nextEventID : Nat
  folders : List JSONStoreFolder
  records : List JSONStoreRecord
  recordFolderLinks : List JSONStoreRecordFolderLink
  events : List JSONStoreEvent
deriving DecidableEq, Repr

/-! ## Store helper functions -/

/-- `normalizeFolderName`: `String(name || "").trim().slice(0, 100)`. -/
def normalizeFolderName (name : List Char) : List Char :=
  (jsTrim name).take 100

/-- The key `findFolderByName` and the de-duplication in
`ensureStoreIntegrity` compare folders by:
`String(name || "").trim().toLowerCase()`. -/
def folderKey (name : List Char) : List Char :=
  jsLower (jsTrim name)

/-- `findFolderByName`. -/
def findFolderByName (s : JSONStoreData) (name : List Char) : Option JSONStoreFolder :=
  s.folders.find? (fun f => folderKey f.name = folderKey name)

/-- `findFolderByID`. -/
def findFolderByID (s : JSONStoreData) (id : Nat) : Option JSONStoreFolder :=
  s.folders.find? (fun f => f.id = id)

/-- `maxID`: `values.reduce((max, value) => (value > max ? value : max), 0)`. -/
def maxID (values : List Nat) : Nat :=
  values.foldl (fun m v => if v > m then v else m) 0

/-- `allocateID(store, "folder")`. -/
def allocFolderID (s : JSONStoreData) : JSONStoreData × Nat :=
  let current := Nat.max 1 s.nextFolderID
  ({ s with nextFolderID := current + 1 }, current)

/-- `allocateID(store, "record")`. -/
def allocRecordID (s : JSONStoreData) : JSONStoreData × Nat :=
  let current := Nat.max 1 s.nextRecordID
  ({ s with nextRecordID := current + 1 }, current)

/-- `allocateID(store, "event")`. -/
def allocEventID (s : JSONStoreData) : JSONStoreData × Nat :=
  let current := Nat.max 1 s.nextEventID
  ({ s with nextEventID := current + 1 }, current)

/-- `markStoreUpdated` (also run by `saveStoreData`). -/
def markStoreUpdated (now : Nat) (s : JSONStoreData) : JSONStoreData :=
  { s with updatedAt := now }

/-- `ensureDefaultFolder`: find the sentinel folder by name, creating it
when absent. -/
def ensureDefaultFolder (now : Nat) (s : JSONStoreData) : JSONStoreData × JSONStoreFolder :=
  match findFolderByName s DEFAULT_FOLDER_NAME with
  | some f => (s, f)
  | none =>
    let (s, id) := allocFolderID s
    let f : JSONStoreFolder := ⟨id, DEFAULT_FOLDER_NAME, now, now⟩
    ({ s with folders := s.folders ++ [f] }, f)

/-- `normalizeIDList` on integer inputs: drop non-positive values and
de-duplicate keeping first occurrences. -/
def normalizeIDList (ids : List Nat) : List Nat :=
  jsDedup (ids.filter (fun v => 0 < v))

/-- `normalizePositiveIntegerList` (textually identical to
`normalizeIDList` in the source). -/
def normalizePositiveIntegerList (ids : List Nat) : List Nat :=
  jsDedup (ids.filter (fun v => 0 < v))

/-- `normalizeStringArray`: trim entries, drop empties, cap at 200. -/
def normalizeStringArray (l : List String) : List String :=
  ((l.map String.trim).filter (fun v => v ≠ "")).take 200

/-- `addRecordFolderLink`: push the pair unless it already exists. -/
def addRecordFolderLink (s : JSONStoreData) (recordID folderID now : Nat) : JSONStoreData :=
  if s.recordFolderLinks.any (fun l => l.recordID = recordID && l.folderID = folderID) then s
  else { s with recordFolderLinks := s.recordFolderLinks ++ [⟨recordID, folderID, now⟩] }

/-- `touchRecords`. -/
def touchRecords (now : Nat) (s : JSONStoreData) (recordIDs : List Nat) : JSONStoreData :=
  let idSet := normalizeIDList recordIDs
  if idSet.isEmpty then s
  else { s with records := s.records.map (fun r => if r.id ∈ idSet then { r with updatedAt := now } else r) }

/-- `getRecordIDsByFolderIDsInternal`. -/
def getRecordIDsByFolderIDsInternal (s : JSONStoreData) (folderIDs : List Nat) : List Nat :=
  let idSet := normalizeIDList folderIDs
  jsDedup ((s.recordFolderLinks.filter (fun l => l.folderID ∈ idSet)).map (fun l => l.recordID))

/-! ## Membership normalization and the integrity-repair pass -/

/-- One iteration of the `for (const recordID of ids)` loop in
`normalizeRecordFolderMemberships`: re-link an orphaned record to the
default folder, and drop the default-folder link of a record that also
belongs to a non-default folder. -/
def normalizeMembershipStep (defaultID now : Nat) (s : JSONStoreData) (recordID : Nat) :
    JSONStoreData :=
  let links := s.recordFolderLinks.filter (fun l => l.recordID = recordID)
  if links.isEmpty then addRecordFolderLink s recordID defaultID now
  else
    let hasDefault := links.any (fun l => l.folderID = defaultID)
    let hasNonDefault := links.any (fun l => l.folderID ≠ defaultID)
    if hasDefault && hasNonDefault then
      { s with recordFolderLinks :=
          s.recordFolderLinks.filter (fun l => ¬(l.recordID = recordID ∧ l.folderID = defaultID)) }
    else s

/-- `normalizeRecordFolderMemberships`.  `recordIDs = none` models the
call without the optional argument; per the source, an empty explicit
list also falls back to every record
(`recordIDs?.length ? normalizeIDList(recordIDs) : store.records.map(...)`). -/
def normalizeRecordFolderMemberships (now : Nat) (s : JSONStoreData)
    (recordIDs : Option (List Nat)) : JSONStoreData :=
  let ids : List Nat := match recordIDs with
    | some l => if l.isEmpty then s.records.map (fun r => r.id) else normalizeIDList l
    | none => s.records.map (fun r => r.id)
  if ids.isEmpty then s
  else
    let (s, defaultFolder) := ensureDefaultFolder now s
    ids.foldl (normalizeMembershipStep defaultFolder.id now) s

/-- The link pass of `ensureStoreIntegrity`: keep a link when it points
at an existing folder and record and its `(recordID, folderID)` pair has
not been seen yet (one left-to-right pass, as in the source). -/
def filterDedupLinks (folderIDs recordIDs : List Nat)
    (links : List JSONStoreRecordFolderLink) : List JSONStoreRecordFolderLink :=
  links.foldl
    (fun acc l =>
      if l.folderID ∈ folderIDs ∧ l.recordID ∈ recordIDs ∧
          ¬acc.any (fun x => x.recordID = l.recordID && x.folderID = l.folderID)
      then acc ++ [l] else acc)
    []

/-- The folder pass of `ensureStoreIntegrity`: drop folders whose
trim/lowercase key is empty or already seen (first occurrence wins). -/
def dedupFolders (folders : List JSONStoreFolder) : List JSONStoreFolder :=
  folders.foldl
    (fun acc f =>
      if folderKey f.name = [] ∨ acc.any (fun g => folderKey g.name = folderKey f.name)
      then acc else acc ++ [f])
    []

/-- `ensureStoreIntegrity` (the value it returns — whether anything
changed — is only used by callers to decide whether to re-save an
otherwise unmodified store, so it is not modelled). -/
def ensureStoreIntegrity (now : Nat) (s : JSONStoreData) : JSONStoreData :=
  let s := { s with
    schemaVersion := 2,
    createdAt := if s.createdAt = 0 then now else s.createdAt,
    updatedAt := if s.updatedAt = 0 then now else s.updatedAt }
  let (s, _) := ensureDefaultFolder now s
  let folderIDs := s.folders.map (fun f => f.id)
  let recordIDs := s.records.map (fun r => r.id)
  let s := { s with recordFolderLinks := filterDedupLinks folderIDs recordIDs s.recordFolderLinks }
  let s := { s with folders := dedupFolders s.folders }
  let s := normalizeRecordFolderMemberships now s none
  { s with
    nextFolderID := Nat.max (if s.nextFolderID = 0 then 1 else s.nextFolderID)
      (maxID (s.folders.map (fun f => f.id)) + 1),
    nextRecordID := Nat.max (if s.nextRecordID = 0 then 1 else s.nextRecordID)
      (maxID (s.records.map (fun r => r.id)) + 1),
    nextEventID := Nat.max (if s.nextEventID = 0 then 1 else s.nextEventID)
      (maxID (s.events.map (fun e => e.id)) + 1) }

/-! ## `normalizeStoreData`: what loading a persisted file restores

`loadStoreData` parses the JSON file and passes it through
`normalizeStoreData`, which validates each row (`normalizeFolderRecord`,
`normalizeReviewRecord`, `normalizeRecordFolderLink`,
`normalizeStoreEvent`) and recomputes the id counters.  Modelled on the
already-typed aggregate: validation keeps the rows the row-normalizers
accept and re-applies the field normalizers they run. -/

/-- `normalizeFolderRecord`: requires a positive id and a non-empty
normalized name, and stores the normalized name. -/
def normalizeFolderRecordOpt (f : JSONStoreFolder) : Option JSONStoreFolder :=
  if 0 < f.id ∧ normalizeFolderName f.name ≠ [] then
    some { f with name := normalizeFolderName f.name }
  else none

/-- `normalizeReviewRecord`: requires a positive id and re-normalizes
the array-valued fields. -/
def normalizeReviewRecordOpt (r : JSONStoreRecord) : Option JSONStoreRecord :=
  if 0 < r.id then
    some { r with
      keyFindings := normalizeStringArray r.keyFindings,
      classificationTags := normalizeStringArray r.classificationTags,
      sourceRecordIDs := normalizeIDList r.sourceRecordIDs,
      sourceZoteroItemIDs := normalizePositiveIntegerList r.sourceZoteroItemIDs }
  else none

/-- `normalizeRecordFolderLink`: requires positive record and folder ids. -/
def normalizeRecordFolderLinkOpt (l : JSONStoreRecordFolderLink) :
    Option JSONStoreRecordFolderLink :=
  if 0 < l.recordID ∧ 0 < l.folderID then some l else none

/-- `normalizeStoreEvent`: requires a positive id. -/
def normalizeStoreEventOpt (e : JSONStoreEvent) : Option JSONStoreEvent :=
  if 0 < e.id then some e else none

/-- `normalizeStoreData`.  The `Number(raw?.nextIDs?.k) || maxID(rows)+1`
idiom falls back to `maxID+1` exactly when the persisted counter is 0
(absent/non-numeric counters being 0 in the model). -/
def normalizeStoreData (now : Nat) (s : JSONStoreData) : JSONStoreData :=
  let folders := s.folders.filterMap normalizeFolderRecordOpt
  let records := s.records.filterMap normalizeReviewRecordOpt
  let recordFolderLinks := s.recordFolderLinks.filterMap normalizeRecordFolderLinkOpt
  let events := s.events.filterMap normalizeStoreEventOpt
  { schemaVersion := if s.schemaVersion = 0 then 2 else s.schemaVersion,
    createdAt := if s.createdAt = 0 then now else s.createdAt,
    updatedAt := if s.updatedAt = 0 then now else s.updatedAt,
    nextFolderID := Nat.max 1
      (if s.nextFolderID = 0 then maxID (folders.map (fun f => f.id)) + 1 else s.nextFolderID),
    nextRecordID := Nat.max 1
      (if s.nextRecordID = 0 then maxID (records.map (fun r => r.id)) + 1 else s.nextRecordID),
    nextEventID := Nat.max 1
      (if s.nextEventID = 0 then maxID (events.map (fun e => e.id)) + 1 else s.nextEventID),
    folders := folders,
    records := records,
    recordFolderLinks := recordFolderLinks,
    events := events }

/-! ## Store operations (the exported functions of `reviewStore.ts`)

Each exported operation loads the store, runs `ensureStoreIntegrity`,
performs its logic and saves.  The functions below model the body run on
the loaded store; `.error` models a thrown `Error` (nothing saved). -/

/-- `resolveTargetFolderID`: an explicit numeric folder id must exist,
`null`/`undefined` resolves to the default folder. -/
def resolveTargetFolderID (now : Nat) (s : JSONStoreData) (folderID : Option Nat) :
    Except String (JSONStoreData × Nat) :=
  match folderID with
  | some fid =>
    match findFolderByID s fid with
    | some f => .ok (s, f.id)
    | none => .error "目标文件夹不存在"
  | none =>
    let (s, f) := ensureDefaultFolder now s
    .ok (s, f.id)

/-- `createReviewFolder`. -/
def createReviewFolder (now : Nat) (s : JSONStoreData) (name : List Char) :
    Except String (JSONStoreData × JSONStoreFolder) :=
  let s := ensureStoreIntegrity now s
  let normalized := normalizeFolderName name
  if normalized = [] then .error "文件夹名称不能为空"
  else
    match findFolderByName s normalized with
    | some existing => .ok (s, existing)
    | none =>
      let (s, id) := allocFolderID s
      let folder : JSONStoreFolder := ⟨id, normalized, now, now⟩
      let s := { s with folders := s.folders ++ [folder] }
      .ok (markStoreUpdated now s, folder)

/-- `deleteReviewFolder`.  A missing folder id is a silent no-op
(`if (!folder) return;`). -/
def deleteReviewFolder (now : Nat) (s : JSONStoreData) (folderID : Nat) :
    Except String JSONStoreData :=
  let s := ensureStoreIntegrity now s
  match findFolderByID s folderID with
  | none => .ok s
  | some folder =>
    if isProtectedName folder.name then .error "系统文件夹不可删除"
    else
      let affectedRecordIDs := getRecordIDsByFolderIDsInternal s [folderID]
      let s := { s with
        recordFolderLinks := s.recordFolderLinks.filter (fun l => l.folderID ≠ folderID),
        folders := s.folders.filter (fun f => f.id ≠ folderID) }
      let s := normalizeRecordFolderMemberships now s (some affectedRecordIDs)
      let s := touchRecords now s affectedRecordIDs
      .ok (markStoreUpdated now s)

/-- `mergeReviewFolders`. -/
def mergeReviewFolders (now : Nat) (s : JSONStoreData) (folderIDs : List Nat)
    (newFolderName : List Char) : Except String (JSONStoreData × JSONStoreFolder) :=
  let s := ensureStoreIntegrity now s
  let validIDs := jsDedup (folderIDs.filter (fun v => v ≠ 0))
  if validIDs.length < 2 then .error "至少选择两个文件夹进行合并"
  else
    let folders := validIDs.filterMap (findFolderByID s)
    if folders.any (fun f => isProtectedName f.name) then .error "系统文件夹不可合并"
    else
      let normalizedName := normalizeFolderName newFolderName
      if normalizedName = [] then .error "合并后的文件夹名称不能为空"
      else
        let found := findFolderByName s normalizedName
        let step : JSONStoreData × JSONStoreFolder := match found with
          | some f => (s, f)
          | none =>
            let (s, id) := allocFolderID s
            let f : JSONStoreFolder := ⟨id, normalizedName, now, now⟩
            ({ s with folders := s.folders ++ [f] }, f)
        let s := step.1
        let newFolder := step.2
        let affectedRecordIDs := getRecordIDsByFolderIDsInternal s validIDs
        let s := affectedRecordIDs.foldl
          (fun st rid => addRecordFolderLink st rid newFolder.id now) s
        let sourceFolderIDs := validIDs.filter (fun id => id ≠ newFolder.id)
        let s :=
          if sourceFolderIDs.isEmpty then s
          else { s with
            recordFolderLinks :=
              s.recordFolderLinks.filter (fun l => l.folderID ∉ sourceFolderIDs),
            folders := s.folders.filter
              (fun f => f.id ∉ sourceFolderIDs ∨ isProtectedName f.name) }
        let s := normalizeRecordFolderMemberships now s (some affectedRecordIDs)
        let s := touchRecords now s affectedRecordIDs
        .ok (markStoreUpdated now s, newFolder)

/-- `LiteratureReviewDraft` (the fields `upsertReviewRecord` reads). -/
structure LiteratureReviewDraft where
  zoteroItemID : Nat
  title : String
  authors : String
  journal : String
  publicationDate : String
  abstractText : String
  pdfAnnotationNotesText : String
  researchBackground : String
  literatureReview : String
  researchMethods : String
  researchConclusions : String
  keyFindings : List String
  classificationTags : List String
  aiProvider : String
  aiModel : String
  rawAIResponse : String
deriving DecidableEq, Repr

/-- The `options.folderID` argument of `upsertReviewRecord`:
absent, `null`, or an explicit numeric id. -/
inductive FolderArg where
  | absent
  | null
  | explicit (fid : Nat)
deriving DecidableEq, Repr

/-- The search predicate of `upsertReviewRecord`: a non-summary record
with the draft's `zoteroItemID`. -/
def upsertMatcher (zoteroItemID : Nat) (r : JSONStoreRecord) : Bool :=
  r.recordType ≠ ReviewRecordType.folderSummary && r.zoteroItemID = zoteroItemID

/-- The in-place overwrite of an existing record in
`upsertReviewRecord` (id, `zoteroItemID` and `createdAt` are not
reassigned; the synthesis-only source lists are cleared). -/
def overwriteFromDraft (now : Nat) (draft : LiteratureReviewDraft) (r : JSONStoreRecord) :
    JSONStoreRecord :=
  { r with
    recordType := ReviewRecordType.literature,
    title := draft.title,
    authors := draft.authors,
    journal := draft.journal,
    publicationDate := draft.publicationDate,
    abstractText := draft.abstractText,
    pdfAnnotationNotesText := draft.pdfAnnotationNotesText,
    researchBackground := draft.researchBackground,
    literatureReview := draft.literatureReview,
    researchMethods := draft.researchMethods,
    researchConclusions := draft.researchConclusions,
    keyFindings := normalizeStringArray draft.keyFindings,
    classificationTags := normalizeStringArray draft.classificationTags,
    aiProvider := draft.aiProvider,
    aiModel := draft.aiModel,
    rawAIResponse := draft.rawAIResponse,
    sourceRecordIDs := [],
    sourceZoteroItemIDs := [],
    updatedAt := now }

/-- The fresh record allocated by `upsertReviewRecord` when no match
exists. -/
def newRecordFromDraft (now id : Nat) (draft : LiteratureReviewDraft) : JSONStoreRecord :=
  { id := id,
    zoteroItemID := draft.zoteroItemID,
    recordType := ReviewRecordType.literature,
    title := draft.title,
    authors := draft.authors,
    journal := draft.journal,
    publicationDate := draft.publicationDate,
    abstractText := draft.abstractText,
    pdfAnnotationNotesText := draft.pdfAnnotationNotesText,
    researchBackground := draft.researchBackground,
    literatureReview := draft.literatureReview,
    researchMethods := draft.researchMethods,
    researchConclusions := draft.researchConclusions,
    keyFindings := normalizeStringArray draft.keyFindings,
    classificationTags := normalizeStringArray draft.classificationTags,
    aiProvider := draft.aiProvider,
    aiModel := draft.aiModel,
    rawAIResponse := draft.rawAIResponse,
    sourceRecordIDs := [],
    sourceZoteroItemIDs := [],
    createdAt := now,
    updatedAt := now }

/-- Replace the first list entry satisfying `p` by its image under `f`
(the in-place mutation of the record `Array.prototype.find` returned). -/
def replaceFirst {α : Type} (p : α → Bool) (f : α → α) : List α → List α
  | [] => []
  | x :: xs => if p x then f x :: xs else x :: replaceFirst p f xs

/-- `upsertReviewRecord`. -/
def upsertReviewRecord (now : Nat) (s : JSONStoreData) (draft : LiteratureReviewDraft)
    (folderArg : FolderArg) : Except String (JSONStoreData × JSONStoreRecord) :=
  let s := ensureStoreIntegrity now s
  let step : JSONStoreData × JSONStoreRecord :=
    match s.records.find? (upsertMatcher draft.zoteroItemID) with
    | some existing =>
      let newRecords := replaceFirst (upsertMatcher draft.zoteroItemID)
        (overwriteFromDraft now draft) s.records
      ({ s with records := newRecords }, overwriteFromDraft now draft existing)
    | none =>
      let (s, id) := allocRecordID s
      let record := newRecordFromDraft now id draft
      ({ s with records := s.records ++ [record] }, record)
  let s := step.1
  let record := step.2
  let linkStep : Except String JSONStoreData :=
    match folderArg with
    | FolderArg.absent => .ok s
    | FolderArg.null =>
      match resolveTargetFolderID now s none with
      | .ok (s, actual) => .ok (addRecordFolderLink s record.id actual now)
      | .error e => .error e
    | FolderArg.explicit fid =>
      match resolveTargetFolderID now s (some fid) with
      | .ok (s, actual) => .ok (addRecordFolderLink s record.id actual now)
      | .error e => .error e
  match linkStep with
  | .error e => .error e
  | .ok s =>
    let s := normalizeRecordFolderMemberships now s (some [record.id])
    .ok (markStoreUpdated now s, record)

/-- `createFolderSummaryRecord`.  `sourceRows` carries the
`(id, zoteroItemID)` pairs of the contributing rows; the
`timestamp.slice(0, 10)` date component is modelled as the decimal
rendering of the abstract timestamp. -/
def createFolderSummaryRecord (now : Nat) (s : JSONStoreData)
    (folderID : Option Nat) (folderName : String) (summaryText : String)
    (sourceRows : List (Nat × Nat)) (aiProvider aiModel : String) :
    Except String (JSONStoreData × JSONStoreRecord) :=
  let s := ensureStoreIntegrity now s
  let normalizedFolderName := if folderName.trim = "" then "未命名文件夹" else folderName.trim
  let sourceRecordIDs := normalizeIDList (sourceRows.map (fun row => row.1))
  let sourceZoteroItemIDs := normalizePositiveIntegerList (sourceRows.map (fun row => row.2))
  let publicationDate := toString now
  let (s, id) := allocRecordID s
  let record : JSONStoreRecord :=
    { id := id,
      zoteroItemID := 0,
      recordType := ReviewRecordType.folderSummary,
      title := "合并综述：" ++ normalizedFolderName ++ "（" ++ publicationDate ++ "）",
      authors := "基于 " ++ toString sourceRecordIDs.length ++ " 篇文献",
      journal := "文件夹合并综述",
      publicationDate := publicationDate,
      abstractText := "",
      pdfAnnotationNotesText := "",
      researchBackground := "",
      literatureReview := summaryText.trim,
      researchMethods := "",
      researchConclusions := "",
      keyFindings := [],
      classificationTags := normalizeStringArray ["合并综述", normalizedFolderName],
      aiProvider := aiProvider,
      aiModel := aiModel,
      rawAIResponse := summaryText.trim,
      sourceRecordIDs := sourceRecordIDs,
      sourceZoteroItemIDs := sourceZoteroItemIDs,
      createdAt := now,
      updatedAt := now }
  let s := { s with records := s.records ++ [record] }
  match resolveTargetFolderID now s folderID with
  | .error e => .error e
  | .ok (s, actualFolderID) =>
    let s := addRecordFolderLink s record.id actualFolderID now
    let s := normalizeRecordFolderMemberships now s (some [record.id])
    .ok (markStoreUpdated now s, record)

/-- `assignReviewRecordsFolder`. -/
def assignReviewRecordsFolder (now : Nat) (s : JSONStoreData) (recordIDs : List Nat)
    (folderID : Option Nat) : Except String JSONStoreData :=
  let s := ensureStoreIntegrity now s
  let ids := normalizeIDList recordIDs
  if ids.isEmpty then .ok s
  else
    match resolveTargetFolderID now s folderID with
    | .error e => .error e
    | .ok (s, actualFolderID) =>
      let s := ids.foldl
        (fun st id =>
          if st.records.any (fun r => r.id = id) then addRecordFolderLink st id actualFolderID now
          else st)
        s
      let s := normalizeRecordFolderMemberships now s (some ids)
      let s := touchRecords now s ids
      .ok (markStoreUpdated now s)

/-- `removeReviewRecordsFromFolder`. -/
def removeReviewRecordsFromFolder (now : Nat) (s : JSONStoreData) (recordIDs : List Nat)
    (folderID : Nat) : Except String JSONStoreData :=
  let s := ensureStoreIntegrity now s
  let ids := normalizeIDList recordIDs
  if ids.isEmpty then .ok s
  else
    match findFolderByID s folderID with
    | none => .error "目标文件夹不存在"
    | some folder =>
      if isProtectedName folder.name then .error "系统文件夹不可直接移出"
      else
        let s := { s with recordFolderLinks :=
          s.recordFolderLinks.filter (fun l => ¬(l.folderID = folder.id ∧ l.recordID ∈ ids)) }
        let s := normalizeRecordFolderMemberships now s (some ids)
        let s := touchRecords now s ids
        .ok (markStoreUpdated now s)

/-- `deleteReviewRecords`: hard-delete the records and their links, and
prune the deleted ids out of every remaining record's source-tracing
lists. -/
def deleteReviewRecords (now : Nat) (s : JSONStoreData) (recordIDs : List Nat) :
    Except String (JSONStoreData × Nat) :=
  let s := ensureStoreIntegrity now s
  let ids := normalizeIDList recordIDs
  if ids.isEmpty then .ok (s, 0)
  else
    let existingIDs := s.records.map (fun r => r.id)
    let effectiveIDs := ids.filter (fun id => id ∈ existingIDs)
    if effectiveIDs.isEmpty then .ok (s, 0)
    else
      let removedZoteroItemIDs :=
        ((s.records.filter (fun r => r.id ∈ effectiveIDs ∧ 0 < r.zoteroItemID)).map
          (fun r => r.zoteroItemID))
      let s := { s with
        records := s.records.filter (fun r => r.id ∉ effectiveIDs),
        recordFolderLinks := s.recordFolderLinks.filter (fun l => l.recordID ∉ effectiveIDs) }
      let s := { s with records := s.records.map (fun r =>
        let nextSourceRecordIDs := r.sourceRecordIDs.filter (fun id => id ∉ effectiveIDs)
        let nextSourceItemIDs := r.sourceZoteroItemIDs.filter
          (fun id => id ∉ removedZoteroItemIDs)
        if nextSourceRecordIDs.length ≠ r.sourceRecordIDs.length ∨
            nextSourceItemIDs.length ≠ r.sourceZoteroItemIDs.length then
          { r with
            sourceRecordIDs := nextSourceRecordIDs,
            sourceZoteroItemIDs := nextSourceItemIDs,
            updatedAt := now }
        else r) }
      .ok (markStoreUpdated now s, effectiveIDs.length)

/-! ## Operation dispatch and the load step -/

/-- One public mutating Review Store operation (the operations named by
the link-completeness and exclusivity invariants), plus the repair pass
itself. -/
inductive StoreOp where
  | createFolder (name : List Char)
  | deleteFolder (folderID : Nat)
  | mergeFolders (folderIDs : List Nat) (newFolderName : List Char)
  | upsertRecord (draft : LiteratureReviewDraft) (folderArg : FolderArg)
  | createFolderSummary (folderID : Option Nat) (folderName : String)
      (summaryText : String) (sourceRows : List (Nat × Nat)) (aiProvider aiModel : String)
  | assignFolder (recordIDs : List Nat) (folderID : Option Nat)
  | removeFromFolder (recordIDs : List Nat) (folderID : Nat)
  | deleteRecords (recordIDs : List Nat)
  | repair
deriving DecidableEq, Repr

/-- Dispatch an operation body on the loaded store, discarding the
operation's return value. -/
def applyStoreOp (op : StoreOp) (now : Nat) (s : JSONStoreData) :
    Except String JSONStoreData :=
  match op with
  | StoreOp.createFolder name => (createReviewFolder now s name).map (fun r => r.1)
  | StoreOp.deleteFolder folderID => deleteReviewFolder now s folderID
  | StoreOp.mergeFolders folderIDs newName =>
    (mergeReviewFolders now s folderIDs newName).map (fun r => r.1)
  | StoreOp.upsertRecord draft folderArg =>
    (upsertReviewRecord now s draft folderArg).map (fun r => r.1)
  | StoreOp.createFolderSummary folderID folderName summaryText sourceRows aiProvider aiModel =>
    (createFolderSummaryRecord now s folderID folderName summaryText sourceRows
      aiProvider aiModel).map (fun r => r.1)
  | StoreOp.assignFolder recordIDs folderID => assignReviewRecordsFolder now s recordIDs folderID
  | StoreOp.removeFromFolder recordIDs folderID =>
    removeReviewRecordsFromFolder now s recordIDs folderID
  | StoreOp.deleteRecords recordIDs => (deleteReviewRecords now s recordIDs).map (fun r => r.1)
  | StoreOp.repair => .ok (ensureStoreIntegrity now s)

/-- `loadStoreData` on a persisted aggregate: parse (already typed
here), validate via `normalizeStoreData` and repair via
`ensureStoreIntegrity`. -/
def loadStoreData (now : Nat) (file : JSONStoreData) : JSONStoreData :=
  ensureStoreIntegrity now (normalizeStoreData now file)

/-- A full public operation as issued through the op-queue: load the
persisted store, then run the operation body (which repairs again, as
every exported function does). -/
def runStoreOp (op : StoreOp) (now : Nat) (file : JSONStoreData) :
    Except String JSONStoreData :=
  applyStoreOp op now (loadStoreData now file)

/-- The persisted state after an operation: a thrown operation persists
nothing. -/
def persistedAfter (op : StoreOp) (now : Nat) (file : JSONStoreData) : JSONStoreData :=
  match runStoreOp op now file with
  | .ok s => s
  | .error _ => file

/-! ## Text Chunker (`reviewAI.ts`: `chunkTextForEmbedding`) -/

/-- `EMBEDDING_CHUNK_CHARS = 1200`. -/
def EMBEDDING_CHUNK_CHARS : Nat := 1200

/-- `EMBEDDING_MAX_CHUNKS = 12`. -/
def EMBEDDING_MAX_CHUNKS : Nat := 12

/-- `EMBEDDING_TOP_K = 4`. -/
def EMBEDDING_TOP_K : Nat := 4

/-- `.replace(/\r\n/g, "\n")`. -/
def replaceCRLF : List Char → List Char
  | [] => []
  | '\r' :: '\n' :: rest => '\n' :: replaceCRLF rest
  | c :: rest => c :: replaceCRLF rest

/-- `.replace(/\u0000/g, " ")`. -/
def replaceNul (l : List Char) : List Char :=
  l.map (fun c => if c = '\x00' then ' ' else c)

/-- `.replace(/[ \t]+\n/g, "\n")`: delete spaces and tabs that sit
immediately before a newline. -/
def stripWSNL (l : List Char) : List Char :=
  l.foldr (fun c acc => if (c = ' ' ∨ c = '\t') ∧ acc.head? = some '\n' then acc else c :: acc) []

/-- `.replace(/\n{3,}/g, "\n\n")`: keep at most two newlines of every
run (`run` counts the newlines already seen in the current run). -/
def collapseNLAux : Nat → List Char → List Char
  | _, [] => []
  | run, c :: rest =>
    if c = '\n' then (if run < 2 then ['\n'] else []) ++ collapseNLAux (run + 1) rest
    else c :: collapseNLAux 0 rest

/-- `normalizeAttachmentText`. -/
def normalizeAttachmentText (text : List Char) : List Char :=
  jsTrim (collapseNLAux 0 (stripWSNL (replaceNul (replaceCRLF text))))

/-- `.split(/\n{2,}/)`: cut at every run of two or more newlines (`cur`
holds the pending piece, reversed).  `fuel` makes the recursion
structural; every step consumes at least one character, so any
`fuel ≥ l.length` gives the loop's behavior. -/
def splitParasAux : Nat → List Char → List Char → List (List Char)
  | 0, cur, _ => [cur.reverse]
  | _ + 1, cur, [] => [cur.reverse]
  | fuel + 1, cur, c :: rest =>
    if c = '\n' ∧ rest.head? = some '\n' then
      cur.reverse :: splitParasAux fuel [] (rest.dropWhile (fun x => x = '\n'))
    else splitParasAux fuel (c :: cur) rest

/-- `normalized.split(/\n{2,}/)`. -/
def splitParas (l : List Char) : List (List Char) :=
  splitParasAux l.length [] l

/-- The `flush` closure of `chunkTextForEmbedding`: push the trimmed
pending text when non-empty. -/
def flushChunk (chunks : List (List Char)) (current : List Char) : List (List Char) :=
  if jsTrim current = [] then chunks else chunks ++ [jsTrim current]

/-- The `for (let i = 0; i < paragraph.length; i += EMBEDDING_CHUNK_CHARS)`
hard-split loop.  The `Bool` is `true` when the loop hit
`EMBEDDING_MAX_CHUNKS` and returned from the whole function.  `fuel`
makes the recursion structural; every step consumes
`EMBEDDING_CHUNK_CHARS ≥ 1` characters, so any `fuel ≥ p.length` gives
the loop's behavior. -/
def hardSplitLoop : Nat → List Char → List (List Char) → List (List Char) × Bool
  | _, [], chunks => (chunks, false)
  | 0, _ :: _, chunks => (chunks, false)
  | fuel + 1, c :: p, chunks =>
    let chunks1 := chunks ++ [jsTrim ((c :: p).take EMBEDDING_CHUNK_CHARS)]
    if EMBEDDING_MAX_CHUNKS ≤ chunks1.length then (chunks1, true)
    else hardSplitLoop fuel ((c :: p).drop EMBEDDING_CHUNK_CHARS) chunks1

/-- The `candidate` string of one packing iteration:
`current ? current + "\n\n" + paragraph : paragraph`. -/
def joinCandidate (current p : List Char) : List Char :=
  if current ≠ [] then current ++ '\n' :: '\n' :: p else p

/-- One packing iteration (`candidate`, conditional `flush`, new
`current`), returning the updated `(chunks, current)` pair. -/
def packStep (chunks : List (List Char)) (current p : List Char) :
    List (List Char) × List Char :=
  if EMBEDDING_CHUNK_CHARS < (joinCandidate current p).length ∧ current ≠ [] then
    (flushChunk chunks current, p)
  else (chunks, joinCandidate current p)

/-- The main paragraph loop of `chunkTextForEmbedding`.  The `Bool`
marks the early `return chunks.filter(Boolean)` inside the hard-split
path; `paragraph.length > EMBEDDING_CHUNK_CHARS * 1.5` is
`1800 < paragraph.length` on integer lengths, and the final
`if (current && chunks.length < EMBEDDING_MAX_CHUNKS) flush()` after
the loop is the `[]` case (after a `break` at `EMBEDDING_MAX_CHUNKS`
chunks that flush condition is false, so returning the chunks directly
models it). -/
def chunkCollect : List (List Char) → List (List Char) → List Char →
    List (List Char) × Bool
  | [], chunks, current =>
    (if current ≠ [] ∧ chunks.length < EMBEDDING_MAX_CHUNKS then flushChunk chunks current
     else chunks, false)
  | p :: rest, chunks, current =>
    if 1800 < p.length then
      match hardSplitLoop p.length p
          (if current ≠ [] then flushChunk chunks current else chunks) with
      | (newChunks, true) => (newChunks, true)
      | (newChunks, false) => chunkCollect rest newChunks []
    else
      match packStep chunks current p with
      | (newChunks, newCurrent) =>
        if EMBEDDING_MAX_CHUNKS ≤ newChunks.length then (newChunks, false)
        else chunkCollect rest newChunks newCurrent

/-- `chunkTextForEmbedding`. -/
def chunkTextForEmbedding (text : List Char) : List (List Char) :=
  let normalized := normalizeAttachmentText text
  if normalized = [] then []
  else
    let paragraphs := ((splitParas normalized).map jsTrim).filter (fun p => p ≠ [])
    let result := chunkCollect paragraphs [] []
    if result.2 then result.1.filter (fun c => c ≠ [])
    else (result.1.filter (fun c => c ≠ [])).take EMBEDDING_MAX_CHUNKS

/-! ## Vector Ranker (`reviewAI.ts`: `toNumericVector`,
`cosineSimilarity` and the rank/select pipeline)

A raw vector element is `Option ℚ`: `some q` is a finite number, `none`
a non-finite entry (`NaN`/`±Infinity`) that `Number.isFinite` rejects.
Scores are real numbers (the float arithmetic of the source, modelled
exactly over `ℝ`). -/

/-- `toNumericVector`: keep the finite entries. -/
def toNumericVector (value : List (Option ℚ)) : List ℚ :=
  value.filterMap id

/-- `cosineSimilarity`: `-1` for degenerate input (empty common prefix
or a zero norm), else `dot / (‖a‖ ‖b‖)` over the common prefix. -/
noncomputable def cosineSimilarity (a b : List ℚ) : ℝ :=
  let pairs := a.zip b
  if pairs.length = 0 then -1
  else
    let dot := (pairs.map (fun p => p.1 * p.2)).sum
    let normA := (pairs.map (fun p => p.1 * p.1)).sum
    let normB := (pairs.map (fun p => p.2 * p.2)).sum
    if normA = 0 ∨ normB = 0 then -1
    else (dot : ℝ) / (Real.sqrt (normA : ℝ) * Real.sqrt (normB : ℝ))

/-- One entry of the `ranked` array: original chunk index, validated
vector, similarity score. -/
structure RankedChunk where
  index : Nat
  vec : List ℚ
  score : ℝ

/-- `chunks.map((text, index) => ...).filter(Boolean)`: one candidate
per chunk (the raw vector list carries one entry per chunk), dropping
candidates whose validated vector is empty. -/
noncomputable def rankCandidates (queryVector : List ℚ)
    (docVectorsRaw : List (List (Option ℚ))) : List RankedChunk :=
  docVectorsRaw.enum.filterMap (fun p =>
    let vector := toNumericVector p.2
    if vector = [] then none
    else some ⟨p.1, vector, cosineSimilarity queryVector vector⟩)

/-- The comparator `(a, b) => b.score - a.score` (descending score). -/
def scoreDesc (a b : RankedChunk) : Prop := b.score ≤ a.score

/-- The comparator `(a, b) => a.index - b.index` (ascending index). -/
def indexAsc (a b : RankedChunk) : Prop := a.index ≤ b.index

noncomputable instance : DecidableRel scoreDesc :=
  fun a b => Real.decidableLE b.score a.score

instance : DecidableRel indexAsc :=
  fun a b => Nat.decLe a.index b.index

instance : IsTotal RankedChunk scoreDesc :=
  ⟨fun a b => le_total b.score a.score⟩

instance : IsTrans RankedChunk scoreDesc :=
  ⟨fun _ _ _ hab hbc => le_trans hbc hab⟩

instance : IsTotal RankedChunk indexAsc :=
  ⟨fun a b => Nat.le_total a.index b.index⟩

instance : IsTrans RankedChunk indexAsc :=
  ⟨fun _ _ _ hab hbc => Nat.le_trans hab hbc⟩

/-- `ranked.sort((a, b) => b.score - a.score).slice(0, k)
.sort((a, b) => a.index - b.index)` — ECMAScript `Array.prototype.sort`
is a stable sort, modelled by the stable `insertionSort`. -/
noncomputable def selectTopK (k : Nat) (ranked : List RankedChunk) : List RankedChunk :=
  List.insertionSort indexAsc ((List.insertionSort scoreDesc ranked).take k)

/-- The whole ranking pipeline of
`tryBuildPDFEmbeddingContext(ViaAPI)`, reduced to the selected chunk
indices (the source maps the selection back to `[片段i] text` excerpt
lines in exactly this order).  The empty result models the early
`return ""` paths (empty query vector, no valid candidate). -/
noncomputable def selectTopKIndices (k : Nat) (queryRaw : List (Option ℚ))
    (docVectorsRaw : List (List (Option ℚ))) : List Nat :=
  if toNumericVector queryRaw = [] then []
  else if (rankCandidates (toNumericVector queryRaw) docVectorsRaw).isEmpty then []
  else (selectTopK k (rankCandidates (toNumericVector queryRaw) docVectorsRaw)).map
    (fun c => c.index)

/-! ## Prompt Assembler (`reviewAI.ts`: `buildPrompt`,
`buildFolderSummaryPrompt`)

`String.prototype.replace` with a global literal-text regex is modelled
by `jsReplaceAll`: every (left-to-right, non-overlapping) occurrence of
the pattern is replaced by the replacement string processed through
ECMA-262 `GetSubstitution` (`getSubstitution`), which interprets the
`$`-escapes of the replacement; `replaceAllSeg` is the verbatim
substitution `jsReplaceAll` coincides with when the replacement holds no
`$`. -/

/-- `"\x7b\x7bsourceContent\x7d\x7d"`. -/
def PH_SOURCE : List Char := "\x7b\x7bsourceContent\x7d\x7d".toList

/-- `"\x7b\x7bsource_content\x7d\x7d"`. -/
def PH_SOURCE_US : List Char := "\x7b\x7bsource_content\x7d\x7d".toList

/-- `"\x7b\x7bfolderName\x7d\x7d"`. -/
def PH_FOLDER : List Char := "\x7b\x7bfolderName\x7d\x7d".toList

/-- `"\x7b\x7brecordsContent\x7d\x7d"`. -/
def PH_RECORDS : List Char := "\x7b\x7brecordsContent\x7d\x7d".toList

/-- `[...].join("\n")`. -/
def joinNL : List (List Char) → List Char
  | [] => []
  | [x] => x
  | x :: rest => x ++ '\n' :: joinNL rest

/-- `regex.test(s)` for a literal-text pattern: does `pat` occur in `l`? -/
def containsSeg (pat : List Char) : List Char → Bool
  | [] => pat.isPrefixOf []
  | c :: rest => pat.isPrefixOf (c :: rest) || containsSeg pat rest

/-- `.replace(/pat/g, repl)` for a literal-text pattern: replace every
(left-to-right, non-overlapping) occurrence.  `fuel` makes the
recursion structural; every step consumes at least one character, so
any `fuel ≥ l.length` gives the loop's behavior (on exhausted fuel the
rest is kept as is). -/
def replaceAllSegAux (pat repl : List Char) : Nat → List Char → List Char
  | 0, l => l
  | _ + 1, [] => []
  | fuel + 1, c :: rest =>
    if pat ≠ [] ∧ pat.isPrefixOf (c :: rest) then
      repl ++ replaceAllSegAux pat repl fuel ((c :: rest).drop pat.length)
    else c :: replaceAllSegAux pat repl fuel rest

/-- Verbatim global substitution (no processing of the replacement). -/
def replaceAllSeg (pat repl l : List Char) : List Char :=
  replaceAllSegAux pat repl l.length l

/-- ECMA-262 `GetSubstitution` on the replacement string, for a match of
the literal pattern `matched` (the assembler's global regexes have no
capture groups): `$$` yields `$`, `$&` the matched text, `$\x60` the part
of the original string before the match, `$\x27` the part after it; any
other `$` stays literal (with no capture groups `$n` and `$<` are
literal text). -/
def getSubstitution (matched pre post : List Char) : List Char → List Char
  | [] => []
  | c :: rest =>
    if c = '$' then
      match rest with
      | [] => [c]
      | d :: rest' =>
        if d = '$' then '$' :: getSubstitution matched pre post rest'
        else if d = '&' then matched ++ getSubstitution matched pre post rest'
        else if d = '\x60' then pre ++ getSubstitution matched pre post rest'
        else if d = '\x27' then post ++ getSubstitution matched pre post rest'
        else c :: d :: getSubstitution matched pre post rest'
    else c :: getSubstitution matched pre post rest

/-- `.replace(/pat/g, repl)` with the replacement processed by
`GetSubstitution` at every match, as `String.prototype.replace` does
with a string replacement; `seen` carries the part of the original
string already consumed, which `$\x60` refers to. -/
def jsReplaceAllAux (pat repl : List Char) : Nat → List Char → List Char → List Char
  | 0, _, l => l
  | _ + 1, _, [] => []
  | fuel + 1, seen, c :: rest =>
    if pat ≠ [] ∧ pat.isPrefixOf (c :: rest) then
      getSubstitution pat seen ((c :: rest).drop pat.length) repl ++
        jsReplaceAllAux pat repl fuel (seen ++ pat) ((c :: rest).drop pat.length)
    else c :: jsReplaceAllAux pat repl fuel (seen ++ [c]) rest

/-- `.replace(/pat/g, repl)`. -/
def jsReplaceAll (pat repl l : List Char) : List Char :=
  jsReplaceAllAux pat repl l.length [] l

/-- `DEFAULT_REVIEW_PROMPT_TEMPLATE` (the `[...].join("\n")` constant). -/
def DEFAULT_REVIEW_PROMPT_TEMPLATE : List Char :=
  joinNL [
    "请根据以下文献信息生成结构化提炼结果。".toList,
    "要求：".toList,
    "1. 仅返回 JSON 对象，不要代码块。".toList,
    "2. 使用中文输出（title/authors/journal/publicationDate 可保留原文）。".toList,
    "3. 字段必须包含：title, authors, journal, publicationDate, abstract, researchBackground, literatureReview, researchMethods, researchConclusions, keyFindings, classificationTags".toList,
    "4. keyFindings 和 classificationTags 必须是字符串数组。".toList,
    "5. 若信息不足，请明确写出“信息不足”而不是编造。".toList,
    [],
    "文献信息如下：".toList,
    PH_SOURCE]

/-- `DEFAULT_FOLDER_SUMMARY_PROMPT_TEMPLATE`. -/
def DEFAULT_FOLDER_SUMMARY_PROMPT_TEMPLATE : List Char :=
  joinNL [
    "请基于同一文件夹下的多篇文献提炼记录，生成一份中文综合综述。".toList,
    "要求：".toList,
    "1. 输出结构清晰、便于阅读，可使用分标题。".toList,
    "2. 至少包含：主题概述、研究脉络、方法比较、主要结论、分歧与局限、未来方向。".toList,
    "3. 严格基于提供的记录信息，不要编造文献细节。".toList,
    "4. 如果信息不足，请明确指出不足之处。".toList,
    [],
    "文件夹名称：".toList ++ PH_FOLDER,
    [],
    "记录内容如下：".toList,
    PH_RECORDS]

/-- `buildPrompt`. -/
def buildPrompt (sourceContent : List Char) (customPromptTemplate : List Char) : List Char :=
  let template := jsTrim customPromptTemplate
  if template = [] then
    jsReplaceAll PH_SOURCE sourceContent DEFAULT_REVIEW_PROMPT_TEMPLATE
  else if containsSeg PH_SOURCE template || containsSeg PH_SOURCE_US template then
    jsReplaceAll PH_SOURCE_US sourceContent (jsReplaceAll PH_SOURCE sourceContent template)
  else
    joinNL [template, [], "文献信息如下：".toList, sourceContent]

/-- `buildFolderSummaryPrompt`. -/
def buildFolderSummaryPrompt (folderName recordsContent customPromptTemplate : List Char) :
    List Char :=
  let template := jsTrim customPromptTemplate
  if template = [] then
    jsReplaceAll PH_RECORDS recordsContent
      (jsReplaceAll PH_FOLDER folderName DEFAULT_FOLDER_SUMMARY_PROMPT_TEMPLATE)
  else
    let hasFolderPlaceholder := containsSeg PH_FOLDER template
    let hasRecordsPlaceholder := containsSeg PH_RECORDS template
    let prompt := jsReplaceAll PH_RECORDS recordsContent
      (jsReplaceAll PH_FOLDER folderName template)
    if ¬hasFolderPlaceholder ∨ ¬hasRecordsPlaceholder then
      joinNL (([prompt, [],
        (if hasFolderPlaceholder then [] else "文件夹名称：".toList ++ folderName),
        (if hasRecordsPlaceholder then []
         else "记录内容如下：".toList ++ '\n' :: recordsContent)]).filter (fun x => x ≠ []))
    else prompt

/-- The overlap-freeness conditions under which occurrences of `pat₂`
survive a global replacement of `pat₁`: `pat₂` does not sit inside
`pat₁`, no non-empty suffix of `pat₁` is a prefix of `pat₂` (a match
cannot end inside an occurrence), and no match can begin strictly
inside an occurrence. -/
def NoCross (pat₁ pat₂ : List Char) : Prop :=
  (¬pat₂ <:+: pat₁) ∧
  (∀ s, s <:+ pat₁ → s ≠ [] → ¬s <+: pat₂) ∧
  (∀ j, 1 ≤ j → j < pat₂.length → ¬pat₁ <+: pat₂.drop j) ∧
  (∀ j, 1 ≤ j → j < pat₂.length → ¬pat₂.drop j <+: pat₁)

/-! ## Derived notions for the store invariants (claims C1 and C2) -/

/-- The membership links of one record id. -/
def linksOf (s : JSONStoreData) (rid : Nat) : List JSONStoreRecordFolderLink :=
  s.recordFolderLinks.filter (fun l => l.recordID = rid)

/-- Link completeness for one record id: it holds at least one
membership link. -/
def LinkComplete (s : JSONStoreData) (rid : Nat) : Prop :=
  ∃ l ∈ s.recordFolderLinks, l.recordID = rid

/-- Default-folder exclusivity for one record id: it is never linked to
folder `d` while also holding a link to another folder. -/
def DefaultExclusive (s : JSONStoreData) (d rid : Nat) : Prop :=
  ¬((∃ l ∈ s.recordFolderLinks, l.recordID = rid ∧ l.folderID = d) ∧
    (∃ l ∈ s.recordFolderLinks, l.recordID = rid ∧ l.folderID ≠ d))

/-- Both per-record invariants at once. -/
def GoodRec (d : Nat) (s : JSONStoreData) (rid : Nat) : Prop :=
  LinkComplete s rid ∧ DefaultExclusive s d rid

/-- Claims C1 and C2 for every record of a store: each record has a
membership link and is never linked both to the default folder and to
another folder. -/
def StoreGood (s : JSONStoreData) : Prop :=
  ∀ r ∈ s.records, LinkComplete s r.id ∧
    ∀ f, findFolderByName s DEFAULT_FOLDER_NAME = some f → DefaultExclusive s f.id r.id

/-- The id list the `normalizeRecordFolderMemberships` loop iterates
over. -/
def nmIDs (s : JSONStoreData) (recordIDs : Option (List Nat)) : List Nat :=
  match recordIDs with
  | some l => if l.isEmpty then s.records.map (fun r => r.id) else normalizeIDList l
  | none => s.records.map (fun r => r.id)

/-- The state `ensureStoreIntegrity` has built just before its
membership-normalization pass: stamps fixed, default folder ensured,
links filtered and de-duplicated, folders de-duplicated. -/
def integrityPre (now : Nat) (s : JSONStoreData) : JSONStoreData :=
  let s1 := { s with
    schemaVersion := 2,
    createdAt := if s.createdAt = 0 then now else s.createdAt,
    updatedAt := if s.updatedAt = 0 then now else s.updatedAt }
  let s2 := (ensureDefaultFolder now s1).1
  let folderIDs := s2.folders.map (fun f => f.id)
  let recordIDs := s2.records.map (fun r => r.id)
  let s3 := { s2 with recordFolderLinks := filterDedupLinks folderIDs recordIDs s2.recordFolderLinks }
  { s3 with folders := dedupFolders s3.folders }

/-- Every folder row has a positive id. -/
def FoldersPos (s : JSONStoreData) : Prop := ∀ f ∈ s.folders, 0 < f.id

/-- Every record row has a positive id. -/
def RecordsPos (s : JSONStoreData) : Prop := ∀ r ∈ s.records, 0 < r.id

/-- The folder-id counter dominates every folder row. -/
def FolderIDBound (s : JSONStoreData) : Prop := ∀ f ∈ s.folders, f.id < s.nextFolderID

/-- The folder-id counter dominates every membership link's target. -/
def LinkFolderBound (s : JSONStoreData) : Prop :=
  ∀ l ∈ s.recordFolderLinks, l.folderID < s.nextFolderID

/-- No two folder rows share a trim/lowercase name key. -/
def KeysUnique (s : JSONStoreData) : Prop :=
  s.folders.Pairwise (fun a b => folderKey a.name ≠ folderKey b.name)

/-- Every folder row's name is reload-stable: at most 100 characters
and with a non-empty name key. -/
def GoodNames (s : JSONStoreData) : Prop :=
  ∀ f ∈ s.folders, f.name.length ≤ 100 ∧ folderKey f.name ≠ []

/-! ## Concrete instances for the store claims -/

/-- A fresh (all-empty, all-zero) persisted aggregate. -/
def emptyStore : JSONStoreData :=
  { schemaVersion := 0, createdAt := 0, updatedAt := 0,
    nextFolderID := 0, nextRecordID := 0, nextEventID := 0,
    folders := [], records := [], recordFolderLinks := [], events := [] }

/-- A minimal literature record. -/
def sampleRecord (id zid : Nat) : JSONStoreRecord :=
  { id := id, zoteroItemID := zid, recordType := ReviewRecordType.literature,
    title := "t", authors := "", journal := "", publicationDate := "",
    abstractText := "", pdfAnnotationNotesText := "", researchBackground := "",
    literatureReview := "", researchMethods := "", researchConclusions := "",
    keyFindings := [], classificationTags := [], aiProvider := "", aiModel := "",
    rawAIResponse := "", sourceRecordIDs := [], sourceZoteroItemIDs := [],
    createdAt := 1, updatedAt := 1 }

/-- A store file holding one record with no membership links. -/
def orphanStore : JSONStoreData := { emptyStore with records := [sampleRecord 1 7] }

/-- A minimal upsert draft. -/
def sampleDraft (zid : Nat) (title : String) : LiteratureReviewDraft :=
  { zoteroItemID := zid, title := title, authors := "a", journal := "j",
    publicationDate := "2024", abstractText := "abs", pdfAnnotationNotesText := "",
    researchBackground := "", literatureReview := "lr", researchMethods := "",
    researchConclusions := "", keyFindings := [], classificationTags := [],
    aiProvider := "p", aiModel := "m", rawAIResponse := "raw" }

/-- The payload of an ok store result (fallback for the error case). -/
def okStoreOf (dflt : JSONStoreData) : Except String JSONStoreData → JSONStoreData
  | Except.ok s => s
  | Except.error _ => dflt

/-- The payload of an ok (store, record) result. -/
def okPairOf (dflt : JSONStoreData × JSONStoreRecord) :
    Except String (JSONStoreData × JSONStoreRecord) → JSONStoreData × JSONStoreRecord
  | Except.ok p => p
  | Except.error _ => dflt

/-- The payload of an ok (store, folder) result. -/
def okFolderPairOf (dflt : JSONStoreData × JSONStoreFolder) :
    Except String (JSONStoreData × JSONStoreFolder) → JSONStoreData × JSONStoreFolder
  | Except.ok p => p
  | Except.error _ => dflt

/-! ## Lemmas about the Text Chunker -/

theorem jsTrim_length_le (l : List Char) : (jsTrim l).length ≤ l.length := by
  unfold jsTrim
  calc ((l.dropWhile isJsSpace).reverse.dropWhile isJsSpace).reverse.length
      = ((l.dropWhile isJsSpace).reverse.dropWhile isJsSpace).length := by
        exact List.length_reverse _
    _ ≤ (l.dropWhile isJsSpace).reverse.length :=
        ((l.dropWhile isJsSpace).reverse.dropWhile_sublist isJsSpace).length_le
    _ = (l.dropWhile isJsSpace).length := List.length_reverse _
    _ ≤ l.length := (l.dropWhile_sublist isJsSpace).length_le

theorem flushChunk_bound {chunks : List (List Char)} {current : List Char} {B : Nat}
    (hc : ∀ c ∈ chunks, c.length ≤ B) (hcur : current.length ≤ B) :
    ∀ c ∈ flushChunk chunks current, c.length ≤ B := by
  intro c hmem
  unfold flushChunk at hmem
  by_cases h : jsTrim current = []
  · rw [if_pos h] at hmem; exact hc c hmem
  · rw [if_neg h] at hmem
    rcases List.mem_append.mp hmem with h1 | h1
    · exact hc c h1
    · have : c = jsTrim current := by simpa using h1
      subst this
      exact le_trans (jsTrim_length_le current) hcur

theorem hardSplitLoop_bound (fuel : Nat) (p : List Char) (chunks : List (List Char))
    (hc : ∀ c ∈ chunks, c.length ≤ 1800) :
    ∀ c ∈ (hardSplitLoop fuel p chunks).1, c.length ≤ 1800 := by
  induction fuel generalizing p chunks with
  | zero =>
    intro c hmem
    cases p with
    | nil => exact hc c hmem
    | cons a q => exact hc c hmem
  | succ fuel ih =>
    intro c hmem
    cases p with
    | nil => exact hc c hmem
    | cons a q =>
      have hpush : ∀ c ∈ chunks ++ [jsTrim ((a :: q).take EMBEDDING_CHUNK_CHARS)],
          c.length ≤ 1800 := by
        intro x hx
        rcases List.mem_append.mp hx with h1 | h1
        · exact hc x h1
        · have : x = jsTrim ((a :: q).take EMBEDDING_CHUNK_CHARS) := by simpa using h1
          subst this
          calc (jsTrim ((a :: q).take EMBEDDING_CHUNK_CHARS)).length
              ≤ ((a :: q).take EMBEDDING_CHUNK_CHARS).length := jsTrim_length_le _
            _ ≤ EMBEDDING_CHUNK_CHARS := by
                simpa using List.length_take_le EMBEDDING_CHUNK_CHARS (a :: q)
            _ ≤ 1800 := by norm_num [EMBEDDING_CHUNK_CHARS]
      rw [hardSplitLoop] at hmem
      by_cases hful : EMBEDDING_MAX_CHUNKS ≤
          (chunks ++ [jsTrim ((a :: q).take EMBEDDING_CHUNK_CHARS)]).length
      · simp only [hful, if_pos] at hmem
        exact hpush c hmem
      · simp only [hful, if_neg, not_false_iff] at hmem
        exact ih _ _ hpush c hmem

theorem packStep_bound {chunks : List (List Char)} {current p : List Char}
    (hc : ∀ c ∈ chunks, c.length ≤ 1800) (hcur : current.length ≤ 1800)
    (hp : p.length ≤ 1800) :
    (∀ c ∈ (packStep chunks current p).1, c.length ≤ 1800) ∧
      (packStep chunks current p).2.length ≤ 1800 := by
  unfold packStep
  by_cases hcond : EMBEDDING_CHUNK_CHARS < (joinCandidate current p).length ∧ current ≠ []
  · rw [if_pos hcond]
    exact ⟨flushChunk_bound hc hcur, hp⟩
  · rw [if_neg hcond]
    refine ⟨hc, ?_⟩
    show (joinCandidate current p).length ≤ 1800
    by_cases hcur' : current ≠ []
    · have hle : ¬EMBEDDING_CHUNK_CHARS < (joinCandidate current p).length := fun h =>
        hcond ⟨h, hcur'⟩
      simp only [EMBEDDING_CHUNK_CHARS] at hle
      omega
    · unfold joinCandidate
      rw [if_neg hcur']
      exact hp

theorem chunkCollect_bound (paras : List (List Char)) (chunks : List (List Char))
    (current : List Char) (hc : ∀ c ∈ chunks, c.length ≤ 1800)
    (hcur : current.length ≤ 1800) :
    ∀ c ∈ (chunkCollect paras chunks current).1, c.length ≤ 1800 := by
  induction paras generalizing chunks current with
  | nil =>
    intro c hmem
    rw [chunkCollect] at hmem
    by_cases h : current ≠ [] ∧ chunks.length < EMBEDDING_MAX_CHUNKS
    · simp only [if_pos h] at hmem
      exact flushChunk_bound hc hcur c hmem
    · simp only [if_neg h] at hmem
      exact hc c hmem
  | cons p rest ih =>
    intro c hmem
    rw [chunkCollect] at hmem
    by_cases hbig : 1800 < p.length
    · rw [if_pos hbig] at hmem
      have hc1 : ∀ x ∈ (if current ≠ [] then flushChunk chunks current else chunks),
          x.length ≤ 1800 := by
        by_cases hcur' : current ≠ []
        · rw [if_pos hcur']
          exact flushChunk_bound hc hcur
        · rw [if_neg hcur']
          exact hc
      have hhsb := hardSplitLoop_bound p.length p _ hc1
      rcases hhs : hardSplitLoop p.length p
          (if current ≠ [] then flushChunk chunks current else chunks) with ⟨newChunks, early⟩
      rw [hhs] at hhsb
      simp only [hhs] at hmem
      cases early with
      | true =>
        simp only at hmem
        exact hhsb c hmem
      | false =>
        simp only at hmem
        exact ih newChunks [] hhsb (by simp) c hmem
    · rw [if_neg hbig] at hmem
      have hpb := packStep_bound hc hcur (Nat.le_of_not_lt hbig)
      rcases hps : packStep chunks current p with ⟨newChunks, newCurrent⟩
      rw [hps] at hpb
      simp only [hps] at hmem
      by_cases hful : EMBEDDING_MAX_CHUNKS ≤ newChunks.length
      · rw [if_pos hful] at hmem
        exact hpb.1 c hmem
      · rw [if_neg hful] at hmem
        exact ih newChunks newCurrent hpb.1 hpb.2 c hmem

theorem chunkTextForEmbedding_le_1800 (text : List Char) :
    ∀ c ∈ chunkTextForEmbedding text, c.length ≤ 1800 := by
  intro c hmem
  unfold chunkTextForEmbedding at hmem
  by_cases h : normalizeAttachmentText text = []
  · simp [h] at hmem
  · simp only [h, if_neg, not_false_iff] at hmem
    set paragraphs := ((splitParas (normalizeAttachmentText text)).map jsTrim).filter
      (fun p => p ≠ []) with hp
    have hbound := chunkCollect_bound paragraphs [] [] (by simp) (by simp)
    by_cases hres : (chunkCollect paragraphs [] []).2
    · simp only [hres, if_pos] at hmem
      exact hbound c (List.mem_of_mem_filter hmem)
    · simp only [hres, if_neg, Bool.false_eq_true, not_false_iff] at hmem
      exact hbound c (List.mem_of_mem_filter (List.mem_of_mem_take hmem))

/-! ### Evaluating the chunker on single-paragraph texts of `'a'`s -/

theorem replaceCRLF_cons_ne {c : Char} (l : List Char) (h : c ≠ '\r') :
    replaceCRLF (c :: l) = c :: replaceCRLF l := by
  rw [replaceCRLF.eq_def]
  split
  · rename_i heq
    exact absurd heq (by simp)
  · rename_i rest heq
    rw [List.cons.injEq] at heq
    exact absurd heq.1 h
  · rename_i c' rest' hguard heq
    rw [List.cons.injEq] at heq
    rw [heq.1, heq.2]

theorem replaceCRLF_replicate_a (n : Nat) :
    replaceCRLF (List.replicate n 'a') = List.replicate n 'a' := by
  induction n with
  | zero => rfl
  | succ n ih =>
    rw [List.replicate_succ, replaceCRLF_cons_ne _ (by decide), ih]

theorem replaceNul_replicate_a (n : Nat) :
    replaceNul (List.replicate n 'a') = List.replicate n 'a' := by
  unfold replaceNul
  rw [List.map_replicate]
  congr 1

theorem stripWSNL_replicate_a (n : Nat) :
    stripWSNL (List.replicate n 'a') = List.replicate n 'a' := by
  induction n with
  | zero => rfl
  | succ n ih =>
    rw [List.replicate_succ]
    unfold stripWSNL at ih ⊢
    have hcond : ¬(('a' = ' ' ∨ 'a' = '\t') ∧ (List.replicate n 'a').head? = some '\n') := by
      rintro ⟨h1, -⟩
      rcases h1 with h1 | h1 <;> exact absurd h1 (by decide)
    rw [List.foldr_cons, ih, if_neg hcond]

theorem collapseNLAux_replicate_a (run n : Nat) :
    collapseNLAux run (List.replicate n 'a') = List.replicate n 'a' := by
  induction n generalizing run with
  | zero => rfl
  | succ n ih =>
    rw [List.replicate_succ, collapseNLAux, if_neg (by decide), ih]

theorem jsTrim_replicate_a (n : Nat) :
    jsTrim (List.replicate n 'a') = List.replicate n 'a' := by
  unfold jsTrim
  cases n with
  | zero => rfl
  | succ n =>
    have hdrop : ∀ m : Nat, (List.replicate m 'a').dropWhile isJsSpace = List.replicate m 'a' := by
      intro m
      cases m with
      | zero => rfl
      | succ m =>
        rw [List.replicate_succ, List.dropWhile_cons, if_neg (by decide)]
    rw [hdrop, List.reverse_replicate, hdrop, List.reverse_replicate]

theorem normalizeAttachmentText_replicate_a (n : Nat) :
    normalizeAttachmentText (List.replicate n 'a') = List.replicate n 'a' := by
  unfold normalizeAttachmentText
  rw [replaceCRLF_replicate_a, replaceNul_replicate_a, stripWSNL_replicate_a,
    collapseNLAux_replicate_a, jsTrim_replicate_a]

theorem splitParasAux_replicate_a (m : Nat) :
    ∀ fuel cur, m ≤ fuel →
      splitParasAux fuel cur (List.replicate m 'a') = [cur.reverse ++ List.replicate m 'a'] := by
  induction m with
  | zero =>
    intro fuel cur _
    cases fuel with
    | zero => simp [splitParasAux]
    | succ fuel => simp [splitParasAux]
  | succ m ih =>
    intro fuel cur hfuel
    cases fuel with
    | zero => omega
    | succ fuel =>
      rw [List.replicate_succ, splitParasAux]
      have hcond : ¬('a' = '\n' ∧ (List.replicate m 'a').head? = some '\n') := by
        rintro ⟨h, _⟩
        exact absurd h (by decide)
      rw [if_neg hcond, ih fuel ('a' :: cur) (by omega)]
      simp

theorem splitParas_replicate_a (m : Nat) :
    splitParas (List.replicate m 'a') = [List.replicate m 'a'] := by
  unfold splitParas
  rw [List.length_replicate, splitParasAux_replicate_a m m [] le_rfl]
  simp

theorem hardSplitLoop_step (fuel n : Nat) (chunks : List (List Char))
    (h1200 : 1200 < n) (hlen : chunks.length + 1 < 12) :
    hardSplitLoop (fuel + 1) (List.replicate n 'a') chunks =
      hardSplitLoop fuel (List.replicate (n - 1200) 'a')
        (chunks ++ [List.replicate 1200 'a']) := by
  obtain ⟨n', rfl⟩ : ∃ n', n = n' + 1 := ⟨n - 1, by omega⟩
  rw [List.replicate_succ, hardSplitLoop]
  have htake : ('a' :: List.replicate n' 'a').take EMBEDDING_CHUNK_CHARS =
      List.replicate 1200 'a' := by
    rw [← List.replicate_succ, List.take_replicate]
    norm_num [EMBEDDING_CHUNK_CHARS]
    omega
  have hdrop : ('a' :: List.replicate n' 'a').drop EMBEDDING_CHUNK_CHARS =
      List.replicate (n' + 1 - 1200) 'a' := by
    rw [← List.replicate_succ, List.drop_replicate]
    norm_num [EMBEDDING_CHUNK_CHARS]
  rw [htake, hdrop, jsTrim_replicate_a]
  rw [if_neg (show ¬(EMBEDDING_MAX_CHUNKS ≤ (chunks ++ [List.replicate 1200 'a']).length) by
    rw [List.length_append, List.length_singleton]
    simp only [EMBEDDING_MAX_CHUNKS]
    omega)]

theorem hardSplitLoop_base (fuel n : Nat) (chunks : List (List Char))
    (h0 : 0 < n) (h1200 : n ≤ 1200) (hlen : chunks.length + 1 < 12) :
    hardSplitLoop (fuel + 1) (List.replicate n 'a') chunks =
      (chunks ++ [List.replicate n 'a'], false) := by
  obtain ⟨n', rfl⟩ : ∃ n', n = n' + 1 := ⟨n - 1, by omega⟩
  rw [List.replicate_succ, hardSplitLoop]
  have htake : ('a' :: List.replicate n' 'a').take EMBEDDING_CHUNK_CHARS =
      List.replicate (n' + 1) 'a' := by
    rw [← List.replicate_succ, List.take_replicate]
    congr 1
    simp [EMBEDDING_CHUNK_CHARS]
    omega
  have hdrop : ('a' :: List.replicate n' 'a').drop EMBEDDING_CHUNK_CHARS = [] := by
    rw [← List.replicate_succ, List.drop_replicate]
    simp [EMBEDDING_CHUNK_CHARS]
    omega
  rw [htake, hdrop, jsTrim_replicate_a]
  rw [if_neg (show ¬(EMBEDDING_MAX_CHUNKS ≤ (chunks ++ [List.replicate (n' + 1) 'a']).length) by
    rw [List.length_append, List.length_singleton]
    simp only [EMBEDDING_MAX_CHUNKS]
    omega)]
  cases fuel with
  | zero => rfl
  | succ fuel => rfl

theorem replicate_a_ne_nil {n : Nat} (h : 0 < n) : List.replicate n 'a' ≠ [] := by
  intro he
  have hlen := congrArg List.length he
  rw [List.length_replicate] at hlen
  simp only [List.length_nil] at hlen
  omega

theorem chunker_single_paragraph (n : Nat) (h : 0 < n) :
    chunkTextForEmbedding (List.replicate n 'a') =
      (if (chunkCollect [List.replicate n 'a'] [] []).2 then
        (chunkCollect [List.replicate n 'a'] [] []).1.filter (fun c => c ≠ [])
      else ((chunkCollect [List.replicate n 'a'] [] []).1.filter
        (fun c => c ≠ [])).take EMBEDDING_MAX_CHUNKS) := by
  unfold chunkTextForEmbedding
  rw [normalizeAttachmentText_replicate_a, if_neg (replicate_a_ne_nil h),
    splitParas_replicate_a, List.map_cons, List.map_nil, jsTrim_replicate_a]
  have hfil : List.filter (fun p => decide (p ≠ [])) [List.replicate n 'a'] =
      [List.replicate n 'a'] := by
    refine List.filter_eq_self.mpr ?_
    intro a ha
    rw [List.mem_singleton] at ha
    subst ha
    exact decide_eq_true (replicate_a_ne_nil h)
  rw [hfil]

theorem chunkCollect_3000 :
    chunkCollect [List.replicate 3000 'a'] [] [] =
      ([List.replicate 1200 'a', List.replicate 1200 'a', List.replicate 600 'a'], false) := by
  have hhs : hardSplitLoop (List.replicate 3000 'a').length (List.replicate 3000 'a') [] =
      ([List.replicate 1200 'a', List.replicate 1200 'a', List.replicate 600 'a'], false) := by
    rw [List.length_replicate]
    have e1 : (3000 : Nat) = 2999 + 1 := rfl
    rw [e1, hardSplitLoop_step 2999 3000 [] (by norm_num) (by norm_num)]
    have e2 : (2999 : Nat) = 2998 + 1 := rfl
    have e3 : (3000 - 1200 : Nat) = 1800 := rfl
    rw [e3, e2, hardSplitLoop_step 2998 1800 _ (by norm_num) (by norm_num)]
    have e4 : (2998 : Nat) = 2997 + 1 := rfl
    have e5 : (1800 - 1200 : Nat) = 600 := rfl
    rw [e5, e4, hardSplitLoop_base 2997 600 _ (by norm_num) (by norm_num) (by norm_num)]
    rfl
  rw [chunkCollect]
  rw [if_pos (show (1800 : Nat) < (List.replicate 3000 'a').length by
    rw [List.length_replicate]; norm_num)]
  rw [if_neg (show ¬(([] : List Char) ≠ []) from fun hx => hx rfl)]
  rw [hhs]
  rfl

/-- Scenario D evaluated: a 3000-character single-paragraph text
hard-splits into chunks of 1200, 1200 and 600 characters. -/
theorem chunkTextForEmbedding_3000 :
    chunkTextForEmbedding (List.replicate 3000 'a') =
      [List.replicate 1200 'a', List.replicate 1200 'a', List.replicate 600 'a'] := by
  rw [chunker_single_paragraph 3000 (by norm_num), chunkCollect_3000]
  rw [if_neg (show ¬((([List.replicate 1200 'a', List.replicate 1200 'a',
      List.replicate 600 'a'], false) :
      List (List Char) × Bool).2 = true) from fun hx => Bool.false_ne_true hx)]
  show List.take EMBEDDING_MAX_CHUNKS (List.filter (fun c => decide (c ≠ []))
    [List.replicate 1200 'a', List.replicate 1200 'a', List.replicate 600 'a']) =
    [List.replicate 1200 'a', List.replicate 1200 'a', List.replicate 600 'a']
  rw [List.filter_eq_self.mpr (by
    intro a ha
    simp only [List.mem_cons, List.not_mem_nil, or_false] at ha
    rcases ha with rfl | rfl | rfl
    · exact decide_eq_true (replicate_a_ne_nil (by norm_num : (0:Nat) < 1200))
    · exact decide_eq_true (replicate_a_ne_nil (by norm_num : (0:Nat) < 1200))
    · exact decide_eq_true (replicate_a_ne_nil (by norm_num : (0:Nat) < 600)))]
  rw [List.take_of_length_le (by
    rw [List.length_cons, List.length_cons, List.length_singleton]
    simp only [EMBEDDING_MAX_CHUNKS]
    omega)]

theorem chunkCollect_1500 :
    chunkCollect [List.replicate 1500 'a'] [] [] = ([List.replicate 1500 'a'], false) := by
  have hps : packStep [] [] (List.replicate 1500 'a') = ([], List.replicate 1500 'a') := by
    unfold packStep joinCandidate
    rw [if_neg (show ¬(([] : List Char) ≠ []) from fun hx => hx rfl)]
    rw [if_neg (show ¬(EMBEDDING_CHUNK_CHARS < (List.replicate 1500 'a').length ∧
      ([] : List Char) ≠ []) from fun hx => hx.2 rfl)]
  rw [chunkCollect]
  rw [if_neg (show ¬(1800 : Nat) < (List.replicate 1500 'a').length by
    rw [List.length_replicate]; norm_num)]
  rw [hps]
  show (if EMBEDDING_MAX_CHUNKS ≤ ([] : List (List Char)).length then (([] : List (List Char)), false)
    else chunkCollect [] [] (List.replicate 1500 'a')) = ([List.replicate 1500 'a'], false)
  rw [if_neg (show ¬(EMBEDDING_MAX_CHUNKS ≤ (([] : List (List Char))).length) by
    simp [EMBEDDING_MAX_CHUNKS])]
  rw [chunkCollect]
  rw [if_pos (show (List.replicate 1500 'a') ≠ [] ∧
      ([] : List (List Char)).length < EMBEDDING_MAX_CHUNKS from
    ⟨replicate_a_ne_nil (by norm_num), by simp [EMBEDDING_MAX_CHUNKS]⟩)]
  rw [flushChunk, jsTrim_replicate_a]
  rw [if_neg (replicate_a_ne_nil (by norm_num : (0:Nat) < 1500))]
  rw [List.nil_append]

/-- A 1500-character single paragraph is neither hard-split (it is
below 1.5× the budget) nor broken up: it comes back as one
1500-character chunk. -/
theorem chunkTextForEmbedding_1500 :
    chunkTextForEmbedding (List.replicate 1500 'a') = [List.replicate 1500 'a'] := by
  rw [chunker_single_paragraph 1500 (by norm_num), chunkCollect_1500]
  rw [if_neg (show ¬((([List.replicate 1500 'a'], false) :
      List (List Char) × Bool).2 = true) from fun hx => Bool.false_ne_true hx)]
  show List.take EMBEDDING_MAX_CHUNKS (List.filter (fun c => decide (c ≠ []))
    [List.replicate 1500 'a']) = [List.replicate 1500 'a']
  rw [List.filter_eq_self.mpr (by
    intro a ha
    rw [List.mem_singleton] at ha
    subst ha
    exact decide_eq_true (replicate_a_ne_nil (by norm_num : (0:Nat) < 1500)))]
  rw [List.take_of_length_le (by
    rw [List.length_singleton]
    simp only [EMBEDDING_MAX_CHUNKS]
    omega)]

/-! ## Lemmas about the Vector Ranker -/

/-- Top-k selection: the selection is (up to permutation) an initial
segment of the candidates that dominates everything left out, it has
`min k n` entries, and it is returned sorted by original index. -/
theorem selectTopK_spec (k : Nat) (ranked : List RankedChunk) :
    ∃ rest : List RankedChunk,
      ranked.Perm (selectTopK k ranked ++ rest) ∧
      (∀ a ∈ selectTopK k ranked, ∀ b ∈ rest, b.score ≤ a.score) ∧
      (selectTopK k ranked).length = min k ranked.length ∧
      List.Sorted indexAsc (selectTopK k ranked) := by
  classical
  set sorted := List.insertionSort scoreDesc ranked with hsorted_def
  have hperm : sorted.Perm ranked := List.perm_insertionSort scoreDesc ranked
  have hsorted : List.Sorted scoreDesc sorted := List.sorted_insertionSort scoreDesc ranked
  set sel0 := sorted.take k with hsel0
  set rest := sorted.drop k with hrest
  have hsplit : sorted = sel0 ++ rest := (List.take_append_drop k sorted).symm
  have hselperm : (selectTopK k ranked).Perm sel0 :=
    List.perm_insertionSort indexAsc sel0
  refine ⟨rest, ?_, ?_, ?_, ?_⟩
  · have h1 : ranked.Perm (sel0 ++ rest) := by
      rw [← hsplit]
      exact hperm.symm
    exact h1.trans (hselperm.symm.append_right rest)
  · intro a ha b hb
    have ha0 : a ∈ sel0 := (hselperm.mem_iff).mp ha
    have hpw : List.Pairwise scoreDesc (sel0 ++ rest) := by
      rw [← hsplit]
      exact hsorted
    exact (List.pairwise_append.mp hpw).2.2 a ha0 b hb
  · calc (selectTopK k ranked).length = sel0.length := hselperm.length_eq
      _ = min k sorted.length := List.length_take k sorted
      _ = min k ranked.length := by rw [hperm.length_eq]
  · exact List.sorted_insertionSort indexAsc sel0

/-- Everything the selection returns is a ranked candidate. -/
theorem selectTopK_subset {k : Nat} {ranked : List RankedChunk} {c : RankedChunk}
    (h : c ∈ selectTopK k ranked) : c ∈ ranked := by
  classical
  have h1 : c ∈ (List.insertionSort scoreDesc ranked).take k :=
    ((List.perm_insertionSort indexAsc _).mem_iff).mp h
  have h2 : c ∈ List.insertionSort scoreDesc ranked := List.mem_of_mem_take h1
  exact ((List.perm_insertionSort scoreDesc ranked).mem_iff).mp h2

/-- A ranked candidate always comes from a raw vector at its index
whose validated form is non-empty: candidates that validate to the
empty vector are exactly the ones excluded. -/
theorem rankCandidates_mem_iff {queryVector : List ℚ}
    {docVectorsRaw : List (List (Option ℚ))} {c : RankedChunk} :
    c ∈ rankCandidates queryVector docVectorsRaw ↔
      ∃ raw, docVectorsRaw[c.index]? = some raw ∧ toNumericVector raw ≠ [] ∧
        c = ⟨c.index, toNumericVector raw, cosineSimilarity queryVector (toNumericVector raw)⟩ := by
  classical
  unfold rankCandidates
  rw [List.mem_filterMap]
  constructor
  · rintro ⟨⟨i, raw⟩, hmem, hf⟩
    by_cases hv : toNumericVector raw = []
    · simp only [hv, if_pos] at hf
      exact absurd hf (by simp)
    · simp only [hv, if_neg, not_false_iff] at hf
      have hc : (⟨i, toNumericVector raw,
          cosineSimilarity queryVector (toNumericVector raw)⟩ : RankedChunk) = c :=
        Option.some.inj hf
      subst hc
      refine ⟨raw, ?_, hv, rfl⟩
      exact List.mem_enum_iff_getElem?.mp hmem
  · rintro ⟨raw, hget, hv, hc⟩
    refine ⟨(c.index, raw), List.mem_enum_iff_getElem?.mpr hget, ?_⟩
    simp only [hv, if_neg, not_false_iff]
    rw [hc]

/-- A zero-norm candidate (the sum of squares over the compared prefix
is zero) is scored `-1`, not excluded. -/
theorem cosineSimilarity_zero_norm (q v : List ℚ)
    (h : ((q.zip v).map (fun p => p.2 * p.2)).sum = 0) :
    cosineSimilarity q v = -1 := by
  unfold cosineSimilarity
  by_cases hlen : (q.zip v).length = 0
  · rw [if_pos hlen]
  · rw [if_neg hlen, if_pos (Or.inr h)]

/-! ### Evaluating the ranker on the concrete scenarios -/

theorem cosineSimilarity_e0 :
    cosineSimilarity ([1, 0] : List ℚ) ([1, 0] : List ℚ) = 1 := by
  unfold cosineSimilarity
  simp only [List.zip_cons_cons, List.zip_nil_right, List.map_cons, List.map_nil,
    List.sum_cons, List.sum_nil, List.length_cons, List.length_nil]
  norm_num [Real.sqrt_one]

theorem cosineSimilarity_e1 :
    cosineSimilarity ([1, 0] : List ℚ) ([0, 1] : List ℚ) = 0 := by
  unfold cosineSimilarity
  simp only [List.zip_cons_cons, List.zip_nil_right, List.map_cons, List.map_nil,
    List.sum_cons, List.sum_nil, List.length_cons, List.length_nil]
  norm_num [Real.sqrt_one]

theorem cosineSimilarity_e2 :
    cosineSimilarity ([1, 0] : List ℚ) ([7/10, 7/10] : List ℚ) =
      (7 / 10 : ℝ) / Real.sqrt (49 / 50) := by
  unfold cosineSimilarity
  simp only [List.zip_cons_cons, List.zip_nil_right, List.map_cons, List.map_nil,
    List.sum_cons, List.sum_nil, List.length_cons, List.length_nil]
  norm_num [Real.sqrt_one]

theorem cosineSimilarity_e2_pos :
    (0 : ℝ) < cosineSimilarity ([1, 0] : List ℚ) ([7/10, 7/10] : List ℚ) := by
  rw [cosineSimilarity_e2]
  exact div_pos (by norm_num) (Real.sqrt_pos.mpr (by norm_num))

theorem cosineSimilarity_e2_le_one :
    cosineSimilarity ([1, 0] : List ℚ) ([7/10, 7/10] : List ℚ) ≤ 1 := by
  rw [cosineSimilarity_e2]
  rw [div_le_one (Real.sqrt_pos.mpr (by norm_num))]
  rw [show (7 / 10 : ℝ) = 7/10 from rfl]
  have h := (Real.le_sqrt (by norm_num : (0:ℝ) ≤ 7/10) (by norm_num : (0:ℝ) ≤ 49/50)).mpr
    (by norm_num : ((7:ℝ)/10) ^ 2 ≤ 49/50)
  exact h

theorem cosineSimilarity_zero_vec :
    cosineSimilarity ([1, 0] : List ℚ) ([0, 0] : List ℚ) = -1 := by
  apply cosineSimilarity_zero_norm
  simp only [List.zip_cons_cons, List.zip_nil_right, List.map_cons, List.map_nil,
    List.sum_cons, List.sum_nil]
  norm_num

/-- Scenario E evaluated: query `[1,0]` against candidates
`[[1,0],[0,1],[0.7,0.7]]` with `k = 2` selects the candidates at
indices 0 and 2 and returns them in index order. -/
theorem selectTopKIndices_scenarioE :
    selectTopKIndices 2 [some 1, some 0]
      [[some 1, some 0], [some 0, some 1], [some (7/10 : ℚ), some (7/10 : ℚ)]] = [0, 2] := by
  unfold selectTopKIndices
  rw [show toNumericVector [some 1, some 0] = ([1, 0] : List ℚ) from rfl]
  rw [if_neg (by simp)]
  have hrank : rankCandidates ([1, 0] : List ℚ)
      [[some 1, some 0], [some 0, some 1], [some (7/10 : ℚ), some (7/10 : ℚ)]] =
      [⟨0, [1, 0], cosineSimilarity [1, 0] [1, 0]⟩,
       ⟨1, [0, 1], cosineSimilarity [1, 0] [0, 1]⟩,
       ⟨2, [7/10, 7/10], cosineSimilarity [1, 0] [7/10, 7/10]⟩] := rfl
  rw [hrank, cosineSimilarity_e0, cosineSimilarity_e1]
  rw [if_neg (by simp)]
  have hsort : List.insertionSort scoreDesc
      [(⟨0, [1, 0], 1⟩ : RankedChunk), ⟨1, [0, 1], 0⟩,
       ⟨2, [7/10, 7/10], cosineSimilarity [1, 0] [7/10, 7/10]⟩] =
      [⟨0, [1, 0], 1⟩, ⟨2, [7/10, 7/10], cosineSimilarity [1, 0] [7/10, 7/10]⟩,
       ⟨1, [0, 1], 0⟩] := by
    show List.orderedInsert scoreDesc ⟨0, [1, 0], 1⟩
      (List.orderedInsert scoreDesc ⟨1, [0, 1], 0⟩
        (List.orderedInsert scoreDesc ⟨2, [7/10, 7/10], cosineSimilarity [1, 0] [7/10, 7/10]⟩
          [])) = _
    rw [List.orderedInsert, List.orderedInsert]
    rw [if_neg (show ¬scoreDesc (⟨1, [0, 1], 0⟩ : RankedChunk)
        ⟨2, [7/10, 7/10], cosineSimilarity [1, 0] [7/10, 7/10]⟩ from
      not_le.mpr cosineSimilarity_e2_pos)]
    rw [List.orderedInsert, List.orderedInsert]
    rw [if_pos (show scoreDesc (⟨0, [1, 0], 1⟩ : RankedChunk)
        ⟨2, [7/10, 7/10], cosineSimilarity [1, 0] [7/10, 7/10]⟩ from
      cosineSimilarity_e2_le_one)]
  unfold selectTopK
  rw [hsort]
  rw [show List.take 2
      [(⟨0, [1, 0], 1⟩ : RankedChunk),
       ⟨2, [7/10, 7/10], cosineSimilarity [1, 0] [7/10, 7/10]⟩, ⟨1, [0, 1], 0⟩] =
      [⟨0, [1, 0], 1⟩, ⟨2, [7/10, 7/10], cosineSimilarity [1, 0] [7/10, 7/10]⟩] from rfl]
  have hidx : List.insertionSort indexAsc
      [(⟨0, [1, 0], 1⟩ : RankedChunk),
       ⟨2, [7/10, 7/10], cosineSimilarity [1, 0] [7/10, 7/10]⟩] =
      [⟨0, [1, 0], 1⟩, ⟨2, [7/10, 7/10], cosineSimilarity [1, 0] [7/10, 7/10]⟩] := by
    show List.orderedInsert indexAsc ⟨0, [1, 0], 1⟩
      (List.orderedInsert indexAsc
        ⟨2, [7/10, 7/10], cosineSimilarity [1, 0] [7/10, 7/10]⟩ []) = _
    rw [List.orderedInsert, List.orderedInsert]
    rw [if_pos (show indexAsc (⟨0, [1, 0], 1⟩ : RankedChunk)
        ⟨2, [7/10, 7/10], cosineSimilarity [1, 0] [7/10, 7/10]⟩ from Nat.zero_le 2)]
  rw [hidx]
  rfl

/-- The zero-norm candidate `[0,0]` is ranked (with score `-1`) and,
with the pipeline's `k = EMBEDDING_TOP_K = 4`, returned. -/
theorem selectTopKIndices_zero_norm_selected :
    selectTopKIndices EMBEDDING_TOP_K [some 1, some 0]
      [[some 1, some 0], [some 0, some 0]] = [0, 1] := by
  unfold selectTopKIndices
  rw [show toNumericVector [some 1, some 0] = ([1, 0] : List ℚ) from rfl]
  rw [if_neg (by simp)]
  have hrank : rankCandidates ([1, 0] : List ℚ)
      [[some 1, some 0], [some 0, some 0]] =
      [⟨0, [1, 0], cosineSimilarity [1, 0] [1, 0]⟩,
       ⟨1, [0, 0], cosineSimilarity [1, 0] [0, 0]⟩] := rfl
  rw [hrank, cosineSimilarity_e0, cosineSimilarity_zero_vec]
  rw [if_neg (by simp)]
  have hsort : List.insertionSort scoreDesc
      [(⟨0, [1, 0], 1⟩ : RankedChunk), ⟨1, [0, 0], -1⟩] =
      [⟨0, [1, 0], 1⟩, ⟨1, [0, 0], -1⟩] := by
    show List.orderedInsert scoreDesc ⟨0, [1, 0], 1⟩
      (List.orderedInsert scoreDesc ⟨1, [0, 0], -1⟩ []) = _
    rw [List.orderedInsert, List.orderedInsert]
    rw [if_pos (show scoreDesc (⟨0, [1, 0], 1⟩ : RankedChunk) ⟨1, [0, 0], -1⟩ by
      show (-1 : ℝ) ≤ 1
      norm_num)]
  unfold selectTopK
  rw [hsort]
  rw [show List.take EMBEDDING_TOP_K
      [(⟨0, [1, 0], 1⟩ : RankedChunk), ⟨1, [0, 0], -1⟩] =
      [⟨0, [1, 0], 1⟩, ⟨1, [0, 0], -1⟩] from rfl]
  have hidx : List.insertionSort indexAsc
      [(⟨0, [1, 0], 1⟩ : RankedChunk), ⟨1, [0, 0], -1⟩] =
      [⟨0, [1, 0], 1⟩, ⟨1, [0, 0], -1⟩] := by
    show List.orderedInsert indexAsc ⟨0, [1, 0], 1⟩
      (List.orderedInsert indexAsc ⟨1, [0, 0], -1⟩ []) = _
    rw [List.orderedInsert, List.orderedInsert]
    rw [if_pos (show indexAsc (⟨0, [1, 0], 1⟩ : RankedChunk) ⟨1, [0, 0], -1⟩ from
      Nat.zero_le 1)]
  rw [hidx]
  rfl

/-! ## Lemmas about the Prompt Assembler -/

theorem containsSeg_iff {pat l : List Char} : containsSeg pat l = true ↔ pat <:+: l := by
  induction l with
  | nil =>
    rw [containsSeg]
    rw [List.isPrefixOf_iff_prefix]
    constructor
    · intro h
      exact h.isInfix
    · intro h
      rw [List.eq_nil_of_infix_nil h]
  | cons c rest ih =>
    rw [containsSeg, Bool.or_eq_true, List.isPrefixOf_iff_prefix, ih]
    exact (List.infix_cons_iff).symm

/-- `prefix` through an append: an occurrence at the start lies in the
first part or swallows it whole. -/
theorem prefix_append_cases {p a b : List Char} (h : p <+: a ++ b) :
    p <+: a ∨ ∃ t, p = a ++ t ∧ t <+: b := by
  by_cases hlen : p.length ≤ a.length
  · exact Or.inl ((List.isPrefix_append_of_length hlen).mp h)
  · right
    have hp : p = List.take p.length (a ++ b) := List.prefix_iff_eq_take.mp h
    rw [List.take_append_eq_append_take, List.take_of_length_le (by omega)] at hp
    exact ⟨List.take (p.length - a.length) b, hp, List.take_prefix _ _⟩

/-- If the pattern does not occur, global replacement is the identity. -/
theorem replaceAllSegAux_not_contains {pat repl : List Char} (fuel : Nat) (l : List Char)
    (h : ¬pat <:+: l) : replaceAllSegAux pat repl fuel l = l := by
  induction fuel generalizing l with
  | zero => rw [replaceAllSegAux]
  | succ fuel ih =>
    cases l with
    | nil => rw [replaceAllSegAux]
    | cons c rest =>
      rw [replaceAllSegAux]
      rw [if_neg (by
        rintro ⟨-, hpre⟩
        exact h ((List.isPrefixOf_iff_prefix.mp hpre).isInfix))]
      rw [ih rest (fun hx => h (List.infix_cons hx))]

/-- If the pattern occurs (and the fuel covers the text), the
replacement text occurs in the output. -/
theorem replaceAllSegAux_repl_infix {pat repl : List Char} (hpat : pat ≠ []) (fuel : Nat)
    (l : List Char) (hfuel : l.length ≤ fuel) (h : pat <:+: l) :
    repl <:+: replaceAllSegAux pat repl fuel l := by
  induction fuel generalizing l with
  | zero =>
    have : l = [] := List.length_eq_zero.mp (by omega)
    subst this
    exact absurd (List.eq_nil_of_infix_nil h) hpat
  | succ fuel ih =>
    cases l with
    | nil => exact absurd (List.eq_nil_of_infix_nil h) hpat
    | cons c rest =>
      rw [replaceAllSegAux]
      by_cases hpre : pat.isPrefixOf (c :: rest)
      · rw [if_pos ⟨hpat, hpre⟩]
        exact (List.prefix_append repl _).isInfix
      · rw [if_neg (fun hx => hpre hx.2)]
        have hrest : pat <:+: rest := by
          rcases List.infix_cons_iff.mp h with hx | hx
          · exact absurd (List.isPrefixOf_iff_prefix.mpr hx) hpre
          · exact hx
        have hlen : rest.length ≤ fuel := by
          simp only [List.length_cons] at hfuel
          omega
        exact List.infix_cons (ih rest hlen hrest)

/-- A head match of `pat₁` on `u ++ pat₂ ++ v` lies entirely inside
`u`. -/
theorem noCross_head_match {pat₁ pat₂ u v : List Char} (hnc : NoCross pat₁ pat₂)
    (hpat₁ : pat₁ ≠ []) (h : pat₁ <+: u ++ (pat₂ ++ v)) : pat₁ <+: u := by
  rcases prefix_append_cases h with hu | ⟨t, hteq, htpre⟩
  · exact hu
  · by_cases ht : t = []
    · subst ht
      rw [List.append_nil] at hteq
      exact hteq ▸ List.prefix_rfl
    · exfalso
      have htsuf : t <:+ pat₁ := by
        rw [hteq]
        exact List.suffix_append u t
      rcases prefix_append_cases htpre with h2 | ⟨w, hweq, hwpre⟩
      · exact hnc.2.1 t htsuf ht h2
      · have : pat₂ <:+: pat₁ := by
          refine List.IsInfix.trans ?_ htsuf.isInfix
          rw [hweq]
          exact (List.prefix_append pat₂ w).isInfix
        exact hnc.1 this

/-- Scanning from strictly inside an occurrence of `pat₂`: no match can
start until the occurrence has been fully copied. -/
theorem replaceAllSegAux_walk {pat₁ pat₂ : List Char} (repl : List Char)
    (hnc : NoCross pat₁ pat₂) (hpat₁ : pat₁ ≠ []) :
    ∀ fuel j v, 1 ≤ j → j ≤ pat₂.length →
      ∃ v', replaceAllSegAux pat₁ repl fuel (pat₂.drop j ++ v) = pat₂.drop j ++ v' := by
  intro fuel
  induction fuel with
  | zero =>
    intro j v _ _
    exact ⟨v, by rw [replaceAllSegAux]⟩
  | succ fuel ih =>
    intro j v hj hjle
    by_cases hdone : pat₂.length ≤ j
    · have hdrop : pat₂.drop j = [] := List.drop_eq_nil_of_le hdone
      rw [hdrop, List.nil_append]
      exact ⟨replaceAllSegAux pat₁ repl (fuel + 1) v, by rw [List.nil_append]⟩
    · push_neg at hdone
      obtain ⟨c, m, hcm⟩ : ∃ c m, pat₂.drop j = c :: m := by
        cases hd : pat₂.drop j with
        | nil =>
          exfalso
          have := List.drop_eq_nil_iff_le.mp hd
          omega
        | cons c m => exact ⟨c, m, rfl⟩
      have hmdrop : m = pat₂.drop (j + 1) := by
        have hdd := List.drop_drop 1 j pat₂
        rw [hcm] at hdd
        simp only [List.drop_succ_cons, List.drop_zero] at hdd
        exact hdd
      rw [hcm, List.cons_append, replaceAllSegAux]
      rw [if_neg (by
        rintro ⟨-, hpre⟩
        have hpre' : pat₁ <+: pat₂.drop j ++ v := by
          rw [hcm, List.cons_append]
          exact List.isPrefixOf_iff_prefix.mp hpre
        rcases prefix_append_cases hpre' with h2 | ⟨t, hteq, -⟩
        · exact hnc.2.2.1 j hj hdone h2
        · exact hnc.2.2.2 j hj hdone (hteq ▸ List.prefix_append _ _))]
      rcases ih (j + 1) v (by omega) (by omega) with ⟨v', hv'⟩
      refine ⟨v', ?_⟩
      rw [hmdrop, hv', List.cons_append]

/-- Occurrences of `pat₂` survive a global replacement of a
non-crossing `pat₁`. -/
theorem replaceAllSegAux_survive {pat₁ pat₂ : List Char} (repl : List Char)
    (hnc : NoCross pat₁ pat₂) (hpat₁ : pat₁ ≠ []) (hpat₂ : pat₂ ≠ []) :
    ∀ fuel u v, ∃ u' v',
      replaceAllSegAux pat₁ repl fuel (u ++ pat₂ ++ v) = u' ++ pat₂ ++ v' := by
  intro fuel
  induction fuel with
  | zero =>
    intro u v
    exact ⟨u, v, by rw [replaceAllSegAux]⟩
  | succ fuel ih =>
    intro u v
    cases hu : u with
    | nil =>
      obtain ⟨c, m, hcm⟩ : ∃ c m, pat₂ = c :: m := by
        cases pat₂ with
        | nil => exact absurd rfl hpat₂
        | cons c m => exact ⟨c, m, rfl⟩
      rw [List.nil_append]
      rw [hcm, List.cons_append, replaceAllSegAux]
      rw [if_neg (by
        rintro ⟨-, hpre⟩
        have hpre' : pat₁ <+: [] ++ (pat₂ ++ v) := by
          rw [List.nil_append, hcm, List.cons_append]
          exact List.isPrefixOf_iff_prefix.mp hpre
        have := noCross_head_match hnc hpat₁ hpre'
        exact hpat₁ (List.prefix_nil.mp this))]
      rcases replaceAllSegAux_walk repl hnc hpat₁ fuel 1 v (by omega)
        (by rw [hcm]; simp) with ⟨v', hv'⟩
      have hdrop1 : pat₂.drop 1 = m := by
        rw [hcm]
        rfl
      rw [hdrop1] at hv'
      refine ⟨[], v', ?_⟩
      rw [hv']
      rfl
    | cons c u₂ =>
      have hl : (c :: u₂) ++ pat₂ ++ v = c :: (u₂ ++ (pat₂ ++ v)) := by
        simp
      rw [hl, replaceAllSegAux]
      by_cases hpre : pat₁.isPrefixOf (c :: (u₂ ++ (pat₂ ++ v)))
      · rw [if_pos ⟨hpat₁, hpre⟩]
        have hpre' : pat₁ <+: (c :: u₂) ++ (pat₂ ++ v) := by
          rw [List.cons_append]
          exact List.isPrefixOf_iff_prefix.mp hpre
        have hin : pat₁ <+: c :: u₂ := noCross_head_match hnc hpat₁ hpre'
        obtain ⟨u₃, hu₃⟩ := hin
        have hdrop : (c :: (u₂ ++ (pat₂ ++ v))).drop pat₁.length = u₃ ++ (pat₂ ++ v) := by
          have h1 : c :: (u₂ ++ (pat₂ ++ v)) = (pat₁ ++ u₃) ++ (pat₂ ++ v) := by
            rw [hu₃]
            rw [List.cons_append]
          rw [h1, List.append_assoc, List.drop_left]
        rw [hdrop]
        rcases ih u₃ v with ⟨u', v', hret⟩
        refine ⟨repl ++ u', v', ?_⟩
        rw [show u₃ ++ (pat₂ ++ v) = u₃ ++ pat₂ ++ v from (List.append_assoc u₃ pat₂ v).symm]
        rw [hret]
        simp only [List.append_assoc]
      · rw [if_neg (fun hx => hpre hx.2)]
        rcases ih u₂ v with ⟨u', v', hret⟩
        refine ⟨c :: u', v', ?_⟩
        rw [show u₂ ++ (pat₂ ++ v) = u₂ ++ pat₂ ++ v from (List.append_assoc u₂ pat₂ v).symm]
        rw [hret]
        rfl

/-- Any member of the joined list occurs verbatim in the join. -/
theorem mem_joinNL_infix (parts : List (List Char)) (x : List Char) (hx : x ∈ parts) :
    x <:+: joinNL parts := by
  induction parts with
  | nil => exact absurd hx (List.not_mem_nil x)
  | cons p rest ih =>
    cases rest with
    | nil =>
      rw [List.mem_singleton] at hx
      subst hx
      exact List.infix_rfl
    | cons q rest' =>
      have hj : joinNL (p :: q :: rest') = p ++ '\n' :: joinNL (q :: rest') := by
        rw [joinNL]
        simp
      rw [hj]
      rcases List.mem_cons.mp hx with rfl | hx'
      · exact (List.prefix_append x _).isInfix
      · exact ((List.infix_cons (ih hx')).trans (List.suffix_append p _).isInfix)

/-- `NoCross` from finitely checkable conditions on the two patterns. -/
theorem noCross_of_checks {p₁ p₂ : List Char}
    (h1 : containsSeg p₂ p₁ = false)
    (h2 : ∀ n, n < p₁.length → ¬(p₁.drop n).isPrefixOf p₂)
    (h3 : ∀ j, 1 ≤ j → j < p₂.length → ¬p₁.isPrefixOf (p₂.drop j))
    (h4 : ∀ j, 1 ≤ j → j < p₂.length → ¬(p₂.drop j).isPrefixOf p₁) :
    NoCross p₁ p₂ := by
  refine ⟨?_, ?_, ?_, ?_⟩
  · intro h
    have hb := containsSeg_iff.mpr h
    rw [h1] at hb
    exact Bool.false_ne_true hb
  · intro s hs hne hpre
    obtain ⟨t, ht⟩ := hs
    have hsn : s = p₁.drop t.length := by
      rw [← ht, List.drop_left]
    have hlt : t.length < p₁.length := by
      have := congrArg List.length ht
      rw [List.length_append] at this
      have hspos : 0 < s.length := List.length_pos.mpr hne
      omega
    exact h2 t.length hlt (by
      rw [← hsn]
      exact List.isPrefixOf_iff_prefix.mpr hpre)
  · intro j hj hjl hpre
    exact h3 j hj hjl (List.isPrefixOf_iff_prefix.mpr hpre)
  · intro j hj hjl hpre
    exact h4 j hj hjl (List.isPrefixOf_iff_prefix.mpr hpre)

theorem noCross_FN_RC : NoCross PH_FOLDER PH_RECORDS :=
  noCross_of_checks (by decide) (by decide) (by decide) (by decide)

/-- If the pattern occurs in `l`, the replacement text occurs in
`replaceAllSeg pat repl l`. -/
theorem replaceAllSeg_repl_infix {pat : List Char} (repl l : List Char) (hpat : pat ≠ [])
    (h : pat <:+: l) : repl <:+: replaceAllSeg pat repl l := by
  unfold replaceAllSeg
  exact replaceAllSegAux_repl_infix hpat l.length l le_rfl h

/-- If the pattern does not occur in `l`, `replaceAllSeg` is the
identity. -/
theorem replaceAllSeg_not_contains {pat : List Char} (repl l : List Char)
    (h : ¬pat <:+: l) : replaceAllSeg pat repl l = l := by
  unfold replaceAllSeg
  exact replaceAllSegAux_not_contains l.length l h

/-- Occurrences of `pat₂` survive `replaceAllSeg pat₁`. -/
theorem replaceAllSeg_survive {pat₁ pat₂ : List Char} (repl l : List Char)
    (hnc : NoCross pat₁ pat₂) (hpat₁ : pat₁ ≠ []) (hpat₂ : pat₂ ≠ [])
    (h : pat₂ <:+: l) : pat₂ <:+: replaceAllSeg pat₁ repl l := by
  obtain ⟨u, v, huv⟩ := h
  unfold replaceAllSeg
  rcases replaceAllSegAux_survive repl hnc hpat₁ hpat₂ l.length u v with ⟨u', v', hret⟩
  rw [← huv]
  rw [show (u ++ pat₂ ++ v).length = l.length from by rw [huv]]
  rw [hret]
  exact ⟨u', v', rfl⟩

theorem getSubstitution_no_dollar {repl : List Char} (h : '$' ∉ repl)
    (m pre post : List Char) : getSubstitution m pre post repl = repl := by
  induction repl with
  | nil => rfl
  | cons c rest ih =>
    have hc : ¬c = '$' := fun he => h (by rw [← he]; exact List.mem_cons_self c rest)
    have hr : '$' ∉ rest := fun hm => h (List.mem_cons_of_mem c hm)
    unfold getSubstitution
    rw [if_neg hc, ih hr]

theorem jsReplaceAllAux_no_dollar {repl : List Char} (h : '$' ∉ repl) (pat : List Char) :
    ∀ (fuel : Nat) (seen l : List Char),
      jsReplaceAllAux pat repl fuel seen l = replaceAllSegAux pat repl fuel l := by
  intro fuel
  induction fuel with
  | zero =>
    intro seen l
    rfl
  | succ m ih =>
    intro seen l
    cases l with
    | nil => rfl
    | cons c rest =>
      unfold jsReplaceAllAux replaceAllSegAux
      by_cases hcond : pat ≠ [] ∧ pat.isPrefixOf (c :: rest) = true
      · rw [if_pos hcond, if_pos hcond, getSubstitution_no_dollar h, ih]
      · rw [if_neg hcond, if_neg hcond, ih]

theorem jsReplaceAll_no_dollar {repl : List Char} (h : '$' ∉ repl) (pat l : List Char) :
    jsReplaceAll pat repl l = replaceAllSeg pat repl l :=
  jsReplaceAllAux_no_dollar h pat l.length [] l

set_option maxRecDepth 100000 in
/-- `buildPrompt` never loses the source content: it is substituted for
the placeholder when one is present and appended otherwise. -/
theorem buildPrompt_contains_source (sourceContent customPromptTemplate : List Char)
    (hds : '$' ∉ sourceContent) :
    sourceContent <:+: buildPrompt sourceContent customPromptTemplate := by
  unfold buildPrompt
  simp only [jsReplaceAll_no_dollar hds]
  by_cases h0 : jsTrim customPromptTemplate = []
  · rw [if_pos h0]
    exact replaceAllSeg_repl_infix _ _ (by decide) (containsSeg_iff.mp (by decide))
  · rw [if_neg h0]
    by_cases h1 : (containsSeg PH_SOURCE (jsTrim customPromptTemplate) ||
        containsSeg PH_SOURCE_US (jsTrim customPromptTemplate)) = true
    · rw [if_pos h1]
      by_cases hA : containsSeg PH_SOURCE (jsTrim customPromptTemplate) = true
      · have hX : sourceContent <:+:
            replaceAllSeg PH_SOURCE sourceContent (jsTrim customPromptTemplate) :=
          replaceAllSeg_repl_infix _ _ (by decide) (containsSeg_iff.mp hA)
        by_cases hB : PH_SOURCE_US <:+:
            replaceAllSeg PH_SOURCE sourceContent (jsTrim customPromptTemplate)
        · exact replaceAllSeg_repl_infix _ _ (by decide) hB
        · rw [replaceAllSeg_not_contains _ _ hB]
          exact hX
      · have hB : containsSeg PH_SOURCE_US (jsTrim customPromptTemplate) = true := by
          rw [Bool.or_eq_true] at h1
          rcases h1 with hx | hx
          · exact absurd hx hA
          · exact hx
        have hXeq : replaceAllSeg PH_SOURCE sourceContent (jsTrim customPromptTemplate) =
            jsTrim customPromptTemplate :=
          replaceAllSeg_not_contains _ _ (fun hx => hA (containsSeg_iff.mpr hx))
        rw [hXeq]
        exact replaceAllSeg_repl_infix _ _ (by decide) (containsSeg_iff.mp hB)
    · rw [if_neg h1]
      exact mem_joinNL_infix _ _ (by simp)

set_option maxRecDepth 100000 in
/-- `buildFolderSummaryPrompt` never loses the records content: it is
substituted for its placeholder when one is present and appended
otherwise. -/
theorem buildFolderSummaryPrompt_contains_records
    (folderName recordsContent customPromptTemplate : List Char)
    (hdollarF : '$' ∉ folderName) (hdollarR : '$' ∉ recordsContent) :
    recordsContent <:+: buildFolderSummaryPrompt folderName recordsContent
      customPromptTemplate := by
  unfold buildFolderSummaryPrompt
  simp only [jsReplaceAll_no_dollar hdollarF, jsReplaceAll_no_dollar hdollarR]
  by_cases h0 : jsTrim customPromptTemplate = []
  · rw [if_pos h0]
    refine replaceAllSeg_repl_infix _ _ (by decide) ?_
    refine replaceAllSeg_survive _ _ noCross_FN_RC (by decide) (by decide) ?_
    exact containsSeg_iff.mp (by decide)
  · rw [if_neg h0]
    by_cases hrec : containsSeg PH_RECORDS (jsTrim customPromptTemplate) = true
    · have hX : PH_RECORDS <:+:
          replaceAllSeg PH_FOLDER folderName (jsTrim customPromptTemplate) :=
        replaceAllSeg_survive _ _ noCross_FN_RC (by decide) (by decide)
          (containsSeg_iff.mp hrec)
      have hrc : recordsContent <:+: replaceAllSeg PH_RECORDS recordsContent
          (replaceAllSeg PH_FOLDER folderName (jsTrim customPromptTemplate)) :=
        replaceAllSeg_repl_infix _ _ (by decide) hX
      by_cases hcond : (¬containsSeg PH_FOLDER (jsTrim customPromptTemplate) = true ∨
          ¬containsSeg PH_RECORDS (jsTrim customPromptTemplate) = true)
      · rw [if_pos hcond]
        by_cases hp : replaceAllSeg PH_RECORDS recordsContent
            (replaceAllSeg PH_FOLDER folderName (jsTrim customPromptTemplate)) = []
        · have : recordsContent = [] := by
            rw [hp] at hrc
            exact List.eq_nil_of_infix_nil hrc
          rw [this]
          exact List.nil_infix
        · refine hrc.trans ( mem_joinNL_infix _ _ ?_)
          rw [List.mem_filter]
          exact ⟨List.mem_cons_self _ _, decide_eq_true hp⟩
      · rw [if_neg hcond]
        exact hrc
    · rw [if_pos (Or.inr hrec)]
      have hline : recordsContent <:+:
          "记录内容如下：".toList ++ '\n' :: recordsContent := by
        refine (List.suffix_append ('\n' :: []) recordsContent).isInfix.trans ?_
        exact (List.suffix_append _ _).isInfix
      refine hline.trans ?_
      refine mem_joinNL_infix _ _ ?_
      rw [List.mem_filter]
      constructor
      · rw [if_neg hrec]
        simp
      · exact decide_eq_true (by
          intro hx
          have := congrArg List.length hx
          simp at this)


/-! ## Basic lemmas: id lists, `maxID`, `find?` and `jsTrim` -/

theorem mem_jsDedup_foldl (l acc : List Nat) (a : Nat) :
    a ∈ l.foldl (fun acc a => if a ∈ acc then acc else acc ++ [a]) acc ↔
      a ∈ acc ∨ a ∈ l := by
  induction l generalizing acc with
  | nil => simp
  | cons x xs ih =>
    rw [List.foldl_cons, ih]
    by_cases hx : x ∈ acc
    · rw [if_pos hx]
      simp only [List.mem_cons]
      constructor
      · rintro (h | h)
        · exact Or.inl h
        · exact Or.inr (Or.inr h)
      · rintro (h | rfl | h)
        · exact Or.inl h
        · exact Or.inl hx
        · exact Or.inr h
    · rw [if_neg hx]
      simp only [List.mem_append, List.mem_singleton, List.mem_cons]
      tauto

theorem mem_jsDedup {a : Nat} {l : List Nat} : a ∈ jsDedup l ↔ a ∈ l := by
  unfold jsDedup
  rw [mem_jsDedup_foldl]
  simp

theorem mem_normalizeIDList {a : Nat} {l : List Nat} :
    a ∈ normalizeIDList l ↔ 0 < a ∧ a ∈ l := by
  unfold normalizeIDList
  rw [mem_jsDedup, List.mem_filter]
  simp [and_comm]

theorem le_maxID_foldl (l : List Nat) (m a : Nat) (h : a ∈ l ∨ a ≤ m) :
    a ≤ l.foldl (fun m v => if v > m then v else m) m := by
  induction l generalizing m with
  | nil =>
    rcases h with h | h
    · exact absurd h (List.not_mem_nil a)
    · exact h
  | cons x xs ih =>
    rw [List.foldl_cons]
    apply ih
    rcases h with h | h
    · rcases List.mem_cons.mp h with rfl | hxs
      · exact Or.inr (by split <;> omega)
      · exact Or.inl hxs
    · exact Or.inr (by split <;> omega)

theorem le_maxID {a : Nat} {l : List Nat} (h : a ∈ l) : a ≤ maxID l :=
  le_maxID_foldl l 0 a (Or.inl h)

theorem find?_eq_some_of_unique {α : Type} (p : α → Bool) {l : List α} {a : α}
    (hmem : a ∈ l) (hpa : p a = true)
    (huniq : l.Pairwise (fun x y => ¬(p x = true ∧ p y = true))) :
    l.find? p = some a := by
  induction l with
  | nil => exact absurd hmem (List.not_mem_nil a)
  | cons x xs ih =>
    rcases List.pairwise_cons.mp huniq with ⟨hx, hxs⟩
    by_cases hpx : p x = true
    · rw [List.find?_cons_of_pos _ hpx]
      rcases List.mem_cons.mp hmem with rfl | haxs
      · rfl
      · exact absurd ⟨hpx, hpa⟩ (hx a haxs)
    · rw [List.find?_cons_of_neg _ (by simpa using hpx)]
      rcases List.mem_cons.mp hmem with rfl | haxs
      · exact absurd hpa hpx
      · exact ih haxs hxs

theorem dropWhile_idem (p : Char → Bool) (l : List Char) :
    (l.dropWhile p).dropWhile p = l.dropWhile p := by
  induction l with
  | nil => rfl
  | cons x xs ih =>
    rw [List.dropWhile_cons]
    by_cases hx : p x = true
    · rw [if_pos hx]
      exact ih
    · rw [if_neg hx, List.dropWhile_cons, if_neg hx]

theorem dropWhile_suffix' (p : Char → Bool) (l : List Char) : l.dropWhile p <:+ l := by
  induction l with
  | nil => exact List.suffix_rfl
  | cons x xs ih =>
    rw [List.dropWhile_cons]
    by_cases hx : p x = true
    · rw [if_pos hx]
      exact ih.trans (List.suffix_cons x xs)
    · rw [if_neg hx]

theorem dropWhile_eq_self_of_prefix {p : Char → Bool} {z w : List Char}
    (hp : z <+: w) (hw : w.dropWhile p = w) : z.dropWhile p = z := by
  cases z with
  | nil => rfl
  | cons c cs =>
    cases w with
    | nil =>
      have := List.prefix_nil.mp hp
      cases this
    | cons d ds =>
      rcases List.cons_prefix_cons.mp hp with ⟨rfl, _⟩
      rw [List.dropWhile_cons] at hw ⊢
      by_cases hd : p c = true
      · rw [if_pos hd] at hw
        have hlen := congrArg List.length hw
        have := (dropWhile_suffix' p ds).length_le
        simp only [List.length_cons] at hlen
        omega
      · rw [if_neg hd]

theorem jsTrim_idem (l : List Char) : jsTrim (jsTrim l) = jsTrim l := by
  have hy : (l.dropWhile isJsSpace).dropWhile isJsSpace = l.dropWhile isJsSpace :=
    dropWhile_idem _ _
  have hrev : (jsTrim l).reverse = (l.dropWhile isJsSpace).reverse.dropWhile isJsSpace := by
    rw [jsTrim]
    exact List.reverse_reverse _
  have hzy : jsTrim l <+: l.dropWhile isJsSpace := by
    rw [← List.reverse_suffix, hrev]
    exact dropWhile_suffix' _ _
  have hzfix : (jsTrim l).dropWhile isJsSpace = jsTrim l :=
    dropWhile_eq_self_of_prefix hzy hy
  conv_lhs => rw [jsTrim]
  rw [hzfix, hrev, dropWhile_idem, ← hrev, List.reverse_reverse]

theorem folderKey_jsTrim (x : List Char) : folderKey (jsTrim x) = folderKey x := by
  unfold folderKey
  rw [jsTrim_idem]

theorem jsTrim_ne_nil_of_key {x : List Char} (h : folderKey x ≠ []) : jsTrim x ≠ [] := by
  intro hx
  apply h
  unfold folderKey
  rw [hx]
  rfl

theorem normalizeFolderName_of_short {x : List Char} (h : x.length ≤ 100) :
    normalizeFolderName x = jsTrim x := by
  unfold normalizeFolderName
  exact List.take_of_length_le ((jsTrim_length_le x).trans h)

theorem folderKey_normalizeFolderName_of_short {x : List Char} (h : x.length ≤ 100) :
    folderKey (normalizeFolderName x) = folderKey x := by
  rw [normalizeFolderName_of_short h, folderKey_jsTrim]

theorem normalizeFolderName_length_le (x : List Char) :
    (normalizeFolderName x).length ≤ 100 := by
  unfold normalizeFolderName
  exact (List.length_take _ _).trans_le (min_le_left _ _)


/-! ## The per-record invariants under one membership-normalization step -/

theorem exists_linksOf_iff {s : JSONStoreData} {rid : Nat}
    {P : JSONStoreRecordFolderLink → Prop} :
    (∃ l ∈ linksOf s rid, P l) ↔ ∃ l ∈ s.recordFolderLinks, l.recordID = rid ∧ P l := by
  unfold linksOf
  constructor
  · rintro ⟨l, hl, hp⟩
    rcases List.mem_filter.mp hl with ⟨h1, h2⟩
    exact ⟨l, h1, by simpa using h2, hp⟩
  · rintro ⟨l, h1, h2, hp⟩
    exact ⟨l, List.mem_filter.mpr ⟨h1, by simpa using h2⟩, hp⟩

theorem linkComplete_iff_linksOf {s : JSONStoreData} {rid : Nat} :
    LinkComplete s rid ↔ linksOf s rid ≠ [] := by
  unfold LinkComplete
  constructor
  · rintro ⟨l, hl, he⟩
    exact List.ne_nil_of_mem (List.mem_filter.mpr ⟨hl, by simpa using he⟩)
  · intro h
    rcases List.exists_mem_of_ne_nil _ h with ⟨l, hl⟩
    rcases List.mem_filter.mp hl with ⟨h1, h2⟩
    exact ⟨l, h1, by simpa using h2⟩

theorem defaultExclusive_iff {s : JSONStoreData} {d rid : Nat} :
    DefaultExclusive s d rid ↔
      ¬((∃ l ∈ linksOf s rid, l.folderID = d) ∧ (∃ l ∈ linksOf s rid, l.folderID ≠ d)) := by
  unfold DefaultExclusive
  rw [exists_linksOf_iff, exists_linksOf_iff]

theorem goodRec_congr {s s' : JSONStoreData} {d rid : Nat}
    (h : linksOf s' rid = linksOf s rid) : GoodRec d s rid ↔ GoodRec d s' rid := by
  unfold GoodRec
  rw [linkComplete_iff_linksOf, linkComplete_iff_linksOf,
    defaultExclusive_iff, defaultExclusive_iff, h]

theorem normalizeMembershipStep_eq (d now : Nat) (s : JSONStoreData) (rid : Nat) :
    normalizeMembershipStep d now s rid =
      if (linksOf s rid).isEmpty then addRecordFolderLink s rid d now
      else if ((linksOf s rid).any fun l => l.folderID = d) &&
          ((linksOf s rid).any fun l => l.folderID ≠ d) then
        { s with recordFolderLinks :=
            s.recordFolderLinks.filter (fun l => ¬(l.recordID = rid ∧ l.folderID = d)) }
      else s := rfl

theorem addRecordFolderLink_records (s : JSONStoreData) (rid fid now : Nat) :
    (addRecordFolderLink s rid fid now).records = s.records := by
  unfold addRecordFolderLink
  split <;> rfl

theorem addRecordFolderLink_folders (s : JSONStoreData) (rid fid now : Nat) :
    (addRecordFolderLink s rid fid now).folders = s.folders := by
  unfold addRecordFolderLink
  split <;> rfl

theorem addRecordFolderLink_nextFolderID (s : JSONStoreData) (rid fid now : Nat) :
    (addRecordFolderLink s rid fid now).nextFolderID = s.nextFolderID := by
  unfold addRecordFolderLink
  split <;> rfl

theorem addRecordFolderLink_links_cases (s : JSONStoreData) (rid fid now : Nat) :
    (addRecordFolderLink s rid fid now).recordFolderLinks = s.recordFolderLinks ∨
    (addRecordFolderLink s rid fid now).recordFolderLinks =
      s.recordFolderLinks ++ [⟨rid, fid, now⟩] := by
  unfold addRecordFolderLink
  split
  · exact Or.inl rfl
  · exact Or.inr rfl

theorem linksOf_addRecordFolderLink_other {s : JSONStoreData} {rid rid' fid now : Nat}
    (h : rid' ≠ rid) :
    linksOf (addRecordFolderLink s rid fid now) rid' = linksOf s rid' := by
  rcases addRecordFolderLink_links_cases s rid fid now with hc | hc
  · unfold linksOf
    rw [hc]
  · unfold linksOf
    rw [hc, List.filter_append]
    have : List.filter (fun l => l.recordID = rid')
        [(⟨rid, fid, now⟩ : JSONStoreRecordFolderLink)] = [] := by
      simp [Ne.symm h]
    rw [this, List.append_nil]

theorem normalizeMembershipStep_records (d now : Nat) (s : JSONStoreData) (rid : Nat) :
    (normalizeMembershipStep d now s rid).records = s.records := by
  rw [normalizeMembershipStep_eq]
  split
  · exact addRecordFolderLink_records s rid d now
  · split <;> rfl

theorem normalizeMembershipStep_folders (d now : Nat) (s : JSONStoreData) (rid : Nat) :
    (normalizeMembershipStep d now s rid).folders = s.folders := by
  rw [normalizeMembershipStep_eq]
  split
  · exact addRecordFolderLink_folders s rid d now
  · split <;> rfl

theorem normalizeMembershipStep_nextFolderID (d now : Nat) (s : JSONStoreData) (rid : Nat) :
    (normalizeMembershipStep d now s rid).nextFolderID = s.nextFolderID := by
  rw [normalizeMembershipStep_eq]
  split
  · exact addRecordFolderLink_nextFolderID s rid d now
  · split <;> rfl

theorem linksOf_normalizeMembershipStep_other {d now rid rid' : Nat} {s : JSONStoreData}
    (h : rid' ≠ rid) :
    linksOf (normalizeMembershipStep d now s rid) rid' = linksOf s rid' := by
  rw [normalizeMembershipStep_eq]
  split
  · exact linksOf_addRecordFolderLink_other h
  · split
    · unfold linksOf
      show List.filter _ (List.filter _ s.recordFolderLinks) = _
      rw [List.filter_filter]
      apply List.filter_congr
      intro l hl
      by_cases hr : l.recordID = rid'
      · have : ¬(l.recordID = rid ∧ l.folderID = d) := fun hx => h (hr ▸ hx.1 ▸ rfl)
        simp only [hr, this]
        simp [h]
      · simp [hr]
    · rfl

theorem normalizeMembershipStep_good_self (d now : Nat) (s : JSONStoreData) (rid : Nat) :
    GoodRec d (normalizeMembershipStep d now s rid) rid := by
  rw [normalizeMembershipStep_eq]
  by_cases hempty : (linksOf s rid).isEmpty
  · rw [if_pos hempty]
    have h0 : linksOf s rid = [] := by
      cases hl : linksOf s rid
      · rfl
      · rw [hl] at hempty
        exact absurd hempty (by simp)
    have hadd : (addRecordFolderLink s rid d now).recordFolderLinks =
        s.recordFolderLinks ++ [⟨rid, d, now⟩] := by
      unfold addRecordFolderLink
      rw [if_neg]
      intro hany
      rcases List.any_eq_true.mp hany with ⟨l, hl, hp⟩
      have hrid : l.recordID = rid := by
        rw [Bool.and_eq_true] at hp
        simpa using hp.1
      have : l ∈ linksOf s rid := List.mem_filter.mpr ⟨hl, by simpa using hrid⟩
      rw [h0] at this
      exact absurd this (List.not_mem_nil l)
    have hlinks : linksOf (addRecordFolderLink s rid d now) rid =
        [⟨rid, d, now⟩] := by
      unfold linksOf
      rw [hadd, List.filter_append]
      have h1 : List.filter (fun l => l.recordID = rid) s.recordFolderLinks = [] := h0
      rw [h1]
      simp
    constructor
    · rw [linkComplete_iff_linksOf, hlinks]
      simp
    · rw [defaultExclusive_iff, hlinks]
      rintro ⟨-, ⟨l, hl, hne⟩⟩
      rw [List.mem_singleton] at hl
      subst hl
      exact hne rfl
  · rw [if_neg hempty]
    have hne : linksOf s rid ≠ [] := by
      intro h0
      rw [h0] at hempty
      exact hempty rfl
    by_cases hdd : ((linksOf s rid).any fun l => l.folderID = d) &&
        ((linksOf s rid).any fun l => l.folderID ≠ d)
    · rw [if_pos hdd]
      have hmem : ∀ l : JSONStoreRecordFolderLink,
          l ∈ linksOf { s with recordFolderLinks :=
            s.recordFolderLinks.filter (fun l => ¬(l.recordID = rid ∧ l.folderID = d)) } rid ↔
          (l ∈ linksOf s rid ∧ l.folderID ≠ d) := by
        intro l
        unfold linksOf
        show l ∈ List.filter _ (List.filter _ s.recordFolderLinks) ↔ _
        rw [List.mem_filter, List.mem_filter, List.mem_filter]
        simp only [decide_eq_true_eq]
        tauto
      rw [Bool.and_eq_true] at hdd
      have hnd := hdd.2
      rcases List.any_eq_true.mp hnd with ⟨l, hl, hlp⟩
      have hlnd : l.folderID ≠ d := by simpa using hlp
      constructor
      · rw [linkComplete_iff_linksOf]
        exact List.ne_nil_of_mem ((hmem l).mpr ⟨hl, hlnd⟩)
      · rw [defaultExclusive_iff]
        rintro ⟨⟨l₁, hl₁, he₁⟩, -⟩
        exact absurd he₁ ((hmem l₁).mp hl₁).2
    · rw [if_neg hdd]
      constructor
      · rw [linkComplete_iff_linksOf]
        exact hne
      · rw [defaultExclusive_iff]
        rintro ⟨⟨l₁, hl₁, he₁⟩, ⟨l₂, hl₂, he₂⟩⟩
        apply hdd
        rw [Bool.and_eq_true]
        constructor
        · exact List.any_eq_true.mpr ⟨l₁, hl₁, by simpa using he₁⟩
        · exact List.any_eq_true.mpr ⟨l₂, hl₂, by simpa using he₂⟩

theorem normalizeMembershipStep_good_preserve {d now rid rid' : Nat} {s : JSONStoreData}
    (h : GoodRec d s rid') : GoodRec d (normalizeMembershipStep d now s rid) rid' := by
  by_cases heq : rid' = rid
  · subst heq
    exact normalizeMembershipStep_good_self d now s rid'
  · exact (goodRec_congr (linksOf_normalizeMembershipStep_other heq)).mp h


/-! ## The membership-normalization fold and `normalizeRecordFolderMemberships` -/

theorem foldl_step_records (d now : Nat) (ids : List Nat) (s : JSONStoreData) :
    (ids.foldl (normalizeMembershipStep d now) s).records = s.records := by
  induction ids generalizing s with
  | nil => rfl
  | cons x xs ih => rw [List.foldl_cons, ih, normalizeMembershipStep_records]

theorem foldl_step_folders (d now : Nat) (ids : List Nat) (s : JSONStoreData) :
    (ids.foldl (normalizeMembershipStep d now) s).folders = s.folders := by
  induction ids generalizing s with
  | nil => rfl
  | cons x xs ih => rw [List.foldl_cons, ih, normalizeMembershipStep_folders]

theorem foldl_step_nextFolderID (d now : Nat) (ids : List Nat) (s : JSONStoreData) :
    (ids.foldl (normalizeMembershipStep d now) s).nextFolderID = s.nextFolderID := by
  induction ids generalizing s with
  | nil => rfl
  | cons x xs ih => rw [List.foldl_cons, ih, normalizeMembershipStep_nextFolderID]

theorem foldl_step_good_preserve {d now rid' : Nat} {ids : List Nat} {s : JSONStoreData}
    (h : GoodRec d s rid') :
    GoodRec d (ids.foldl (normalizeMembershipStep d now) s) rid' := by
  induction ids generalizing s with
  | nil => exact h
  | cons x xs ih =>
    rw [List.foldl_cons]
    exact ih (normalizeMembershipStep_good_preserve h)

theorem foldl_step_good_establish {d now rid : Nat} {ids : List Nat} {s : JSONStoreData}
    (h : rid ∈ ids) :
    GoodRec d (ids.foldl (normalizeMembershipStep d now) s) rid := by
  induction ids generalizing s with
  | nil => exact absurd h (List.not_mem_nil rid)
  | cons x xs ih =>
    rw [List.foldl_cons]
    rcases List.mem_cons.mp h with rfl | hxs
    · exact foldl_step_good_preserve (normalizeMembershipStep_good_self d now s rid)
    · exact ih hxs

theorem linksOf_foldl_step_other {d now rid' : Nat} {ids : List Nat} {s : JSONStoreData}
    (h : rid' ∉ ids) :
    linksOf (ids.foldl (normalizeMembershipStep d now) s) rid' = linksOf s rid' := by
  induction ids generalizing s with
  | nil => rfl
  | cons x xs ih =>
    rw [List.foldl_cons, ih (fun hx => h (List.mem_cons_of_mem x hx)),
      linksOf_normalizeMembershipStep_other
        (fun hx => h (by rw [hx]; exact List.mem_cons_self x xs))]

theorem linksOf_congr {s₁ s₂ : JSONStoreData} {rid : Nat}
    (h : s₁.recordFolderLinks = s₂.recordFolderLinks) : linksOf s₁ rid = linksOf s₂ rid := by
  unfold linksOf
  rw [h]

theorem findFolderByName_eq_of_folders {s₁ s₂ : JSONStoreData} (n : List Char)
    (h : s₁.folders = s₂.folders) : findFolderByName s₁ n = findFolderByName s₂ n := by
  unfold findFolderByName
  rw [h]

theorem findFolderByName_key_congr {s : JSONStoreData} {n₁ n₂ : List Char}
    (h : folderKey n₁ = folderKey n₂) : findFolderByName s n₁ = findFolderByName s n₂ := by
  unfold findFolderByName
  rw [h]

theorem find?_append_none {α : Type} (p : α → Bool) {l₁ : List α} (l₂ : List α)
    (h : l₁.find? p = none) : (l₁ ++ l₂).find? p = l₂.find? p := by
  induction l₁ with
  | nil => rfl
  | cons x xs ih =>
    by_cases hx : p x = true
    · rw [List.find?_cons_of_pos _ hx] at h
      exact absurd h (by simp)
    · rw [List.find?_cons_of_neg _ (by simpa using hx)] at h
      rw [List.cons_append, List.find?_cons_of_neg _ (by simpa using hx)]
      exact ih h

theorem ensureDefaultFolder_spec (now : Nat) (s : JSONStoreData) :
    (findFolderByName s DEFAULT_FOLDER_NAME = some (ensureDefaultFolder now s).2 ∧
      (ensureDefaultFolder now s).1 = s) ∨
    (findFolderByName s DEFAULT_FOLDER_NAME = none ∧
      (ensureDefaultFolder now s).2 =
        ⟨Nat.max 1 s.nextFolderID, DEFAULT_FOLDER_NAME, now, now⟩ ∧
      (ensureDefaultFolder now s).1 =
        { s with nextFolderID := Nat.max 1 s.nextFolderID + 1,
                 folders := s.folders ++
                   [⟨Nat.max 1 s.nextFolderID, DEFAULT_FOLDER_NAME, now, now⟩] }) := by
  unfold ensureDefaultFolder
  cases h : findFolderByName s DEFAULT_FOLDER_NAME with
  | some f => exact Or.inl ⟨rfl, rfl⟩
  | none => exact Or.inr ⟨rfl, rfl, rfl⟩

theorem ensureDefaultFolder_records (now : Nat) (s : JSONStoreData) :
    (ensureDefaultFolder now s).1.records = s.records := by
  rcases ensureDefaultFolder_spec now s with ⟨-, hs⟩ | ⟨-, -, hs⟩ <;> rw [hs]

theorem ensureDefaultFolder_links (now : Nat) (s : JSONStoreData) :
    (ensureDefaultFolder now s).1.recordFolderLinks = s.recordFolderLinks := by
  rcases ensureDefaultFolder_spec now s with ⟨-, hs⟩ | ⟨-, -, hs⟩ <;> rw [hs]

theorem ensureDefaultFolder_find (now : Nat) (s : JSONStoreData) :
    findFolderByName (ensureDefaultFolder now s).1 DEFAULT_FOLDER_NAME =
      some (ensureDefaultFolder now s).2 := by
  rcases ensureDefaultFolder_spec now s with ⟨hf, hs⟩ | ⟨hf, hfold, hs⟩
  · rw [hs, hf]
  · rw [hs]
    unfold findFolderByName at hf ⊢
    show (s.folders ++ [_]).find? _ = _
    rw [find?_append_none _ _ hf, hfold]
    simp

theorem normalizeRecordFolderMemberships_eq (now : Nat) (s : JSONStoreData)
    (o : Option (List Nat)) :
    normalizeRecordFolderMemberships now s o =
      if (nmIDs s o).isEmpty then s
      else (nmIDs s o).foldl
        (normalizeMembershipStep (ensureDefaultFolder now s).2.id now)
        (ensureDefaultFolder now s).1 := rfl

theorem nm_records (now : Nat) (s : JSONStoreData) (o : Option (List Nat)) :
    (normalizeRecordFolderMemberships now s o).records = s.records := by
  rw [normalizeRecordFolderMemberships_eq]
  split
  · rfl
  · rw [foldl_step_records, ensureDefaultFolder_records]

theorem nm_good {now : Nat} {s : JSONStoreData} {o : Option (List Nat)} {rid : Nat}
    (h : rid ∈ nmIDs s o) :
    GoodRec (ensureDefaultFolder now s).2.id (normalizeRecordFolderMemberships now s o) rid := by
  rw [normalizeRecordFolderMemberships_eq,
    if_neg (by simpa using List.ne_nil_of_mem h)]
  exact foldl_step_good_establish h

theorem nm_find_default {now : Nat} {s : JSONStoreData} {o : Option (List Nat)}
    (h : ¬(nmIDs s o).isEmpty = true) :
    findFolderByName (normalizeRecordFolderMemberships now s o) DEFAULT_FOLDER_NAME =
      some (ensureDefaultFolder now s).2 := by
  rw [normalizeRecordFolderMemberships_eq, if_neg h]
  rw [findFolderByName_eq_of_folders DEFAULT_FOLDER_NAME
    (foldl_step_folders _ _ _ _)]
  exact ensureDefaultFolder_find now s

theorem nm_linksOf_other {now : Nat} {s : JSONStoreData} {o : Option (List Nat)} {rid' : Nat}
    (h : rid' ∉ nmIDs s o) :
    linksOf (normalizeRecordFolderMemberships now s o) rid' = linksOf s rid' := by
  rw [normalizeRecordFolderMemberships_eq]
  split
  · rfl
  · rw [linksOf_foldl_step_other h,
      linksOf_congr (ensureDefaultFolder_links now s)]

theorem nm_folders_of_empty {now : Nat} {s : JSONStoreData} {o : Option (List Nat)}
    (h : (nmIDs s o).isEmpty = true) :
    normalizeRecordFolderMemberships now s o = s := by
  rw [normalizeRecordFolderMemberships_eq, if_pos h]

theorem nm_folders_of_nonempty {now : Nat} {s : JSONStoreData} {o : Option (List Nat)}
    (h : ¬(nmIDs s o).isEmpty = true) :
    (normalizeRecordFolderMemberships now s o).folders =
      (ensureDefaultFolder now s).1.folders := by
  rw [normalizeRecordFolderMemberships_eq, if_neg h]
  exact foldl_step_folders _ _ _ _

theorem nm_nextFolderID_of_nonempty {now : Nat} {s : JSONStoreData} {o : Option (List Nat)}
    (h : ¬(nmIDs s o).isEmpty = true) :
    (normalizeRecordFolderMemberships now s o).nextFolderID =
      (ensureDefaultFolder now s).1.nextFolderID := by
  rw [normalizeRecordFolderMemberships_eq, if_neg h]
  exact foldl_step_nextFolderID _ _ _ _


/-! ## Structure of `ensureStoreIntegrity` -/

theorem ensureStoreIntegrity_eq (now : Nat) (s : JSONStoreData) :
    ensureStoreIntegrity now s =
      (let s5 := normalizeRecordFolderMemberships now (integrityPre now s) none
       { s5 with
         nextFolderID := Nat.max (if s5.nextFolderID = 0 then 1 else s5.nextFolderID)
           (maxID (s5.folders.map (fun f => f.id)) + 1),
         nextRecordID := Nat.max (if s5.nextRecordID = 0 then 1 else s5.nextRecordID)
           (maxID (s5.records.map (fun r => r.id)) + 1),
         nextEventID := Nat.max (if s5.nextEventID = 0 then 1 else s5.nextEventID)
           (maxID (s5.events.map (fun e => e.id)) + 1) }) := rfl

theorem ensureStoreIntegrity_records_nm (now : Nat) (s : JSONStoreData) :
    (ensureStoreIntegrity now s).records =
      (normalizeRecordFolderMemberships now (integrityPre now s) none).records := by
  rw [ensureStoreIntegrity_eq]

theorem ensureStoreIntegrity_links_nm (now : Nat) (s : JSONStoreData) :
    (ensureStoreIntegrity now s).recordFolderLinks =
      (normalizeRecordFolderMemberships now (integrityPre now s) none).recordFolderLinks := by
  rw [ensureStoreIntegrity_eq]

theorem ensureStoreIntegrity_folders_nm (now : Nat) (s : JSONStoreData) :
    (ensureStoreIntegrity now s).folders =
      (normalizeRecordFolderMemberships now (integrityPre now s) none).folders := by
  rw [ensureStoreIntegrity_eq]

theorem integrityPre_records (now : Nat) (s : JSONStoreData) :
    (integrityPre now s).records = s.records := by
  unfold integrityPre
  show (ensureDefaultFolder now _).1.records = s.records
  rw [ensureDefaultFolder_records]

theorem ensureStoreIntegrity_records (now : Nat) (s : JSONStoreData) :
    (ensureStoreIntegrity now s).records = s.records := by
  rw [ensureStoreIntegrity_records_nm, nm_records, integrityPre_records]

theorem ensureStoreIntegrity_good (now : Nat) (s : JSONStoreData) :
    ∀ r ∈ (ensureStoreIntegrity now s).records,
      LinkComplete (ensureStoreIntegrity now s) r.id ∧
      ∀ f, findFolderByName (ensureStoreIntegrity now s) DEFAULT_FOLDER_NAME = some f →
        DefaultExclusive (ensureStoreIntegrity now s) f.id r.id := by
  intro r hr
  have h1 := ensureStoreIntegrity_records_nm now s
  have h2 := ensureStoreIntegrity_links_nm now s
  have h3 := ensureStoreIntegrity_folders_nm now s
  have hrN : r ∈ (normalizeRecordFolderMemberships now (integrityPre now s) none).records :=
    h1 ▸ hr
  have hidmem : r.id ∈ nmIDs (integrityPre now s) none := by
    show r.id ∈ (integrityPre now s).records.map (fun r => r.id)
    rw [nm_records] at hrN
    exact List.mem_map_of_mem _ hrN
  have hgood := @nm_good now _ _ _ hidmem
  constructor
  · rw [linkComplete_iff_linksOf, linksOf_congr h2, ← linkComplete_iff_linksOf]
    exact hgood.1
  · intro f hf
    rw [findFolderByName_eq_of_folders _ h3] at hf
    have hfN := @nm_find_default now (integrityPre now s) none
      (by simpa using List.ne_nil_of_mem hidmem)
    rw [hf] at hfN
    have hfe : f = (ensureDefaultFolder now (integrityPre now s)).2 := Option.some.inj hfN
    rw [defaultExclusive_iff, linksOf_congr h2, ← defaultExclusive_iff, hfe]
    exact hgood.2

/-! ## The folder de-duplication pass -/

theorem dedupFolders_foldl_mem (fs acc : List JSONStoreFolder) (x : JSONStoreFolder)
    (h : x ∈ fs.foldl
      (fun acc f =>
        if folderKey f.name = [] ∨ acc.any (fun g => folderKey g.name = folderKey f.name)
        then acc else acc ++ [f]) acc) :
    x ∈ acc ∨ x ∈ fs := by
  induction fs generalizing acc with
  | nil => exact Or.inl h
  | cons f fs ih =>
    rw [List.foldl_cons] at h
    rcases ih _ h with hacc | hfs
    · by_cases hc : folderKey f.name = [] ∨
          acc.any (fun g => folderKey g.name = folderKey f.name)
      · rw [if_pos hc] at hacc
        exact Or.inl hacc
      · rw [if_neg hc] at hacc
        rcases List.mem_append.mp hacc with h1 | h1
        · exact Or.inl h1
        · rw [List.mem_singleton] at h1
          exact Or.inr (h1 ▸ List.mem_cons_self f fs)
    · exact Or.inr (List.mem_cons_of_mem f hfs)

theorem dedupFolders_sub {fs : List JSONStoreFolder} {x : JSONStoreFolder}
    (h : x ∈ dedupFolders fs) : x ∈ fs := by
  rcases dedupFolders_foldl_mem fs [] x h with h1 | h1
  · exact absurd h1 (List.not_mem_nil x)
  · exact h1

theorem dedupFolders_foldl_pairwise (fs acc : List JSONStoreFolder)
    (hacc : acc.Pairwise (fun a b => folderKey a.name ≠ folderKey b.name)) :
    (fs.foldl
      (fun acc f =>
        if folderKey f.name = [] ∨ acc.any (fun g => folderKey g.name = folderKey f.name)
        then acc else acc ++ [f]) acc).Pairwise
      (fun a b => folderKey a.name ≠ folderKey b.name) := by
  induction fs generalizing acc with
  | nil => exact hacc
  | cons f fs ih =>
    rw [List.foldl_cons]
    apply ih
    by_cases hc : folderKey f.name = [] ∨
        acc.any (fun g => folderKey g.name = folderKey f.name)
    · rw [if_pos hc]
      exact hacc
    · rw [if_neg hc]
      rw [List.pairwise_append]
      refine ⟨hacc, List.pairwise_singleton _ _, ?_⟩
      intro a ha b hb
      rw [List.mem_singleton] at hb
      subst hb
      intro hk
      exact hc (Or.inr (List.any_eq_true.mpr ⟨a, ha, by simpa using hk⟩))

theorem dedupFolders_pairwise (fs : List JSONStoreFolder) :
    (dedupFolders fs).Pairwise (fun a b => folderKey a.name ≠ folderKey b.name) :=
  dedupFolders_foldl_pairwise fs [] List.Pairwise.nil

theorem dedupFolders_foldl_key (fs acc : List JSONStoreFolder) (k : List Char)
    (hk : k ≠ []) (h : (∃ f ∈ acc, folderKey f.name = k) ∨ ∃ f ∈ fs, folderKey f.name = k) :
    ∃ f ∈ fs.foldl
      (fun acc f =>
        if folderKey f.name = [] ∨ acc.any (fun g => folderKey g.name = folderKey f.name)
        then acc else acc ++ [f]) acc, folderKey f.name = k := by
  induction fs generalizing acc with
  | nil =>
    rcases h with h | ⟨f, hf, -⟩
    · exact h
    · exact absurd hf (List.not_mem_nil f)
  | cons f fs ih =>
    rw [List.foldl_cons]
    apply ih
    by_cases hc : folderKey f.name = [] ∨
        acc.any (fun g => folderKey g.name = folderKey f.name)
    · rw [if_pos hc]
      rcases h with h | ⟨g, hg, hgk⟩
      · exact Or.inl h
      · rcases List.mem_cons.mp hg with rfl | hgfs
        · rcases hc with hc | hc
          · exact absurd (hgk ▸ hc) hk
          · rcases List.any_eq_true.mp hc with ⟨a, ha, hak⟩
            refine Or.inl ⟨a, ha, ?_⟩
            have h1 : folderKey a.name = folderKey g.name := by simpa using hak
            rw [h1, hgk]
        · exact Or.inr ⟨g, hgfs, hgk⟩
    · rw [if_neg hc]
      rcases h with ⟨g, hg, hgk⟩ | ⟨g, hg, hgk⟩
      · exact Or.inl ⟨g, List.mem_append_left _ hg, hgk⟩
      · rcases List.mem_cons.mp hg with rfl | hgfs
        · exact Or.inl ⟨g, List.mem_append_right _ (List.mem_singleton_self g), hgk⟩
        · exact Or.inr ⟨g, hgfs, hgk⟩

theorem dedupFolders_key {fs : List JSONStoreFolder} {k : List Char} (hk : k ≠ [])
    (h : ∃ f ∈ fs, folderKey f.name = k) :
    ∃ f ∈ dedupFolders fs, folderKey f.name = k :=
  dedupFolders_foldl_key fs [] k hk (Or.inr h)


/-! ## Row-level facts about the repaired store -/

theorem filterDedupLinks_foldl_mem (fids rids : List Nat)
    (links acc : List JSONStoreRecordFolderLink) (l : JSONStoreRecordFolderLink)
    (h : l ∈ links.foldl
      (fun acc l =>
        if l.folderID ∈ fids ∧ l.recordID ∈ rids ∧
            ¬acc.any (fun x => x.recordID = l.recordID && x.folderID = l.folderID)
        then acc ++ [l] else acc) acc) :
    l ∈ acc ∨ (l ∈ links ∧ l.folderID ∈ fids ∧ l.recordID ∈ rids) := by
  induction links generalizing acc with
  | nil => exact Or.inl h
  | cons x ls ih =>
    rw [List.foldl_cons] at h
    rcases ih _ h with hacc | ⟨h1, h2, h3⟩
    · by_cases hc : x.folderID ∈ fids ∧ x.recordID ∈ rids ∧
          ¬acc.any (fun y => y.recordID = x.recordID && y.folderID = x.folderID)
      · rw [if_pos hc] at hacc
        rcases List.mem_append.mp hacc with h1 | h1
        · exact Or.inl h1
        · rw [List.mem_singleton] at h1
          subst h1
          exact Or.inr ⟨List.mem_cons_self l ls, hc.1, hc.2.1⟩
      · rw [if_neg hc] at hacc
        exact Or.inl hacc
    · exact Or.inr ⟨List.mem_cons_of_mem x h1, h2, h3⟩

theorem mem_filterDedupLinks {fids rids : List Nat} {links : List JSONStoreRecordFolderLink}
    {l : JSONStoreRecordFolderLink} (h : l ∈ filterDedupLinks fids rids links) :
    l ∈ links ∧ l.folderID ∈ fids ∧ l.recordID ∈ rids := by
  rcases filterDedupLinks_foldl_mem fids rids links [] l h with h1 | h1
  · exact absurd h1 (List.not_mem_nil l)
  · exact h1

theorem normalizeMembershipStep_links_mem {d now rid : Nat} {s : JSONStoreData}
    {l : JSONStoreRecordFolderLink}
    (h : l ∈ (normalizeMembershipStep d now s rid).recordFolderLinks) :
    l ∈ s.recordFolderLinks ∨ l.folderID = d := by
  rw [normalizeMembershipStep_eq] at h
  split at h
  · rcases addRecordFolderLink_links_cases s rid d now with hc | hc
    · rw [hc] at h
      exact Or.inl h
    · rw [hc] at h
      rcases List.mem_append.mp h with h1 | h1
      · exact Or.inl h1
      · rw [List.mem_singleton] at h1
        subst h1
        exact Or.inr rfl
  · split at h
    · exact Or.inl (List.mem_of_mem_filter h)
    · exact Or.inl h

theorem foldl_step_links_mem {d now : Nat} {ids : List Nat} {s : JSONStoreData}
    {l : JSONStoreRecordFolderLink}
    (h : l ∈ (ids.foldl (normalizeMembershipStep d now) s).recordFolderLinks) :
    l ∈ s.recordFolderLinks ∨ l.folderID = d := by
  induction ids generalizing s with
  | nil => exact Or.inl h
  | cons x xs ih =>
    rw [List.foldl_cons] at h
    rcases ih h with h1 | h1
    · exact normalizeMembershipStep_links_mem h1
    · exact Or.inr h1

theorem nm_links_mem {now : Nat} {s : JSONStoreData} {o : Option (List Nat)}
    {l : JSONStoreRecordFolderLink}
    (h : l ∈ (normalizeRecordFolderMemberships now s o).recordFolderLinks) :
    l ∈ s.recordFolderLinks ∨ l.folderID = (ensureDefaultFolder now s).2.id := by
  rw [normalizeRecordFolderMemberships_eq] at h
  split at h
  · exact Or.inl h
  · rcases foldl_step_links_mem h with h1 | h1
    · rw [ensureDefaultFolder_links] at h1
      exact Or.inl h1
    · exact Or.inr h1

theorem ensureStoreIntegrity_nextFolderID (now : Nat) (s : JSONStoreData) :
    (ensureStoreIntegrity now s).nextFolderID =
      Nat.max
        (if (normalizeRecordFolderMemberships now (integrityPre now s) none).nextFolderID = 0
         then 1
         else (normalizeRecordFolderMemberships now (integrityPre now s) none).nextFolderID)
        (maxID ((normalizeRecordFolderMemberships now (integrityPre now s) none).folders.map
          (fun f => f.id)) + 1) := by
  rw [ensureStoreIntegrity_eq]

theorem ensureStoreIntegrity_folderIDBound (now : Nat) (s : JSONStoreData) :
    FolderIDBound (ensureStoreIntegrity now s) := by
  intro f hf
  rw [ensureStoreIntegrity_folders_nm] at hf
  rw [ensureStoreIntegrity_nextFolderID]
  have h1 : f.id ≤ maxID
      ((normalizeRecordFolderMemberships now (integrityPre now s) none).folders.map
        (fun f => f.id)) :=
    le_maxID (List.mem_map_of_mem _ hf)
  have h2 := Nat.le_max_right
    (if (normalizeRecordFolderMemberships now (integrityPre now s) none).nextFolderID = 0
     then 1
     else (normalizeRecordFolderMemberships now (integrityPre now s) none).nextFolderID)
    (maxID ((normalizeRecordFolderMemberships now (integrityPre now s) none).folders.map
      (fun f => f.id)) + 1)
  exact Nat.lt_of_lt_of_le (Nat.lt_succ_of_le h1) h2

theorem integrityPre_folders (now : Nat) (s : JSONStoreData) :
    (integrityPre now s).folders =
      dedupFolders (ensureDefaultFolder now
        { s with
          schemaVersion := 2,
          createdAt := if s.createdAt = 0 then now else s.createdAt,
          updatedAt := if s.updatedAt = 0 then now else s.updatedAt }).1.folders := rfl

theorem ensureDefaultFolder_folders_sub {now : Nat} {s : JSONStoreData} {f : JSONStoreFolder}
    (h : f ∈ (ensureDefaultFolder now s).1.folders) :
    f ∈ s.folders ∨ (f.name = DEFAULT_FOLDER_NAME ∧ 0 < f.id) := by
  rcases ensureDefaultFolder_spec now s with ⟨-, hs⟩ | ⟨-, -, hs⟩
  · rw [hs] at h
    exact Or.inl h
  · rw [hs] at h
    rcases List.mem_append.mp h with h1 | h1
    · exact Or.inl h1
    · rw [List.mem_singleton] at h1
      subst h1
      exact Or.inr ⟨rfl, Nat.lt_of_lt_of_le Nat.zero_lt_one (Nat.le_max_left 1 _)⟩

theorem integrityPre_folders_sub {now : Nat} {s : JSONStoreData} {f : JSONStoreFolder}
    (h : f ∈ (integrityPre now s).folders) :
    f ∈ s.folders ∨ (f.name = DEFAULT_FOLDER_NAME ∧ 0 < f.id) := by
  rw [integrityPre_folders] at h
  rcases ensureDefaultFolder_folders_sub (dedupFolders_sub h) with h1 | h1
  · exact Or.inl h1
  · exact Or.inr h1

theorem ensureStoreIntegrity_folders_sub {now : Nat} {s : JSONStoreData} {f : JSONStoreFolder}
    (h : f ∈ (ensureStoreIntegrity now s).folders) :
    f ∈ s.folders ∨ (f.name = DEFAULT_FOLDER_NAME ∧ 0 < f.id) := by
  rw [ensureStoreIntegrity_folders_nm] at h
  by_cases he : (nmIDs (integrityPre now s) none).isEmpty = true
  · rw [nm_folders_of_empty he] at h
    exact integrityPre_folders_sub h
  · rw [nm_folders_of_nonempty he] at h
    rcases ensureDefaultFolder_folders_sub h with h1 | h1
    · exact integrityPre_folders_sub h1
    · exact Or.inr h1

theorem ensureStoreIntegrity_foldersPos {now : Nat} {s : JSONStoreData} (hs : FoldersPos s) :
    FoldersPos (ensureStoreIntegrity now s) := by
  intro f hf
  rcases ensureStoreIntegrity_folders_sub hf with h | h
  · exact hs f h
  · exact h.2

theorem ensureStoreIntegrity_goodNames {now : Nat} {s : JSONStoreData} (hs : GoodNames s) :
    GoodNames (ensureStoreIntegrity now s) := by
  intro f hf
  rcases ensureStoreIntegrity_folders_sub hf with h | h
  · exact hs f h
  · rw [h.1]
    exact ⟨by decide, by decide⟩

theorem ensureStoreIntegrity_keysUnique (now : Nat) (s : JSONStoreData) :
    KeysUnique (ensureStoreIntegrity now s) := by
  unfold KeysUnique
  rw [ensureStoreIntegrity_folders_nm]
  by_cases he : (nmIDs (integrityPre now s) none).isEmpty = true
  · rw [nm_folders_of_empty he, integrityPre_folders]
    exact dedupFolders_pairwise _
  · rw [nm_folders_of_nonempty he]
    rcases ensureDefaultFolder_spec now (integrityPre now s) with ⟨-, hs2⟩ | ⟨hnone, -, hs2⟩
    · rw [hs2, integrityPre_folders]
      exact dedupFolders_pairwise _
    · rw [hs2]
      show ((integrityPre now s).folders ++ [_]).Pairwise _
      rw [List.pairwise_append]
      refine ⟨by rw [integrityPre_folders]; exact dedupFolders_pairwise _,
        List.pairwise_singleton _ _, ?_⟩
      intro a ha b hb
      rw [List.mem_singleton] at hb
      subst hb
      intro hk
      unfold findFolderByName at hnone
      have := List.find?_eq_none.mp hnone a ha
      exact this (by simpa using hk)

theorem integrityPre_has_key (now : Nat) (s : JSONStoreData) :
    ∃ f ∈ (integrityPre now s).folders,
      folderKey f.name = folderKey DEFAULT_FOLDER_NAME := by
  rw [integrityPre_folders]
  apply dedupFolders_key (by decide)
  have h := ensureDefaultFolder_find now
    { s with
      schemaVersion := 2,
      createdAt := if s.createdAt = 0 then now else s.createdAt,
      updatedAt := if s.updatedAt = 0 then now else s.updatedAt }
  unfold findFolderByName at h
  exact ⟨_, List.mem_of_find?_eq_some h, by simpa using List.find?_some h⟩

theorem findFolderByName_isSome_of_key {s : JSONStoreData} {n : List Char}
    (h : ∃ f ∈ s.folders, folderKey f.name = folderKey n) :
    ∃ f, findFolderByName s n = some f := by
  unfold findFolderByName
  rcases h with ⟨f, hf, hk⟩
  cases hfind : s.folders.find? (fun g => folderKey g.name = folderKey n) with
  | some g => exact ⟨g, rfl⟩
  | none => exact absurd (by simpa using hk) (by simpa using List.find?_eq_none.mp hfind f hf)

theorem ensureStoreIntegrity_has_default (now : Nat) (s : JSONStoreData) :
    ∃ f, findFolderByName (ensureStoreIntegrity now s) DEFAULT_FOLDER_NAME = some f := by
  have hT : findFolderByName (ensureStoreIntegrity now s) DEFAULT_FOLDER_NAME =
      findFolderByName (normalizeRecordFolderMemberships now (integrityPre now s) none)
        DEFAULT_FOLDER_NAME :=
    findFolderByName_eq_of_folders _ (ensureStoreIntegrity_folders_nm now s)
  by_cases he : (nmIDs (integrityPre now s) none).isEmpty = true
  · rw [hT, nm_folders_of_empty he]
    exact findFolderByName_isSome_of_key (integrityPre_has_key now s)
  · exact ⟨_, hT.trans (nm_find_default he)⟩

theorem findFolderByName_eq_of_mem_key {s : JSONStoreData} {n : List Char}
    {f : JSONStoreFolder} (hu : KeysUnique s) (hf : f ∈ s.folders)
    (hk : folderKey f.name = folderKey n) : findFolderByName s n = some f := by
  unfold findFolderByName
  apply find?_eq_some_of_unique _ hf (by simpa using hk)
  refine hu.imp ?_
  intro a b hab hpq
  rcases hpq with ⟨h1, h2⟩
  have ha : folderKey a.name = folderKey n := by simpa using h1
  have hb : folderKey b.name = folderKey n := by simpa using h2
  exact hab (ha.trans hb.symm)


/-! ## Bounds on link targets and the loaded store's row invariants -/

theorem ensureDefaultFolder_nextFolderID_ge (now : Nat) (s : JSONStoreData) :
    s.nextFolderID ≤ (ensureDefaultFolder now s).1.nextFolderID := by
  rcases ensureDefaultFolder_spec now s with ⟨-, hs⟩ | ⟨-, -, hs⟩
  · rw [hs]
  · rw [hs]
    show s.nextFolderID ≤ Nat.max 1 s.nextFolderID + 1
    exact Nat.le_succ_of_le (Nat.le_max_right 1 s.nextFolderID)

theorem ensureDefaultFolder_folderIDBound {now : Nat} {s : JSONStoreData}
    (h : FolderIDBound s) : FolderIDBound (ensureDefaultFolder now s).1 := by
  rcases ensureDefaultFolder_spec now s with ⟨-, hs⟩ | ⟨-, -, hs⟩
  · rw [hs]
    exact h
  · rw [hs]
    intro f hf
    show f.id < Nat.max 1 s.nextFolderID + 1
    rcases List.mem_append.mp hf with h1 | h1
    · exact Nat.lt_succ_of_le (Nat.le_of_lt
        (Nat.lt_of_lt_of_le (h f h1) (Nat.le_max_right 1 s.nextFolderID)))
    · rw [List.mem_singleton] at h1
      subst h1
      show Nat.max 1 s.nextFolderID < Nat.max 1 s.nextFolderID + 1
      exact Nat.lt_succ_self _

theorem ensureDefaultFolder_mem_self (now : Nat) (s : JSONStoreData) :
    (ensureDefaultFolder now s).2 ∈ (ensureDefaultFolder now s).1.folders := by
  have h := ensureDefaultFolder_find now s
  unfold findFolderByName at h
  exact List.mem_of_find?_eq_some h

theorem integrityPre_nextFolderID (now : Nat) (s : JSONStoreData) :
    (integrityPre now s).nextFolderID =
      (ensureDefaultFolder now
        { s with
          schemaVersion := 2,
          createdAt := if s.createdAt = 0 then now else s.createdAt,
          updatedAt := if s.updatedAt = 0 then now else s.updatedAt }).1.nextFolderID := rfl

theorem integrityPre_links (now : Nat) (s : JSONStoreData) :
    (integrityPre now s).recordFolderLinks =
      filterDedupLinks
        ((ensureDefaultFolder now
          { s with
            schemaVersion := 2,
            createdAt := if s.createdAt = 0 then now else s.createdAt,
            updatedAt := if s.updatedAt = 0 then now else s.updatedAt }).1.folders.map
          (fun f => f.id))
        ((ensureDefaultFolder now
          { s with
            schemaVersion := 2,
            createdAt := if s.createdAt = 0 then now else s.createdAt,
            updatedAt := if s.updatedAt = 0 then now else s.updatedAt }).1.records.map
          (fun r => r.id))
        (ensureDefaultFolder now
          { s with
            schemaVersion := 2,
            createdAt := if s.createdAt = 0 then now else s.createdAt,
            updatedAt := if s.updatedAt = 0 then now else s.updatedAt }).1.recordFolderLinks :=
  rfl

theorem integrityPre_folderIDBound {now : Nat} {s : JSONStoreData}
    (h : FolderIDBound s) : FolderIDBound (integrityPre now s) := by
  intro f hf
  rw [integrityPre_folders] at hf
  rw [integrityPre_nextFolderID]
  have hstamped : FolderIDBound
      { s with
        schemaVersion := 2,
        createdAt := if s.createdAt = 0 then now else s.createdAt,
        updatedAt := if s.updatedAt = 0 then now else s.updatedAt } := h
  exact ensureDefaultFolder_folderIDBound hstamped f (dedupFolders_sub hf)

theorem integrityPre_linkFolderBound {now : Nat} {s : JSONStoreData}
    (h : FolderIDBound s) : LinkFolderBound (integrityPre now s) := by
  intro l hl
  rw [integrityPre_links] at hl
  rcases mem_filterDedupLinks hl with ⟨-, hfid, -⟩
  rcases List.mem_map.mp hfid with ⟨f, hf, hfe⟩
  rw [integrityPre_nextFolderID, ← hfe]
  have hstamped : FolderIDBound
      { s with
        schemaVersion := 2,
        createdAt := if s.createdAt = 0 then now else s.createdAt,
        updatedAt := if s.updatedAt = 0 then now else s.updatedAt } := h
  exact ensureDefaultFolder_folderIDBound hstamped f hf

theorem ensureDefaultFolder_id_bound (now : Nat) (s : JSONStoreData) :
    (ensureDefaultFolder now s).2.id < (ensureDefaultFolder now s).1.nextFolderID ∨
    ¬FolderIDBound s := by
  by_cases h : FolderIDBound s
  · exact Or.inl (ensureDefaultFolder_folderIDBound h _ (ensureDefaultFolder_mem_self now s))
  · exact Or.inr h

theorem ensureStoreIntegrity_linkFolderBound {now : Nat} {s : JSONStoreData}
    (h : FolderIDBound s) : LinkFolderBound (ensureStoreIntegrity now s) := by
  intro l hl
  rw [ensureStoreIntegrity_links_nm] at hl
  rw [ensureStoreIntegrity_nextFolderID]
  have hpreB : FolderIDBound (integrityPre now s) := integrityPre_folderIDBound h
  have hpreL : LinkFolderBound (integrityPre now s) := integrityPre_linkFolderBound h
  have hbound : l.folderID <
      (normalizeRecordFolderMemberships now (integrityPre now s) none).nextFolderID := by
    by_cases he : (nmIDs (integrityPre now s) none).isEmpty = true
    · rw [nm_folders_of_empty he] at hl
      rw [nm_folders_of_empty he]
      exact hpreL l hl
    · rw [nm_nextFolderID_of_nonempty he]
      rcases nm_links_mem hl with h1 | h1
      · exact Nat.lt_of_lt_of_le (hpreL l h1)
          (ensureDefaultFolder_nextFolderID_ge now (integrityPre now s))
      · rw [h1]
        exact ensureDefaultFolder_folderIDBound hpreB _
          (ensureDefaultFolder_mem_self now (integrityPre now s))
  by_cases h0 :
      (normalizeRecordFolderMemberships now (integrityPre now s) none).nextFolderID = 0
  · rw [h0] at hbound
    exact absurd hbound (Nat.not_lt_zero _)
  · rw [if_neg h0]
    exact Nat.lt_of_lt_of_le hbound (Nat.le_max_left _ _)

theorem ensureStoreIntegrity_recordsPos {now : Nat} {s : JSONStoreData}
    (h : RecordsPos s) : RecordsPos (ensureStoreIntegrity now s) := by
  intro r hr
  rw [ensureStoreIntegrity_records] at hr
  exact h r hr

theorem normalizeStoreData_recordsPos (now : Nat) (s : JSONStoreData) :
    RecordsPos (normalizeStoreData now s) := by
  intro r hr
  have hr2 : r ∈ s.records.filterMap normalizeReviewRecordOpt := hr
  rcases List.mem_filterMap.mp hr2 with ⟨a, -, ha⟩
  unfold normalizeReviewRecordOpt at ha
  by_cases hpos : 0 < a.id
  · rw [if_pos hpos] at ha
    have := Option.some.inj ha
    rw [← this]
    exact hpos
  · rw [if_neg hpos] at ha
    exact absurd ha (by simp)

theorem normalizeStoreData_foldersPos (now : Nat) (s : JSONStoreData) :
    FoldersPos (normalizeStoreData now s) := by
  intro f hf
  have hf2 : f ∈ s.folders.filterMap normalizeFolderRecordOpt := hf
  rcases List.mem_filterMap.mp hf2 with ⟨a, -, ha⟩
  unfold normalizeFolderRecordOpt at ha
  by_cases hc : 0 < a.id ∧ normalizeFolderName a.name ≠ []
  · rw [if_pos hc] at ha
    have := Option.some.inj ha
    rw [← this]
    exact hc.1
  · rw [if_neg hc] at ha
    exact absurd ha (by simp)

theorem dropWhile_head_false {p : Char → Bool} {l : List Char} {c : Char} {t : List Char}
    (h : l.dropWhile p = c :: t) : p c = false := by
  induction l generalizing t with
  | nil => exact absurd h (by simp)
  | cons x xs ih =>
    rw [List.dropWhile_cons] at h
    by_cases hx : p x = true
    · rw [if_pos hx] at h
      exact ih h
    · rw [if_neg hx] at h
      have : c = x := (List.cons.injEq _ _ _ _ ▸ h).1.symm
      rw [this]
      exact Bool.eq_false_iff.mpr hx

theorem jsTrim_prefix_dropWhile (l : List Char) : jsTrim l <+: l.dropWhile isJsSpace := by
  have hrev : (jsTrim l).reverse = (l.dropWhile isJsSpace).reverse.dropWhile isJsSpace := by
    rw [jsTrim]
    exact List.reverse_reverse _
  rw [← List.reverse_suffix, hrev]
  exact dropWhile_suffix' _ _

theorem jsTrim_ne_nil_of_exists {l : List Char} (h : ∃ c ∈ l, isJsSpace c = false) :
    jsTrim l ≠ [] := by
  rcases h with ⟨c, hc, hcs⟩
  have h1 : l.dropWhile isJsSpace ≠ [] := by
    intro h2
    rw [List.dropWhile_eq_nil_iff] at h2
    have := h2 c hc
    rw [hcs] at this
    exact Bool.false_ne_true this
  cases hd : l.dropWhile isJsSpace with
  | nil => exact absurd hd h1
  | cons d ds =>
    intro h0
    have hdns : isJsSpace d = false := dropWhile_head_false hd
    have hrev : (jsTrim l).reverse = (l.dropWhile isJsSpace).reverse.dropWhile isJsSpace := by
      rw [jsTrim]
      exact List.reverse_reverse _
    rw [h0] at hrev
    have h3 : ∀ x ∈ (l.dropWhile isJsSpace).reverse, isJsSpace x = true := by
      rw [← List.dropWhile_eq_nil_iff]
      exact hrev.symm
    have h4 : d ∈ (l.dropWhile isJsSpace).reverse := by
      rw [hd]
      exact List.mem_reverse.mpr (List.mem_cons_self d ds)
    rw [h3 d h4] at hdns
    exact Bool.noConfusion hdns

theorem normalizeFolderName_key_ne_nil {x : List Char} (h : normalizeFolderName x ≠ []) :
    folderKey (normalizeFolderName x) ≠ [] := by
  cases hn : normalizeFolderName x with
  | nil => exact absurd hn h
  | cons c t =>
    have hpre : normalizeFolderName x <+: jsTrim x := by
      unfold normalizeFolderName
      exact List.take_prefix _ _
    rw [hn] at hpre
    rcases hpre.trans (jsTrim_prefix_dropWhile x) with ⟨u, hu⟩
    have hc : isJsSpace c = false := dropWhile_head_false (l := x) (t := t ++ u) (by
      rw [← hu]
      rfl)
    intro hkey
    unfold folderKey jsLower at hkey
    rw [List.map_eq_nil] at hkey
    exact jsTrim_ne_nil_of_exists ⟨c, List.mem_cons_self c t, hc⟩ hkey

theorem normalizeStoreData_goodNames (now : Nat) (s : JSONStoreData) :
    GoodNames (normalizeStoreData now s) := by
  intro f hf
  have hf2 : f ∈ s.folders.filterMap normalizeFolderRecordOpt := hf
  rcases List.mem_filterMap.mp hf2 with ⟨a, -, ha⟩
  unfold normalizeFolderRecordOpt at ha
  by_cases hc : 0 < a.id ∧ normalizeFolderName a.name ≠ []
  · rw [if_pos hc] at ha
    have he := Option.some.inj ha
    constructor
    · rw [← he]
      exact normalizeFolderName_length_le a.name
    · rw [← he]
      exact normalizeFolderName_key_ne_nil hc.2
  · rw [if_neg hc] at ha
    exact absurd ha (by simp)


theorem nmIDs_some_nonempty {s : JSONStoreData} {A : List Nat} (h : ¬A.isEmpty = true) :
    nmIDs s (some A) = normalizeIDList A := by
  show (if A.isEmpty = true then s.records.map (fun r => r.id) else normalizeIDList A) =
    normalizeIDList A
  rw [if_neg h]

theorem nmIDs_mem_of_mem {s : JSONStoreData} {A : List Nat} {x : Nat}
    (hx : x ∈ A) (hpos : 0 < x) : x ∈ nmIDs s (some A) := by
  rw [nmIDs_some_nonempty (by simpa using List.ne_nil_of_mem hx)]
  exact mem_normalizeIDList.mpr ⟨hpos, hx⟩

/-! ## Transporting the per-record invariants across an operation's tail -/

theorem ensureStoreIntegrity_storeGood (now : Nat) (s : JSONStoreData) :
    StoreGood (ensureStoreIntegrity now s) :=
  ensureStoreIntegrity_good now s

theorem storeGood_transport {u v : JSONStoreData}
    (hlinks : v.recordFolderLinks = u.recordFolderLinks)
    (hfolders : v.folders = u.folders)
    (hrec : ∀ r ∈ v.records, ∃ r₀ ∈ u.records, r₀.id = r.id)
    (h : StoreGood u) : StoreGood v := by
  intro r hr
  rcases hrec r hr with ⟨r₀, hr₀, hid⟩
  have hu := h r₀ hr₀
  constructor
  · rw [linkComplete_iff_linksOf, linksOf_congr hlinks, ← linkComplete_iff_linksOf, ← hid]
    exact hu.1
  · intro f hf
    rw [findFolderByName_eq_of_folders _ hfolders] at hf
    have hex := hu.2 f hf
    rw [hid] at hex
    rw [defaultExclusive_iff, linksOf_congr hlinks, ← defaultExclusive_iff]
    exact hex

theorem find?_append_some {α : Type} (p : α → Bool) {l₁ : List α} (l₂ : List α) {a : α}
    (h : l₁.find? p = some a) : (l₁ ++ l₂).find? p = some a := by
  induction l₁ with
  | nil => exact absurd h (by simp)
  | cons x xs ih =>
    by_cases hx : p x = true
    · rw [List.find?_cons_of_pos _ hx] at h
      rw [List.cons_append, List.find?_cons_of_pos _ hx]
      exact h
    · rw [List.find?_cons_of_neg _ (by simpa using hx)] at h
      rw [List.cons_append, List.find?_cons_of_neg _ (by simpa using hx)]
      exact ih h

theorem storeGood_append_folder {u v : JSONStoreData}
    (hlinks : v.recordFolderLinks = u.recordFolderLinks)
    (hfolders : ∃ g, v.folders = u.folders ++ [g])
    (hdef : ∃ f₀, findFolderByName u DEFAULT_FOLDER_NAME = some f₀)
    (hrec : ∀ r ∈ v.records, ∃ r₀ ∈ u.records, r₀.id = r.id)
    (h : StoreGood u) : StoreGood v := by
  rcases hfolders with ⟨g, hfolders⟩
  have hv : findFolderByName v DEFAULT_FOLDER_NAME =
      findFolderByName u DEFAULT_FOLDER_NAME := by
    rcases hdef with ⟨f₀, hf₀⟩
    unfold findFolderByName at hf₀ ⊢
    rw [hfolders, find?_append_some _ _ hf₀, hf₀]
  intro r hr
  rcases hrec r hr with ⟨r₀, hr₀, hid⟩
  have hu := h r₀ hr₀
  constructor
  · rw [linkComplete_iff_linksOf, linksOf_congr hlinks, ← linkComplete_iff_linksOf, ← hid]
    exact hu.1
  · intro f hf
    rw [hv] at hf
    have hex := hu.2 f hf
    rw [hid] at hex
    rw [defaultExclusive_iff, linksOf_congr hlinks, ← defaultExclusive_iff]
    exact hex

theorem touchRecords_eq (now : Nat) (s : JSONStoreData) (ids : List Nat) :
    touchRecords now s ids =
      if (normalizeIDList ids).isEmpty = true then s
      else { s with records := List.map (fun r => if r.id ∈ normalizeIDList ids then { r with updatedAt := now } else r) s.records } :=
  rfl

theorem touchRecords_links (now : Nat) (s : JSONStoreData) (ids : List Nat) :
    (touchRecords now s ids).recordFolderLinks = s.recordFolderLinks := by
  rw [touchRecords_eq]
  split <;> rfl

theorem touchRecords_folders (now : Nat) (s : JSONStoreData) (ids : List Nat) :
    (touchRecords now s ids).folders = s.folders := by
  rw [touchRecords_eq]
  split <;> rfl

theorem touchRecords_records_mem (now : Nat) (s : JSONStoreData) (ids : List Nat) :
    ∀ r ∈ (touchRecords now s ids).records, ∃ r₀ ∈ s.records, r₀.id = r.id := by
  intro r hr
  rw [touchRecords_eq] at hr
  split at hr
  · exact ⟨r, hr, rfl⟩
  · rcases List.mem_map.mp hr with ⟨r₀, hr₀, he⟩
    refine ⟨r₀, hr₀, ?_⟩
    rw [← he]
    split <;> rfl

theorem markStoreUpdated_storeGood {now : Nat} {u : JSONStoreData}
    (h : StoreGood u) : StoreGood (markStoreUpdated now u) :=
  storeGood_transport rfl rfl (fun r hr => ⟨r, hr, rfl⟩) h

theorem touchRecords_storeGood {now : Nat} {u : JSONStoreData} {ids : List Nat}
    (h : StoreGood u) : StoreGood (touchRecords now u ids) :=
  storeGood_transport (touchRecords_links now u ids) (touchRecords_folders now u ids)
    (touchRecords_records_mem now u ids) h

/-! ## The master lemma: goodness after an operation's membership pass -/

theorem nm_storeGood {now : Nat} {s₀ t : JSONStoreData} {A : List Nat}
    (hgood : StoreGood s₀)
    (hku : KeysUnique s₀) (hlb : LinkFolderBound s₀)
    (hrec : ∀ r ∈ t.records, r.id ∉ nmIDs t (some A) →
      (∃ r₀ ∈ s₀.records, r₀.id = r.id) ∧ linksOf t r.id = linksOf s₀ r.id)
    (hfsub : ∀ f ∈ t.folders, folderKey f.name = folderKey DEFAULT_FOLDER_NAME →
      f ∈ s₀.folders)
    (hnext : s₀.nextFolderID ≤ t.nextFolderID) :
    StoreGood (normalizeRecordFolderMemberships now t (some A)) := by
  intro r hr
  rw [nm_records] at hr
  by_cases hmem : r.id ∈ nmIDs t (some A)
  · have hg := @nm_good now _ _ _ hmem
    refine ⟨hg.1, ?_⟩
    intro f hf
    have hfd := @nm_find_default now t (some A)
      (by simpa using List.ne_nil_of_mem hmem)
    rw [hf] at hfd
    have hfe : f = (ensureDefaultFolder now t).2 := Option.some.inj hfd
    rw [hfe]
    exact hg.2
  · rcases hrec r hr hmem with ⟨⟨r₀, hr₀, hr₀id⟩, hlinks⟩
    have hlinksN : linksOf (normalizeRecordFolderMemberships now t (some A)) r.id =
        linksOf s₀ r.id := (nm_linksOf_other hmem).trans hlinks
    have hgood₀ := hgood r₀ hr₀
    have hframe : ∀ f, findFolderByName s₀ DEFAULT_FOLDER_NAME = some f →
        DefaultExclusive (normalizeRecordFolderMemberships now t (some A)) f.id r.id := by
      intro f hf₀
      have hex := hgood₀.2 f hf₀
      rw [hr₀id] at hex
      rw [defaultExclusive_iff, hlinksN, ← defaultExclusive_iff]
      exact hex
    constructor
    · rw [linkComplete_iff_linksOf, hlinksN, ← linkComplete_iff_linksOf, ← hr₀id]
      exact hgood₀.1
    · intro f hf
      by_cases hA : (nmIDs t (some A)).isEmpty = true
      · rw [nm_folders_of_empty hA] at hf
        have hfmem : f ∈ t.folders := by
          unfold findFolderByName at hf
          exact List.mem_of_find?_eq_some hf
        have hfkey : folderKey f.name = folderKey DEFAULT_FOLDER_NAME := by
          unfold findFolderByName at hf
          simpa using List.find?_some hf
        exact hframe f (findFolderByName_eq_of_mem_key hku (hfsub f hfmem hfkey) hfkey)
      · have hfd := @nm_find_default now t (some A) hA
        rw [hf] at hfd
        have hfe : f = (ensureDefaultFolder now t).2 := Option.some.inj hfd
        rcases ensureDefaultFolder_spec now t with ⟨hfind, -⟩ | ⟨-, hfresh, -⟩
        · have hfmem : f ∈ t.folders := by
            unfold findFolderByName at hfind
            rw [hfe]
            exact List.mem_of_find?_eq_some hfind
          have hfkey : folderKey f.name = folderKey DEFAULT_FOLDER_NAME := by
            unfold findFolderByName at hfind
            rw [hfe]
            simpa using List.find?_some hfind
          exact hframe f (findFolderByName_eq_of_mem_key hku (hfsub f hfmem hfkey) hfkey)
        · rw [defaultExclusive_iff, hlinksN]
          rintro ⟨⟨l, hl, hld⟩, -⟩
          have hls : l ∈ s₀.recordFolderLinks := List.mem_of_mem_filter hl
          have h1 : l.folderID < s₀.nextFolderID := hlb l hls
          have h2 : f.id = Nat.max 1 t.nextFolderID := by
            rw [hfe, hfresh]
          have h3 : l.folderID < f.id := by
            rw [h2]
            exact Nat.lt_of_lt_of_le h1 (hnext.trans (Nat.le_max_right 1 _))
          rw [hld] at h3
          exact absurd h3 (Nat.lt_irrefl f.id)


/-! ## Helpers for the individual operations -/

theorem findFolderByID_mem {s : JSONStoreData} {fid : Nat} {f : JSONStoreFolder}
    (h : findFolderByID s fid = some f) : f ∈ s.folders ∧ f.id = fid := by
  unfold findFolderByID at h
  exact ⟨List.mem_of_find?_eq_some h, by simpa using List.find?_some h⟩

theorem mem_getRecordIDs {s : JSONStoreData} {fids : List Nat} {x : Nat} :
    x ∈ getRecordIDsByFolderIDsInternal s fids ↔
      ∃ l ∈ s.recordFolderLinks, l.folderID ∈ normalizeIDList fids ∧ l.recordID = x := by
  unfold getRecordIDsByFolderIDsInternal
  rw [mem_jsDedup, List.mem_map]
  constructor
  · rintro ⟨l, hl, he⟩
    rcases List.mem_filter.mp hl with ⟨h1, h2⟩
    exact ⟨l, h1, by simpa using h2, he⟩
  · rintro ⟨l, h1, h2, he⟩
    exact ⟨l, List.mem_filter.mpr ⟨h1, by simpa using h2⟩, he⟩

theorem resolveTargetFolderID_none (now : Nat) (s : JSONStoreData) :
    resolveTargetFolderID now s none =
      Except.ok ((ensureDefaultFolder now s).1, (ensureDefaultFolder now s).2.id) := rfl

theorem resolveTargetFolderID_some (now : Nat) (s : JSONStoreData) (fid : Nat) :
    resolveTargetFolderID now s (some fid) =
      match findFolderByID s fid with
      | some f => Except.ok (s, f.id)
      | none => Except.error "目标文件夹不存在" := rfl

theorem resolveTargetFolderID_none_found {now : Nat} {s : JSONStoreData}
    {f₀ : JSONStoreFolder} (h : findFolderByName s DEFAULT_FOLDER_NAME = some f₀) :
    resolveTargetFolderID now s none = Except.ok (s, f₀.id) := by
  rw [resolveTargetFolderID_none]
  rcases ensureDefaultFolder_spec now s with ⟨hf, hs⟩ | ⟨hf, -, -⟩
  · rw [hs, Option.some.inj (hf.symm.trans h)]
  · rw [hf] at h
    exact absurd h (by simp)

theorem replaceFirst_length {α : Type} (p : α → Bool) (f : α → α) (l : List α) :
    (replaceFirst p f l).length = l.length := by
  induction l with
  | nil => rfl
  | cons x xs ih =>
    rw [replaceFirst]
    split
    · rfl
    · rw [List.length_cons, List.length_cons, ih]

theorem replaceFirst_mem {α : Type} {p : α → Bool} {f : α → α} {l : List α} {x : α}
    (h : x ∈ replaceFirst p f l) :
    x ∈ l ∨ ∃ a, l.find? p = some a ∧ x = f a := by
  induction l with
  | nil => exact Or.inl h
  | cons y ys ih =>
    rw [replaceFirst] at h
    by_cases hy : p y = true
    · rw [if_pos hy] at h
      rcases List.mem_cons.mp h with rfl | hx
      · exact Or.inr ⟨y, List.find?_cons_of_pos _ hy, rfl⟩
      · exact Or.inl (List.mem_cons_of_mem y hx)
    · rw [if_neg hy] at h
      rcases List.mem_cons.mp h with rfl | hx
      · exact Or.inl (List.mem_cons_self x ys)
      · rcases ih hx with h1 | ⟨a, ha, he⟩
        · exact Or.inl (List.mem_cons_of_mem y h1)
        · exact Or.inr ⟨a, by rw [List.find?_cons_of_neg _ (by simpa using hy)]; exact ha, he⟩

theorem find?_replaceFirst {α : Type} {p : α → Bool} {f : α → α} {l : List α} {a : α}
    (h : l.find? p = some a) (hfa : p (f a) = true) :
    (replaceFirst p f l).find? p = some (f a) := by
  induction l with
  | nil => exact absurd h (by simp)
  | cons y ys ih =>
    rw [replaceFirst]
    by_cases hy : p y = true
    · rw [List.find?_cons_of_pos _ hy] at h
      rw [if_pos hy, Option.some.inj h, List.find?_cons_of_pos _ hfa]
    · rw [List.find?_cons_of_neg _ (by simpa using hy)] at h
      rw [if_neg hy, List.find?_cons_of_neg _ (by simpa using hy)]
      exact ih h

/-! ## `createReviewFolder` preserves the invariants -/

theorem createReviewFolder_eq (now : Nat) (s : JSONStoreData) (name : List Char) :
    createReviewFolder now s name =
      if normalizeFolderName name = [] then Except.error "文件夹名称不能为空"
      else
        match findFolderByName (ensureStoreIntegrity now s) (normalizeFolderName name) with
        | some existing => Except.ok (ensureStoreIntegrity now s, existing)
        | none =>
          Except.ok
            (markStoreUpdated now
              { ensureStoreIntegrity now s with
                nextFolderID := Nat.max 1 (ensureStoreIntegrity now s).nextFolderID + 1,
                folders := (ensureStoreIntegrity now s).folders ++
                  [⟨Nat.max 1 (ensureStoreIntegrity now s).nextFolderID,
                    normalizeFolderName name, now, now⟩] },
             ⟨Nat.max 1 (ensureStoreIntegrity now s).nextFolderID,
              normalizeFolderName name, now, now⟩) := rfl

theorem createReviewFolder_good {now : Nat} {s : JSONStoreData} {name : List Char}
    {s' : JSONStoreData} {f' : JSONStoreFolder}
    (h : createReviewFolder now s name = Except.ok (s', f')) : StoreGood s' := by
  have hgood := ensureStoreIntegrity_storeGood now s
  rw [createReviewFolder_eq] at h
  split at h
  · simp at h
  · split at h
    · rw [Except.ok.injEq, Prod.mk.injEq] at h
      rw [← h.1]
      exact hgood
    · rw [Except.ok.injEq, Prod.mk.injEq] at h
      rw [← h.1]
      apply markStoreUpdated_storeGood
      refine storeGood_append_folder ?_ ?_ (ensureStoreIntegrity_has_default now s)
        (fun r hr => ⟨r, hr, rfl⟩) hgood
      · rfl
      · exact ⟨_, rfl⟩

/-! ## `deleteReviewFolder` preserves the invariants -/

theorem deleteReviewFolder_eq (now : Nat) (s : JSONStoreData) (folderID : Nat) :
    deleteReviewFolder now s folderID =
      match findFolderByID (ensureStoreIntegrity now s) folderID with
      | none => Except.ok (ensureStoreIntegrity now s)
      | some folder =>
        if isProtectedName folder.name then Except.error "系统文件夹不可删除"
        else
          Except.ok (markStoreUpdated now
            (touchRecords now
              (normalizeRecordFolderMemberships now
                { ensureStoreIntegrity now s with
                  recordFolderLinks := (ensureStoreIntegrity now s).recordFolderLinks.filter
                    (fun l => l.folderID ≠ folderID),
                  folders := (ensureStoreIntegrity now s).folders.filter
                    (fun f => f.id ≠ folderID) }
                (some (getRecordIDsByFolderIDsInternal (ensureStoreIntegrity now s) [folderID])))
              (getRecordIDsByFolderIDsInternal (ensureStoreIntegrity now s) [folderID]))) := rfl

theorem deleteReviewFolder_good {now : Nat} {s : JSONStoreData} {fid : Nat}
    {s' : JSONStoreData} (hRP : RecordsPos s) (hFP : FoldersPos s) (hFB : FolderIDBound s)
    (h : deleteReviewFolder now s fid = Except.ok s') : StoreGood s' := by
  have hgood := ensureStoreIntegrity_storeGood now s
  have hku := ensureStoreIntegrity_keysUnique now s
  have hlb := @ensureStoreIntegrity_linkFolderBound now _ hFB
  have hRP₀ : RecordsPos (ensureStoreIntegrity now s) := ensureStoreIntegrity_recordsPos hRP
  have hFP₀ : FoldersPos (ensureStoreIntegrity now s) := ensureStoreIntegrity_foldersPos hFP
  rw [deleteReviewFolder_eq] at h
  split at h
  · rw [Except.ok.injEq] at h
    rw [← h]
    exact hgood
  · rename_i folder hfind
    split at h
    · simp at h
    · rw [Except.ok.injEq] at h
      rw [← h]
      apply markStoreUpdated_storeGood
      apply touchRecords_storeGood
      refine nm_storeGood hgood hku hlb ?_ ?_ ?_
      · intro r hr hnot
        have hr₀ : r ∈ (ensureStoreIntegrity now s).records := hr
        have hpos : 0 < r.id := hRP₀ r hr₀
        refine ⟨⟨r, hr₀, rfl⟩, ?_⟩
        have hfidpos : 0 < fid := by
          rcases findFolderByID_mem hfind with ⟨hfmem, hfe⟩
          rw [← hfe]
          exact hFP₀ folder hfmem
        have hnotA : r.id ∉
            getRecordIDsByFolderIDsInternal (ensureStoreIntegrity now s) [fid] := by
          intro hA
          exact hnot (nmIDs_mem_of_mem hA hpos)
        show linksOf _ r.id = linksOf (ensureStoreIntegrity now s) r.id
        unfold linksOf
        show List.filter _ (List.filter _ (ensureStoreIntegrity now s).recordFolderLinks) = _
        rw [List.filter_filter]
        apply List.filter_congr
        intro l hl
        by_cases hlr : l.recordID = r.id
        · have hlf : ¬l.folderID = fid := by
            intro hfeq
            apply hnotA
            exact mem_getRecordIDs.mpr ⟨l, hl,
              by rw [hfeq]; exact mem_normalizeIDList.mpr ⟨hfidpos, List.mem_singleton_self fid⟩,
              hlr⟩
          simp only [hlr, hlf]
          simp only [decide_not]
          simp [hlf]
        · simp [hlr]
      · intro f hfm hfk
        exact List.mem_of_mem_filter hfm
      · exact Nat.le_refl _


/-! ## `mergeReviewFolders` preserves the invariants -/

theorem foldl_addLink_records (A : List Nat) (fid now : Nat) (s : JSONStoreData) :
    (A.foldl (fun st rid => addRecordFolderLink st rid fid now) s).records = s.records := by
  induction A generalizing s with
  | nil => rfl
  | cons x xs ih => rw [List.foldl_cons, ih, addRecordFolderLink_records]

theorem foldl_addLink_folders (A : List Nat) (fid now : Nat) (s : JSONStoreData) :
    (A.foldl (fun st rid => addRecordFolderLink st rid fid now) s).folders = s.folders := by
  induction A generalizing s with
  | nil => rfl
  | cons x xs ih => rw [List.foldl_cons, ih, addRecordFolderLink_folders]

theorem foldl_addLink_nextFolderID (A : List Nat) (fid now : Nat) (s : JSONStoreData) :
    (A.foldl (fun st rid => addRecordFolderLink st rid fid now) s).nextFolderID =
      s.nextFolderID := by
  induction A generalizing s with
  | nil => rfl
  | cons x xs ih => rw [List.foldl_cons, ih, addRecordFolderLink_nextFolderID]

theorem linksOf_foldl_addLink_other {A : List Nat} {fid now rid : Nat} {s : JSONStoreData}
    (h : rid ∉ A) :
    linksOf (A.foldl (fun st x => addRecordFolderLink st x fid now) s) rid =
      linksOf s rid := by
  induction A generalizing s with
  | nil => rfl
  | cons x xs ih =>
    rw [List.foldl_cons, ih (fun hx => h (List.mem_cons_of_mem x hx)),
      linksOf_addRecordFolderLink_other (fun hx => h (by rw [hx]; exact List.mem_cons_self x xs))]

theorem foldl_addLink_links_mem {A : List Nat} {fid now : Nat} {s : JSONStoreData}
    {l : JSONStoreRecordFolderLink}
    (h : l ∈ (A.foldl (fun st x => addRecordFolderLink st x fid now) s).recordFolderLinks) :
    l ∈ s.recordFolderLinks ∨ l.folderID = fid := by
  induction A generalizing s with
  | nil => exact Or.inl h
  | cons x xs ih =>
    rw [List.foldl_cons] at h
    rcases ih h with h1 | h1
    · rcases addRecordFolderLink_links_cases s x fid now with hc | hc
      · rw [hc] at h1
        exact Or.inl h1
      · rw [hc] at h1
        rcases List.mem_append.mp h1 with h2 | h2
        · exact Or.inl h2
        · rw [List.mem_singleton] at h2
          subst h2
          exact Or.inr rfl
    · exact Or.inr h1

theorem merge_tail_good_nofilter {now : Nat} {s₀ s₁ : JSONStoreData} {nfid : Nat}
    {V : List Nat}
    (hgood : StoreGood s₀) (hku : KeysUnique s₀) (hlb : LinkFolderBound s₀)
    (hRP₀ : RecordsPos s₀)
    (hrecords : s₁.records = s₀.records)
    (hlinks : s₁.recordFolderLinks = s₀.recordFolderLinks)
    (hfolders_sub : ∀ g ∈ s₁.folders, folderKey g.name = folderKey DEFAULT_FOLDER_NAME →
      g ∈ s₀.folders)
    (hnext : s₀.nextFolderID ≤ s₁.nextFolderID) :
    StoreGood (normalizeRecordFolderMemberships now
      ((getRecordIDsByFolderIDsInternal s₁ V).foldl
        (fun st rid => addRecordFolderLink st rid nfid now) s₁)
      (some (getRecordIDsByFolderIDsInternal s₁ V))) := by
  refine nm_storeGood hgood hku hlb ?_ ?_ ?_
  · intro r hr hnot
    rw [foldl_addLink_records, hrecords] at hr
    have hpos := hRP₀ r hr
    have hnotA : r.id ∉ getRecordIDsByFolderIDsInternal s₁ V :=
      fun hA => hnot (nmIDs_mem_of_mem hA hpos)
    refine ⟨⟨r, hr, rfl⟩, ?_⟩
    rw [linksOf_foldl_addLink_other hnotA]
    exact linksOf_congr hlinks
  · intro g hgm hgk
    rw [foldl_addLink_folders] at hgm
    exact hfolders_sub g hgm hgk
  · rw [foldl_addLink_nextFolderID]
    exact hnext

theorem merge_tail_good_filter {now : Nat} {s₀ s₁ : JSONStoreData} {nfid : Nat}
    {V srcIDs : List Nat}
    (hgood : StoreGood s₀) (hku : KeysUnique s₀) (hlb : LinkFolderBound s₀)
    (hRP₀ : RecordsPos s₀)
    (hrecords : s₁.records = s₀.records)
    (hlinks : s₁.recordFolderLinks = s₀.recordFolderLinks)
    (hfolders_sub : ∀ g ∈ s₁.folders, folderKey g.name = folderKey DEFAULT_FOLDER_NAME →
      g ∈ s₀.folders)
    (hnext : s₀.nextFolderID ≤ s₁.nextFolderID)
    (hV : ∀ x ∈ V, 0 < x)
    (hsrc : ∀ x ∈ srcIDs, x ∈ V ∧ x ≠ nfid) :
    StoreGood (normalizeRecordFolderMemberships now
      { (getRecordIDsByFolderIDsInternal s₁ V).foldl
          (fun st rid => addRecordFolderLink st rid nfid now) s₁ with
        recordFolderLinks := ((getRecordIDsByFolderIDsInternal s₁ V).foldl
          (fun st rid => addRecordFolderLink st rid nfid now) s₁).recordFolderLinks.filter
            (fun l => l.folderID ∉ srcIDs),
        folders := ((getRecordIDsByFolderIDsInternal s₁ V).foldl
          (fun st rid => addRecordFolderLink st rid nfid now) s₁).folders.filter
            (fun f => f.id ∉ srcIDs ∨ isProtectedName f.name) }
      (some (getRecordIDsByFolderIDsInternal s₁ V))) := by
  refine nm_storeGood hgood hku hlb ?_ ?_ ?_
  · intro r hr hnot
    have hr₀ : r ∈ s₀.records := by
      have h1 : r ∈ ((getRecordIDsByFolderIDsInternal s₁ V).foldl
          (fun st rid => addRecordFolderLink st rid nfid now) s₁).records := hr
      rw [foldl_addLink_records, hrecords] at h1
      exact h1
    have hpos := hRP₀ r hr₀
    have hnotA : r.id ∉ getRecordIDsByFolderIDsInternal s₁ V :=
      fun hA => hnot (nmIDs_mem_of_mem hA hpos)
    refine ⟨⟨r, hr₀, rfl⟩, ?_⟩
    have h2 : linksOf ((getRecordIDsByFolderIDsInternal s₁ V).foldl
        (fun st rid => addRecordFolderLink st rid nfid now) s₁) r.id = linksOf s₀ r.id := by
      rw [linksOf_foldl_addLink_other hnotA]
      exact linksOf_congr hlinks
    show linksOf _ r.id = linksOf s₀ r.id
    unfold linksOf
    show List.filter _ (List.filter _ ((getRecordIDsByFolderIDsInternal s₁ V).foldl
      (fun st rid => addRecordFolderLink st rid nfid now) s₁).recordFolderLinks) = _
    rw [List.filter_filter]
    have hcong : List.filter
        (fun l => decide (l.recordID = r.id) && decide (l.folderID ∉ srcIDs))
        ((getRecordIDsByFolderIDsInternal s₁ V).foldl
          (fun st rid => addRecordFolderLink st rid nfid now) s₁).recordFolderLinks =
        List.filter (fun l => decide (l.recordID = r.id))
        ((getRecordIDsByFolderIDsInternal s₁ V).foldl
          (fun st rid => addRecordFolderLink st rid nfid now) s₁).recordFolderLinks := by
      apply List.filter_congr
      intro l hl
      by_cases hlr : l.recordID = r.id
      · have hns : l.folderID ∉ srcIDs := by
          intro hmem
          rcases hsrc _ hmem with ⟨hVmem, hne⟩
          rcases foldl_addLink_links_mem hl with h3 | h3
          · apply hnotA
            rw [← hlr]
            exact mem_getRecordIDs.mpr ⟨l, h3,
              mem_normalizeIDList.mpr ⟨hV _ hVmem, hVmem⟩, rfl⟩
          · exact hne h3
        simp [hlr, hns]
      · simp [hlr]
    rw [hcong]
    exact h2
  · intro g hgm hgk
    have h1 : g ∈ ((getRecordIDsByFolderIDsInternal s₁ V).foldl
        (fun st rid => addRecordFolderLink st rid nfid now) s₁).folders :=
      List.mem_of_mem_filter hgm
    rw [foldl_addLink_folders] at h1
    exact hfolders_sub g h1 hgk
  · show s₀.nextFolderID ≤ ((getRecordIDsByFolderIDsInternal s₁ V).foldl
      (fun st rid => addRecordFolderLink st rid nfid now) s₁).nextFolderID
    rw [foldl_addLink_nextFolderID]
    exact hnext


set_option maxHeartbeats 2000000 in
theorem mergeReviewFolders_good {now : Nat} {s : JSONStoreData} {folderIDs : List Nat}
    {newFolderName : List Char} {s' : JSONStoreData} {f' : JSONStoreFolder}
    (hRP : RecordsPos s) (hFB : FolderIDBound s)
    (h : mergeReviewFolders now s folderIDs newFolderName = Except.ok (s', f')) :
    StoreGood s' := by
  have hgood := ensureStoreIntegrity_storeGood now s
  have hku := ensureStoreIntegrity_keysUnique now s
  have hlb := @ensureStoreIntegrity_linkFolderBound now _ hFB
  have hRP₀ : RecordsPos (ensureStoreIntegrity now s) := ensureStoreIntegrity_recordsPos hRP
  have hdef₀ := ensureStoreIntegrity_has_default now s
  have hV : ∀ x ∈ jsDedup (folderIDs.filter (fun v => v ≠ 0)), 0 < x := by
    intro x hx
    rw [mem_jsDedup, List.mem_filter] at hx
    have h2 := hx.2
    simp only [decide_not] at h2
    have : ¬x = 0 := by simpa using h2
    omega
  unfold mergeReviewFolders at h
  simp only [] at h
  set s₀ := ensureStoreIntegrity now s with hs₀def
  clear_value s₀
  split at h
  · simp at h
  · split at h
    · simp at h
    · split at h
      · simp at h
      · split at h
        · split at h
          · rw [Except.ok.injEq, Prod.mk.injEq] at h
            rw [← h.1]
            apply markStoreUpdated_storeGood
            apply touchRecords_storeGood
            refine merge_tail_good_nofilter hgood hku hlb hRP₀ ?_ ?_ ?_ ?_
            · rfl
            · rfl
            · exact fun g hg _ => hg
            · exact Nat.le_refl _
          · rename_i hfound
            rw [Except.ok.injEq, Prod.mk.injEq] at h
            rw [← h.1]
            apply markStoreUpdated_storeGood
            apply touchRecords_storeGood
            refine merge_tail_good_nofilter hgood hku hlb hRP₀ ?_ ?_ ?_ ?_
            · rfl
            · rfl
            · intro g hg hk
              rcases List.mem_append.mp hg with h1 | h1
              · exact h1
              · rw [List.mem_singleton] at h1
                subst h1
                exfalso
                rcases hdef₀ with ⟨f₀, hf₀⟩
                have hcg : findFolderByName s₀ (normalizeFolderName newFolderName) =
                    findFolderByName s₀ DEFAULT_FOLDER_NAME :=
                  findFolderByName_key_congr hk
                rw [hfound, hf₀] at hcg
                simp at hcg
            · show s₀.nextFolderID ≤ Nat.max 1 s₀.nextFolderID + 1
              exact Nat.le_succ_of_le (Nat.le_max_right 1 _)
        · split at h
          · rw [Except.ok.injEq, Prod.mk.injEq] at h
            rw [← h.1]
            apply markStoreUpdated_storeGood
            apply touchRecords_storeGood
            refine merge_tail_good_filter hgood hku hlb hRP₀ ?_ ?_ ?_ ?_ hV ?_
            · rfl
            · rfl
            · exact fun g hg _ => hg
            · exact Nat.le_refl _
            · intro x hx
              rw [List.mem_filter] at hx
              refine ⟨hx.1, ?_⟩
              simpa using hx.2
          · rename_i hfound
            rw [Except.ok.injEq, Prod.mk.injEq] at h
            rw [← h.1]
            apply markStoreUpdated_storeGood
            apply touchRecords_storeGood
            refine merge_tail_good_filter hgood hku hlb hRP₀ ?_ ?_ ?_ ?_ hV ?_
            · rfl
            · rfl
            · intro g hg hk
              rcases List.mem_append.mp hg with h1 | h1
              · exact h1
              · rw [List.mem_singleton] at h1
                subst h1
                exfalso
                rcases hdef₀ with ⟨f₀, hf₀⟩
                have hcg : findFolderByName s₀ (normalizeFolderName newFolderName) =
                    findFolderByName s₀ DEFAULT_FOLDER_NAME :=
                  findFolderByName_key_congr hk
                rw [hfound, hf₀] at hcg
                simp at hcg
            · show s₀.nextFolderID ≤ Nat.max 1 s₀.nextFolderID + 1
              exact Nat.le_succ_of_le (Nat.le_max_right 1 _)
            · intro x hx
              rw [List.mem_filter] at hx
              refine ⟨hx.1, ?_⟩
              simpa using hx.2


/-! ## `upsertReviewRecord` and `createFolderSummaryRecord` preserve the invariants -/

theorem nm_single_good {now : Nat} {s₀ t : JSONStoreData} {rid : Nat}
    (hgood : StoreGood s₀) (hku : KeysUnique s₀) (hlb : LinkFolderBound s₀)
    (hrec : ∀ r ∈ t.records, r.id ≠ rid → ∃ r₀ ∈ s₀.records, r₀.id = r.id)
    (hlinks : ∀ r ∈ t.records, r.id ≠ rid → linksOf t r.id = linksOf s₀ r.id)
    (hfsub : ∀ g ∈ t.folders, folderKey g.name = folderKey DEFAULT_FOLDER_NAME →
      g ∈ s₀.folders)
    (hnext : s₀.nextFolderID ≤ t.nextFolderID)
    (hpos : 0 < rid) :
    StoreGood (normalizeRecordFolderMemberships now t (some [rid])) := by
  refine nm_storeGood hgood hku hlb ?_ hfsub hnext
  intro r hr hnot
  have hne : r.id ≠ rid := by
    intro he
    exact hnot (nmIDs_mem_of_mem (by rw [he]; exact List.mem_singleton_self rid)
      (by rw [he]; exact hpos))
  exact ⟨hrec r hr hne, hlinks r hr hne⟩

theorem upsert_link_tail_good {now : Nat} {s₀ base : JSONStoreData} {rid aid : Nat}
    (hgood : StoreGood s₀) (hku : KeysUnique s₀) (hlb : LinkFolderBound s₀)
    (hrec : ∀ r ∈ base.records, r.id ≠ rid → ∃ r₀ ∈ s₀.records, r₀.id = r.id)
    (hlinks : base.recordFolderLinks = s₀.recordFolderLinks)
    (hfolders : base.folders = s₀.folders)
    (hnext : base.nextFolderID = s₀.nextFolderID)
    (hpos : 0 < rid) :
    StoreGood (normalizeRecordFolderMemberships now
      (addRecordFolderLink base rid aid now) (some [rid])) := by
  refine nm_single_good hgood hku hlb ?_ ?_ ?_ ?_ hpos
  · intro r hr hne
    rw [addRecordFolderLink_records] at hr
    exact hrec r hr hne
  · intro r hr hne
    rw [linksOf_addRecordFolderLink_other hne]
    exact linksOf_congr hlinks
  · intro g hg _
    rw [addRecordFolderLink_folders, hfolders] at hg
    exact hg
  · rw [addRecordFolderLink_nextFolderID, hnext]

theorem upsert_nolink_tail_good {now : Nat} {s₀ base : JSONStoreData} {rid : Nat}
    (hgood : StoreGood s₀) (hku : KeysUnique s₀) (hlb : LinkFolderBound s₀)
    (hrec : ∀ r ∈ base.records, r.id ≠ rid → ∃ r₀ ∈ s₀.records, r₀.id = r.id)
    (hlinks : base.recordFolderLinks = s₀.recordFolderLinks)
    (hfolders : base.folders = s₀.folders)
    (hnext : base.nextFolderID = s₀.nextFolderID)
    (hpos : 0 < rid) :
    StoreGood (normalizeRecordFolderMemberships now base (some [rid])) := by
  refine nm_single_good hgood hku hlb ?_ ?_ ?_ ?_ hpos
  · exact hrec
  · intro r hr hne
    exact linksOf_congr hlinks
  · intro g hg _
    rw [hfolders] at hg
    exact hg
  · rw [hnext]


theorem upsert_null_tail_good {now : Nat} {s₀ B : JSONStoreData} {rid : Nat}
    (hgood : StoreGood s₀) (hku : KeysUnique s₀) (hlb : LinkFolderBound s₀)
    (hrec : ∀ r ∈ B.records, r.id ≠ rid → ∃ r₀ ∈ s₀.records, r₀.id = r.id)
    (hlinks : B.recordFolderLinks = s₀.recordFolderLinks)
    (hfolders : B.folders = s₀.folders)
    (hnext : B.nextFolderID = s₀.nextFolderID)
    (hpos : 0 < rid)
    (hdef : ∃ f₀, findFolderByName s₀ DEFAULT_FOLDER_NAME = some f₀) :
    StoreGood (normalizeRecordFolderMemberships now
      (addRecordFolderLink (ensureDefaultFolder now B).1 rid
        (ensureDefaultFolder now B).2.id now)
      (some [rid])) := by
  rcases ensureDefaultFolder_spec now B with ⟨-, hs⟩ | ⟨hf, -, -⟩
  · rw [hs]
    exact upsert_link_tail_good hgood hku hlb hrec hlinks hfolders hnext hpos
  · rcases hdef with ⟨f₀, hf₀⟩
    rw [findFolderByName_eq_of_folders _ hfolders, hf₀] at hf
    simp at hf

set_option maxHeartbeats 2000000 in
theorem upsertReviewRecord_good {now : Nat} {s : JSONStoreData}
    {draft : LiteratureReviewDraft} {folderArg : FolderArg} {s' : JSONStoreData}
    {r' : JSONStoreRecord} (hRP : RecordsPos s) (hFB : FolderIDBound s)
    (h : upsertReviewRecord now s draft folderArg = Except.ok (s', r')) : StoreGood s' := by
  have hgood := ensureStoreIntegrity_storeGood now s
  have hku := ensureStoreIntegrity_keysUnique now s
  have hlb := @ensureStoreIntegrity_linkFolderBound now _ hFB
  have hRP₀ : RecordsPos (ensureStoreIntegrity now s) := ensureStoreIntegrity_recordsPos hRP
  have hdef₀ := ensureStoreIntegrity_has_default now s
  unfold upsertReviewRecord at h
  simp only [] at h
  set s₀ := ensureStoreIntegrity now s with hs₀def
  clear_value s₀
  cases folderArg with
  | absent =>
    simp only [] at h
    split at h
    · rename_i existing heq
      rw [Except.ok.injEq, Prod.mk.injEq] at h
      rw [← h.1]
      apply markStoreUpdated_storeGood
      refine upsert_nolink_tail_good hgood hku hlb ?_ rfl rfl rfl ?_
      · intro r hr hne
        rcases replaceFirst_mem hr with h1 | ⟨a, ha, he⟩
        · exact ⟨r, h1, rfl⟩
        · refine ⟨a, List.mem_of_find?_eq_some ha, ?_⟩
          rw [he]
          rfl
      · exact hRP₀ existing (List.mem_of_find?_eq_some heq)
    · rw [Except.ok.injEq, Prod.mk.injEq] at h
      rw [← h.1]
      apply markStoreUpdated_storeGood
      refine upsert_nolink_tail_good hgood hku hlb ?_ rfl rfl rfl ?_
      · intro r hr hne
        rcases List.mem_append.mp hr with h1 | h1
        · exact ⟨r, h1, rfl⟩
        · rw [List.mem_singleton] at h1
          exact absurd (by rw [h1]) hne
      · show (0 : Nat) < Nat.max 1 s₀.nextRecordID
        exact Nat.lt_of_lt_of_le Nat.zero_lt_one (Nat.le_max_left 1 _)
  | null =>
    rw [resolveTargetFolderID_none] at h
    simp only [] at h
    split at h
    · rename_i existing heq
      rw [Except.ok.injEq, Prod.mk.injEq] at h
      rw [← h.1]
      apply markStoreUpdated_storeGood
      refine upsert_null_tail_good hgood hku hlb ?_ rfl rfl rfl ?_ hdef₀
      · intro r hr hne
        rcases replaceFirst_mem hr with h1 | ⟨a, ha, he⟩
        · exact ⟨r, h1, rfl⟩
        · refine ⟨a, List.mem_of_find?_eq_some ha, ?_⟩
          rw [he]
          rfl
      · exact hRP₀ existing (List.mem_of_find?_eq_some heq)
    · rw [Except.ok.injEq, Prod.mk.injEq] at h
      rw [← h.1]
      apply markStoreUpdated_storeGood
      refine upsert_null_tail_good hgood hku hlb ?_ rfl rfl rfl ?_ hdef₀
      · intro r hr hne
        rcases List.mem_append.mp hr with h1 | h1
        · exact ⟨r, h1, rfl⟩
        · rw [List.mem_singleton] at h1
          exact absurd (by rw [h1]) hne
      · show (0 : Nat) < Nat.max 1 s₀.nextRecordID
        exact Nat.lt_of_lt_of_le Nat.zero_lt_one (Nat.le_max_left 1 _)
  | explicit fid =>
    simp only [] at h
    rw [resolveTargetFolderID_some] at h
    cases hstep : List.find? (upsertMatcher draft.zoteroItemID) s₀.records with
    | some existing =>
      rw [hstep] at h
      simp only [] at h
      cases hfid : findFolderByID { s₀ with records := replaceFirst (upsertMatcher draft.zoteroItemID) (overwriteFromDraft now draft) s₀.records } fid with
      | none =>
        rw [hfid] at h
        simp at h
      | some g =>
        rw [hfid] at h
        simp only [] at h
        rw [Except.ok.injEq, Prod.mk.injEq] at h
        rw [← h.1]
        apply markStoreUpdated_storeGood
        refine upsert_link_tail_good hgood hku hlb ?_ rfl rfl rfl ?_
        · intro r hr hne
          rcases replaceFirst_mem hr with h1 | ⟨a, ha, he⟩
          · exact ⟨r, h1, rfl⟩
          · refine ⟨a, List.mem_of_find?_eq_some ha, ?_⟩
            rw [he]
            rfl
        · exact hRP₀ existing (List.mem_of_find?_eq_some hstep)
    | none =>
      rw [hstep] at h
      simp only [] at h
      cases hfid : findFolderByID { (allocRecordID s₀).1 with records := (allocRecordID s₀).1.records ++ [newRecordFromDraft now (allocRecordID s₀).2 draft] } fid with
      | none =>
        rw [hfid] at h
        simp at h
      | some g =>
        rw [hfid] at h
        simp only [] at h
        rw [Except.ok.injEq, Prod.mk.injEq] at h
        rw [← h.1]
        apply markStoreUpdated_storeGood
        refine upsert_link_tail_good hgood hku hlb ?_ rfl rfl rfl ?_
        · intro r hr hne
          rcases List.mem_append.mp hr with h1 | h1
          · exact ⟨r, h1, rfl⟩
          · rw [List.mem_singleton] at h1
            exact absurd (by rw [h1]) hne
        · show (0 : Nat) < Nat.max 1 s₀.nextRecordID
          exact Nat.lt_of_lt_of_le Nat.zero_lt_one (Nat.le_max_left 1 _)


set_option maxHeartbeats 2000000 in
theorem createFolderSummaryRecord_good {now : Nat} {s : JSONStoreData}
    {folderID : Option Nat} {folderName summaryText : String}
    {sourceRows : List (Nat × Nat)} {aiProvider aiModel : String}
    {s' : JSONStoreData} {r' : JSONStoreRecord}
    (hRP : RecordsPos s) (hFB : FolderIDBound s)
    (h : createFolderSummaryRecord now s folderID folderName summaryText sourceRows
      aiProvider aiModel = Except.ok (s', r')) : StoreGood s' := by
  have hgood := ensureStoreIntegrity_storeGood now s
  have hku := ensureStoreIntegrity_keysUnique now s
  have hlb := @ensureStoreIntegrity_linkFolderBound now _ hFB
  have hRP₀ : RecordsPos (ensureStoreIntegrity now s) := ensureStoreIntegrity_recordsPos hRP
  have hdef₀ := ensureStoreIntegrity_has_default now s
  unfold createFolderSummaryRecord at h
  simp only [] at h
  set s₀ := ensureStoreIntegrity now s with hs₀def
  clear_value s₀
  split at h
  · simp at h
  · rename_i s2 actual heq
    rw [Except.ok.injEq, Prod.mk.injEq] at h
    rw [← h.1]
    apply markStoreUpdated_storeGood
    cases folderID with
    | none =>
      rw [resolveTargetFolderID_none] at heq
      rw [Except.ok.injEq, Prod.mk.injEq] at heq
      rw [← heq.1, ← heq.2]
      refine upsert_null_tail_good hgood hku hlb ?_ rfl rfl rfl ?_ hdef₀
      · intro r hr hne
        rcases List.mem_append.mp hr with h1 | h1
        · exact ⟨r, h1, rfl⟩
        · rw [List.mem_singleton] at h1
          exact absurd (by rw [h1]) hne
      · show (0 : Nat) < Nat.max 1 s₀.nextRecordID
        exact Nat.lt_of_lt_of_le Nat.zero_lt_one (Nat.le_max_left 1 _)
    | some fid =>
      rw [resolveTargetFolderID_some] at heq
      split at heq
      · rename_i g hg
        rw [Except.ok.injEq, Prod.mk.injEq] at heq
        rw [← heq.1, ← heq.2]
        refine upsert_link_tail_good hgood hku hlb ?_ rfl rfl rfl ?_
        · intro r hr hne
          rcases List.mem_append.mp hr with h1 | h1
          · exact ⟨r, h1, rfl⟩
          · rw [List.mem_singleton] at h1
            exact absurd (by rw [h1]) hne
        · show (0 : Nat) < Nat.max 1 s₀.nextRecordID
          exact Nat.lt_of_lt_of_le Nat.zero_lt_one (Nat.le_max_left 1 _)
      · simp at heq

/-! ## `assignReviewRecordsFolder` preserves the invariants -/

theorem foldl_guardAdd_records (A : List Nat) (aid now : Nat) (s : JSONStoreData) :
    (A.foldl (fun st id => if st.records.any (fun r => r.id = id)
      then addRecordFolderLink st id aid now else st) s).records = s.records := by
  induction A generalizing s with
  | nil => rfl
  | cons x xs ih =>
    rw [List.foldl_cons, ih]
    split
    · exact addRecordFolderLink_records s x aid now
    · rfl

theorem foldl_guardAdd_folders (A : List Nat) (aid now : Nat) (s : JSONStoreData) :
    (A.foldl (fun st id => if st.records.any (fun r => r.id = id)
      then addRecordFolderLink st id aid now else st) s).folders = s.folders := by
  induction A generalizing s with
  | nil => rfl
  | cons x xs ih =>
    rw [List.foldl_cons, ih]
    split
    · exact addRecordFolderLink_folders s x aid now
    · rfl

theorem foldl_guardAdd_nextFolderID (A : List Nat) (aid now : Nat) (s : JSONStoreData) :
    (A.foldl (fun st id => if st.records.any (fun r => r.id = id)
      then addRecordFolderLink st id aid now else st) s).nextFolderID = s.nextFolderID := by
  induction A generalizing s with
  | nil => rfl
  | cons x xs ih =>
    rw [List.foldl_cons, ih]
    split
    · exact addRecordFolderLink_nextFolderID s x aid now
    · rfl

theorem linksOf_foldl_guardAdd_other {A : List Nat} {aid now rid : Nat} {s : JSONStoreData}
    (h : rid ∉ A) :
    linksOf (A.foldl (fun st id => if st.records.any (fun r => r.id = id)
      then addRecordFolderLink st id aid now else st) s) rid = linksOf s rid := by
  induction A generalizing s with
  | nil => rfl
  | cons x xs ih =>
    rw [List.foldl_cons, ih (fun hx => h (List.mem_cons_of_mem x hx))]
    split
    · exact linksOf_addRecordFolderLink_other
        (fun hx => h (by rw [hx]; exact List.mem_cons_self x xs))
    · rfl

theorem assign_tail_good {now aid : Nat} {s₀ : JSONStoreData} {ids : List Nat}
    (hgood : StoreGood s₀) (hku : KeysUnique s₀) (hlb : LinkFolderBound s₀)
    (hids : ¬ids.isEmpty = true) (hidpos : ∀ x ∈ ids, 0 < x) :
    StoreGood (normalizeRecordFolderMemberships now
      (ids.foldl (fun st id => if st.records.any (fun r => r.id = id)
        then addRecordFolderLink st id aid now else st) s₀)
      (some ids)) := by
  refine nm_storeGood hgood hku hlb ?_ ?_ ?_
  · intro r hr hnot
    rw [foldl_guardAdd_records] at hr
    have hnid : r.id ∉ ids := by
      intro hmem
      exact hnot (nmIDs_mem_of_mem hmem (hidpos r.id hmem))
    refine ⟨⟨r, hr, rfl⟩, ?_⟩
    exact linksOf_foldl_guardAdd_other hnid
  · intro g hg _
    rw [foldl_guardAdd_folders] at hg
    exact hg
  · rw [foldl_guardAdd_nextFolderID]


set_option maxHeartbeats 2000000 in
theorem assignReviewRecordsFolder_good {now : Nat} {s : JSONStoreData}
    {recordIDs : List Nat} {folderID : Option Nat} {s' : JSONStoreData}
    (hRP : RecordsPos s) (hFB : FolderIDBound s)
    (h : assignReviewRecordsFolder now s recordIDs folderID = Except.ok s') :
    StoreGood s' := by
  have hgood := ensureStoreIntegrity_storeGood now s
  have hku := ensureStoreIntegrity_keysUnique now s
  have hlb := @ensureStoreIntegrity_linkFolderBound now _ hFB
  have hdef₀ := ensureStoreIntegrity_has_default now s
  unfold assignReviewRecordsFolder at h
  simp only [] at h
  set s₀ := ensureStoreIntegrity now s with hs₀def
  clear_value s₀
  split at h
  · rw [Except.ok.injEq] at h
    rw [← h]
    exact hgood
  · rename_i hids
    split at h
    · simp at h
    · rename_i s2 actual heq
      rw [Except.ok.injEq] at h
      rw [← h]
      apply markStoreUpdated_storeGood
      apply touchRecords_storeGood
      have hs2 : s2 = s₀ := by
        cases folderID with
        | none =>
          rw [resolveTargetFolderID_none] at heq
          rw [Except.ok.injEq, Prod.mk.injEq] at heq
          rcases ensureDefaultFolder_spec now s₀ with ⟨-, hs⟩ | ⟨hf, -, -⟩
          · rw [← heq.1, hs]
          · rcases hdef₀ with ⟨f₀, hf₀⟩
            rw [hf₀] at hf
            simp at hf
        | some fid =>
          rw [resolveTargetFolderID_some] at heq
          split at heq
          · rw [Except.ok.injEq, Prod.mk.injEq] at heq
            exact heq.1.symm
          · simp at heq
      rw [hs2]
      refine assign_tail_good hgood hku hlb hids ?_
      intro x hx
      exact (mem_normalizeIDList.mp hx).1

set_option maxHeartbeats 2000000 in
theorem removeReviewRecordsFromFolder_good {now : Nat} {s : JSONStoreData}
    {recordIDs : List Nat} {folderID : Nat} {s' : JSONStoreData}
    (hRP : RecordsPos s) (hFB : FolderIDBound s)
    (h : removeReviewRecordsFromFolder now s recordIDs folderID = Except.ok s') :
    StoreGood s' := by
  have hgood := ensureStoreIntegrity_storeGood now s
  have hku := ensureStoreIntegrity_keysUnique now s
  have hlb := @ensureStoreIntegrity_linkFolderBound now _ hFB
  unfold removeReviewRecordsFromFolder at h
  simp only [] at h
  set s₀ := ensureStoreIntegrity now s with hs₀def
  clear_value s₀
  split at h
  · rw [Except.ok.injEq] at h
    rw [← h]
    exact hgood
  · rename_i hids
    split at h
    · simp at h
    · rename_i folder hfind
      split at h
      · simp at h
      · rw [Except.ok.injEq] at h
        rw [← h]
        apply markStoreUpdated_storeGood
        apply touchRecords_storeGood
        refine nm_storeGood hgood hku hlb ?_ ?_ ?_
        · intro r hr hnot
          have hr₀ : r ∈ s₀.records := hr
          have hnid : r.id ∉ normalizeIDList recordIDs := by
            intro hmem
            exact hnot (nmIDs_mem_of_mem hmem (mem_normalizeIDList.mp hmem).1)
          refine ⟨⟨r, hr₀, rfl⟩, ?_⟩
          show linksOf _ r.id = linksOf s₀ r.id
          unfold linksOf
          show List.filter _ (List.filter _ s₀.recordFolderLinks) = _
          rw [List.filter_filter]
          apply List.filter_congr
          intro l hl
          by_cases hlr : l.recordID = r.id
          · have hno : ¬(l.folderID = folder.id ∧ l.recordID ∈ normalizeIDList recordIDs) := by
              rintro ⟨-, hmem⟩
              rw [hlr] at hmem
              exact hnid hmem
            simp only [hlr, hno]
            simp
            exact Or.inr hnid
          · simp [hlr]
        · intro g hg _
          exact hg
        · exact Nat.le_refl _

theorem storeGood_filter_links (u v : JSONStoreData) (p : JSONStoreRecordFolderLink → Bool)
    (hlinks : v.recordFolderLinks = u.recordFolderLinks.filter p)
    (hfolders : v.folders = u.folders)
    (hrec : ∀ r ∈ v.records, ∃ r₀ ∈ u.records, r₀.id = r.id ∧
      ∀ l ∈ u.recordFolderLinks, l.recordID = r.id → p l = true)
    (h : StoreGood u) : StoreGood v := by
  intro r hr
  rcases hrec r hr with ⟨r₀, hr₀, hid, hkeep⟩
  have hlof : linksOf v r.id = linksOf u r.id := by
    unfold linksOf
    rw [hlinks, List.filter_filter]
    apply List.filter_congr
    intro l hl
    by_cases hlr : l.recordID = r.id
    · have hp := hkeep l hl hlr
      simp [hlr, hp]
    · simp [hlr]
  have hu := h r₀ hr₀
  constructor
  · rw [linkComplete_iff_linksOf, hlof, ← linkComplete_iff_linksOf, ← hid]
    exact hu.1
  · intro f hf
    rw [findFolderByName_eq_of_folders _ hfolders] at hf
    have hex := hu.2 f hf
    rw [hid] at hex
    rw [defaultExclusive_iff, hlof, ← defaultExclusive_iff]
    exact hex

set_option maxHeartbeats 2000000 in
theorem deleteReviewRecords_good {now : Nat} {s : JSONStoreData} {recordIDs : List Nat}
    {s' : JSONStoreData} {cnt : Nat} (hRP : RecordsPos s) (hFB : FolderIDBound s)
    (h : deleteReviewRecords now s recordIDs = Except.ok (s', cnt)) : StoreGood s' := by
  have hgood := ensureStoreIntegrity_storeGood now s
  unfold deleteReviewRecords at h
  simp only [] at h
  set s₀ := ensureStoreIntegrity now s with hs₀def
  clear_value s₀
  split at h
  · rw [Except.ok.injEq, Prod.mk.injEq] at h
    rw [← h.1]
    exact hgood
  · split at h
    · rw [Except.ok.injEq, Prod.mk.injEq] at h
      rw [← h.1]
      exact hgood
    · rw [Except.ok.injEq, Prod.mk.injEq] at h
      rw [← h.1]
      apply markStoreUpdated_storeGood
      refine storeGood_filter_links s₀ _ _ rfl rfl ?_ hgood
      intro r hr
      rcases List.mem_map.mp hr with ⟨r₀, hr₀, hre⟩
      have hr₀mem : r₀ ∈ s₀.records := List.mem_of_mem_filter hr₀
      have hr₀id : r₀.id ∉ normalizeIDList recordIDs := by
        have h2 := (List.mem_filter.mp hr₀).2
        simp at h2
        rcases h2 with h2 | h2
        · exact h2
        · exact absurd rfl (h2 r₀ hr₀mem)
      have hid : r₀.id = r.id := by
        rw [← hre]
        split <;> rfl
      refine ⟨r₀, hr₀mem, hid, ?_⟩
      intro l hl hlr
      refine decide_eq_true ?_
      intro hmem
      rw [hlr, ← hid] at hmem
      exact hr₀id (List.mem_of_mem_filter hmem)


/-- Every store operation that completes leaves a store satisfying both
per-record invariants. -/
theorem runStoreOp_good {op : StoreOp} {now : Nat} {file : JSONStoreData}
    {s' : JSONStoreData} (h : runStoreOp op now file = Except.ok s') : StoreGood s' := by
  have hRP : RecordsPos (loadStoreData now file) :=
    ensureStoreIntegrity_recordsPos (normalizeStoreData_recordsPos now file)
  have hFP : FoldersPos (loadStoreData now file) :=
    ensureStoreIntegrity_foldersPos (normalizeStoreData_foldersPos now file)
  have hFB : FolderIDBound (loadStoreData now file) :=
    ensureStoreIntegrity_folderIDBound now (normalizeStoreData now file)
  cases op with
  | createFolder name =>
    unfold runStoreOp applyStoreOp at h
    simp only [] at h
    cases he : createReviewFolder now (loadStoreData now file) name with
    | error e =>
      rw [he] at h
      simp [Except.map] at h
    | ok v =>
      rw [he] at h
      obtain ⟨s1, f1⟩ := v
      simp [Except.map] at h
      rw [← h]
      exact createReviewFolder_good he
  | deleteFolder folderID =>
    unfold runStoreOp applyStoreOp at h
    simp only [] at h
    exact deleteReviewFolder_good hRP hFP hFB h
  | mergeFolders folderIDs newName =>
    unfold runStoreOp applyStoreOp at h
    simp only [] at h
    cases he : mergeReviewFolders now (loadStoreData now file) folderIDs newName with
    | error e =>
      rw [he] at h
      simp [Except.map] at h
    | ok v =>
      rw [he] at h
      obtain ⟨s1, f1⟩ := v
      simp [Except.map] at h
      rw [← h]
      exact mergeReviewFolders_good hRP hFB he
  | upsertRecord draft folderArg =>
    unfold runStoreOp applyStoreOp at h
    simp only [] at h
    cases he : upsertReviewRecord now (loadStoreData now file) draft folderArg with
    | error e =>
      rw [he] at h
      simp [Except.map] at h
    | ok v =>
      rw [he] at h
      obtain ⟨s1, r1⟩ := v
      simp [Except.map] at h
      rw [← h]
      exact upsertReviewRecord_good hRP hFB he
  | createFolderSummary folderID folderName summaryText sourceRows aiProvider aiModel =>
    unfold runStoreOp applyStoreOp at h
    simp only [] at h
    cases he : createFolderSummaryRecord now (loadStoreData now file) folderID folderName
        summaryText sourceRows aiProvider aiModel with
    | error e =>
      rw [he] at h
      simp [Except.map] at h
    | ok v =>
      rw [he] at h
      obtain ⟨s1, r1⟩ := v
      simp [Except.map] at h
      rw [← h]
      exact createFolderSummaryRecord_good hRP hFB he
  | assignFolder recordIDs folderID =>
    unfold runStoreOp applyStoreOp at h
    simp only [] at h
    exact assignReviewRecordsFolder_good hRP hFB h
  | removeFromFolder recordIDs folderID =>
    unfold runStoreOp applyStoreOp at h
    simp only [] at h
    exact removeReviewRecordsFromFolder_good hRP hFB h
  | deleteRecords recordIDs =>
    unfold runStoreOp applyStoreOp at h
    simp only [] at h
    cases he : deleteReviewRecords now (loadStoreData now file) recordIDs with
    | error e =>
      rw [he] at h
      simp [Except.map] at h
    | ok v =>
      rw [he] at h
      obtain ⟨s1, cnt⟩ := v
      simp [Except.map] at h
      rw [← h]
      exact deleteReviewRecords_good hRP hFB he
  | repair =>
    unfold runStoreOp applyStoreOp at h
    simp only [] at h
    rw [Except.ok.injEq] at h
    rw [← h]
    exact ensureStoreIntegrity_storeGood now (loadStoreData now file)


/-- C1: after any completed Review Store operation (createFolder, deleteFolder,
mergeFolders, upsertRecord, createFolderSummaryRecord, assignFolder,
removeFromFolder, deleteRecords, or the repair pass itself), every record of
the resulting store holds at least one folder-membership link; and the
re-link mechanism: when the membership-normalization pass meets a record with
no links it appends exactly one link pointing at the default-folder id `d` it
iterates with, and the `d` every normalization pass receives is the id of the
folder registered under the protected default-folder name (found by that
name, or freshly created under it). -/
theorem claim_C1 {op : StoreOp} {now : Nat} {file s' : JSONStoreData}
    (h : runStoreOp op now file = Except.ok s') :
    (∀ r ∈ s'.records, LinkComplete s' r.id) ∧
    (∀ (d n : Nat) (t : JSONStoreData) (rid : Nat), linksOf t rid = [] →
      (normalizeMembershipStep d n t rid).recordFolderLinks =
        t.recordFolderLinks ++ [⟨rid, d, n⟩]) ∧
    (∀ (n : Nat) (t : JSONStoreData) (o : Option (List Nat)),
      ¬(nmIDs t o).isEmpty = true →
      normalizeRecordFolderMemberships n t o =
        (nmIDs t o).foldl
          (normalizeMembershipStep (ensureDefaultFolder n t).2.id n)
          (ensureDefaultFolder n t).1 ∧
      findFolderByName (ensureDefaultFolder n t).1 DEFAULT_FOLDER_NAME =
        some (ensureDefaultFolder n t).2) := by
  refine ⟨fun r hr => (runStoreOp_good h r hr).1, ?_, ?_⟩
  · intro d n t rid hempty
    rw [normalizeMembershipStep_eq, if_pos (by rw [hempty]; rfl)]
    unfold addRecordFolderLink
    rw [if_neg ?_]
    intro hx
    rcases List.any_eq_true.mp hx with ⟨l, hl, hp⟩
    rw [Bool.and_eq_true] at hp
    have hmem : l ∈ linksOf t rid := List.mem_filter.mpr ⟨hl, hp.1⟩
    rw [hempty] at hmem
    exact absurd hmem (List.not_mem_nil l)
  · intro n t o ho
    refine ⟨?_, ensureDefaultFolder_find n t⟩
    rw [normalizeRecordFolderMemberships_eq, if_neg ho]

theorem claim_C1_witness :
    runStoreOp StoreOp.repair 1 orphanStore =
      Except.ok (okStoreOf emptyStore (runStoreOp StoreOp.repair 1 orphanStore)) ∧
    ((∀ r ∈ (okStoreOf emptyStore (runStoreOp StoreOp.repair 1 orphanStore)).records,
      LinkComplete (okStoreOf emptyStore (runStoreOp StoreOp.repair 1 orphanStore)) r.id) ∧
    (∀ (d n : Nat) (t : JSONStoreData) (rid : Nat), linksOf t rid = [] →
      (normalizeMembershipStep d n t rid).recordFolderLinks =
        t.recordFolderLinks ++ [⟨rid, d, n⟩]) ∧
    (∀ (n : Nat) (t : JSONStoreData) (o : Option (List Nat)),
      ¬(nmIDs t o).isEmpty = true →
      normalizeRecordFolderMemberships n t o =
        (nmIDs t o).foldl
          (normalizeMembershipStep (ensureDefaultFolder n t).2.id n)
          (ensureDefaultFolder n t).1 ∧
      findFolderByName (ensureDefaultFolder n t).1 DEFAULT_FOLDER_NAME =
        some (ensureDefaultFolder n t).2)) :=
  ⟨rfl, @claim_C1 StoreOp.repair 1 orphanStore
    (okStoreOf emptyStore (runStoreOp StoreOp.repair 1 orphanStore)) rfl⟩

/-- C2: after any completed Review Store operation, no record is linked both
to the default folder and to a non-default folder; and whenever the membership
normalization pass meets a record holding both a default link and a
non-default link, exactly the default-folder links of that record are the ones
dropped. -/
theorem claim_C2 {op : StoreOp} {now : Nat} {file s' : JSONStoreData}
    (h : runStoreOp op now file = Except.ok s') :
    (∀ r ∈ s'.records, ∀ f, findFolderByName s' DEFAULT_FOLDER_NAME = some f →
      DefaultExclusive s' f.id r.id) ∧
    (∀ (d n : Nat) (t : JSONStoreData) (rid : Nat),
      (∃ l ∈ linksOf t rid, l.folderID = d) → (∃ l ∈ linksOf t rid, l.folderID ≠ d) →
      (normalizeMembershipStep d n t rid).recordFolderLinks =
        t.recordFolderLinks.filter (fun l => ¬(l.recordID = rid ∧ l.folderID = d))) := by
  constructor
  · intro r hr
    exact (runStoreOp_good h r hr).2
  · intro d n t rid hd hnd
    rcases hd with ⟨l₁, hl₁, he₁⟩
    rcases hnd with ⟨l₂, hl₂, he₂⟩
    rw [normalizeMembershipStep_eq]
    rw [if_neg, if_pos]
    · rw [Bool.and_eq_true]
      constructor
      · rw [List.any_eq_true]
        exact ⟨l₁, hl₁, decide_eq_true he₁⟩
      · rw [List.any_eq_true]
        exact ⟨l₂, hl₂, decide_eq_true he₂⟩
    · rw [List.isEmpty_iff]
      exact List.ne_nil_of_mem hl₁

theorem claim_C2_witness :
    runStoreOp StoreOp.repair 1 orphanStore =
      Except.ok (okStoreOf emptyStore (runStoreOp StoreOp.repair 1 orphanStore)) ∧
    ((∀ r ∈ (okStoreOf emptyStore (runStoreOp StoreOp.repair 1 orphanStore)).records,
      ∀ f, findFolderByName (okStoreOf emptyStore (runStoreOp StoreOp.repair 1 orphanStore))
          DEFAULT_FOLDER_NAME = some f →
        DefaultExclusive (okStoreOf emptyStore (runStoreOp StoreOp.repair 1 orphanStore))
          f.id r.id) ∧
    (∀ (d n : Nat) (t : JSONStoreData) (rid : Nat),
      (∃ l ∈ linksOf t rid, l.folderID = d) → (∃ l ∈ linksOf t rid, l.folderID ≠ d) →
      (normalizeMembershipStep d n t rid).recordFolderLinks =
        t.recordFolderLinks.filter (fun l => ¬(l.recordID = rid ∧ l.folderID = d)))) :=
  ⟨rfl, @claim_C2 StoreOp.repair 1 orphanStore
    (okStoreOf emptyStore (runStoreOp StoreOp.repair 1 orphanStore)) rfl⟩


/-- C4: deleting or merging folders fails with a thrown error whenever a
targeted folder is the protected default folder, and removing records from
the protected default folder fails as well; in each such failure the
persisted store file is left unchanged. -/
theorem claim_C4 (now : Nat) (file : JSONStoreData) :
    (∀ fid folder,
      findFolderByID (ensureStoreIntegrity now (loadStoreData now file)) fid = some folder →
      isProtectedName folder.name = true →
      (∃ e, runStoreOp (StoreOp.deleteFolder fid) now file = Except.error e) ∧
      persistedAfter (StoreOp.deleteFolder fid) now file = file) ∧
    (∀ folderIDs newName fid folder,
      fid ∈ jsDedup (folderIDs.filter (fun v => v ≠ 0)) →
      findFolderByID (ensureStoreIntegrity now (loadStoreData now file)) fid = some folder →
      isProtectedName folder.name = true →
      (∃ e, runStoreOp (StoreOp.mergeFolders folderIDs newName) now file = Except.error e) ∧
      persistedAfter (StoreOp.mergeFolders folderIDs newName) now file = file) ∧
    (∀ recordIDs fid folder, normalizeIDList recordIDs ≠ [] →
      findFolderByID (ensureStoreIntegrity now (loadStoreData now file)) fid = some folder →
      isProtectedName folder.name = true →
      (∃ e, runStoreOp (StoreOp.removeFromFolder recordIDs fid) now file = Except.error e) ∧
      persistedAfter (StoreOp.removeFromFolder recordIDs fid) now file = file) := by
  refine ⟨?_, ?_, ?_⟩
  · intro fid folder hfind hprot
    have he : runStoreOp (StoreOp.deleteFolder fid) now file =
        Except.error "系统文件夹不可删除" := by
      unfold runStoreOp applyStoreOp deleteReviewFolder
      simp only []
      rw [hfind]
      simp only []
      rw [if_pos hprot]
    refine ⟨⟨_, he⟩, ?_⟩
    unfold persistedAfter
    rw [he]
  · intro folderIDs newName fid folder hmem hfind hprot
    have hany : ((jsDedup (folderIDs.filter (fun v => v ≠ 0))).filterMap
        (findFolderByID (ensureStoreIntegrity now (loadStoreData now file)))).any
          (fun f => isProtectedName f.name) = true := by
      rw [List.any_eq_true]
      exact ⟨folder, List.mem_filterMap.mpr ⟨fid, hmem, hfind⟩, hprot⟩
    have hm : ∃ e, mergeReviewFolders now (loadStoreData now file) folderIDs newName =
        Except.error e := by
      unfold mergeReviewFolders
      simp only []
      by_cases hlen : (jsDedup (folderIDs.filter (fun v => v ≠ 0))).length < 2
      · exact ⟨_, by rw [if_pos hlen]⟩
      · exact ⟨_, by rw [if_neg hlen, if_pos hany]⟩
    rcases hm with ⟨e, hm⟩
    have he : runStoreOp (StoreOp.mergeFolders folderIDs newName) now file =
        Except.error e := by
      unfold runStoreOp applyStoreOp
      simp only []
      rw [hm]
      rfl
    refine ⟨⟨e, he⟩, ?_⟩
    unfold persistedAfter
    rw [he]
  · intro recordIDs fid folder hne hfind hprot
    have hne' : ¬((normalizeIDList recordIDs).isEmpty = true) := by
      rw [List.isEmpty_iff]
      exact hne
    have he : runStoreOp (StoreOp.removeFromFolder recordIDs fid) now file =
        Except.error "系统文件夹不可直接移出" := by
      unfold runStoreOp applyStoreOp removeReviewRecordsFromFolder
      simp only []
      rw [if_neg hne', hfind]
      simp only []
      rw [if_pos hprot]
    refine ⟨⟨_, he⟩, ?_⟩
    unfold persistedAfter
    rw [he]


/-- C5 (amended): `resolveTargetFolderID` makes every operation that is given
an explicit target folder id fail with an error when that id does not exist —
in particular `assignFolder` with an explicit id, and `removeFromFolder`, both
throw — but `deleteFolder` on a nonexistent id is a silent no-op that
completes successfully, returning the loaded store unchanged. -/
theorem claim_C5 (now : Nat) (file : JSONStoreData) (fid : Nat)
    (hmiss : findFolderByID (ensureStoreIntegrity now (loadStoreData now file)) fid = none) :
    (∀ (s : JSONStoreData), findFolderByID s fid = none →
      resolveTargetFolderID now s (some fid) = Except.error "目标文件夹不存在") ∧
    (∀ recordIDs, normalizeIDList recordIDs ≠ [] →
      runStoreOp (StoreOp.assignFolder recordIDs (some fid)) now file =
        Except.error "目标文件夹不存在") ∧
    (∀ recordIDs, normalizeIDList recordIDs ≠ [] →
      runStoreOp (StoreOp.removeFromFolder recordIDs fid) now file =
        Except.error "目标文件夹不存在") ∧
    runStoreOp (StoreOp.deleteFolder fid) now file =
      Except.ok (ensureStoreIntegrity now (loadStoreData now file)) := by
  refine ⟨?_, ?_, ?_, ?_⟩
  · intro s hs
    rw [resolveTargetFolderID_some, hs]
  · intro recordIDs hne
    have hne' : ¬((normalizeIDList recordIDs).isEmpty = true) := by
      rw [List.isEmpty_iff]
      exact hne
    unfold runStoreOp applyStoreOp assignReviewRecordsFolder
    simp only []
    rw [if_neg hne', resolveTargetFolderID_some, hmiss]
  · intro recordIDs hne
    have hne' : ¬((normalizeIDList recordIDs).isEmpty = true) := by
      rw [List.isEmpty_iff]
      exact hne
    unfold runStoreOp applyStoreOp removeReviewRecordsFromFolder
    simp only []
    rw [if_neg hne', hmiss]
  · unfold runStoreOp applyStoreOp deleteReviewFolder
    simp only []
    rw [hmiss]

theorem claim_C5_witness :
    findFolderByID (ensureStoreIntegrity 1 (loadStoreData 1 emptyStore)) 999 = none ∧
    ((∀ (s : JSONStoreData), findFolderByID s 999 = none →
      resolveTargetFolderID 1 s (some 999) = Except.error "目标文件夹不存在") ∧
    (∀ recordIDs, normalizeIDList recordIDs ≠ [] →
      runStoreOp (StoreOp.assignFolder recordIDs (some 999)) 1 emptyStore =
        Except.error "目标文件夹不存在") ∧
    (∀ recordIDs, normalizeIDList recordIDs ≠ [] →
      runStoreOp (StoreOp.removeFromFolder recordIDs 999) 1 emptyStore =
        Except.error "目标文件夹不存在") ∧
    runStoreOp (StoreOp.deleteFolder 999) 1 emptyStore =
      Except.ok (ensureStoreIntegrity 1 (loadStoreData 1 emptyStore))) :=
  ⟨rfl, claim_C5 1 emptyStore 999 rfl⟩

theorem claim_C5_counterexample :
    findFolderByID (ensureStoreIntegrity 1 (loadStoreData 1 emptyStore)) 999 = none ∧
    runStoreOp (StoreOp.deleteFolder 999) 1 emptyStore =
      Except.ok (okStoreOf emptyStore (runStoreOp (StoreOp.deleteFolder 999) 1 emptyStore)) :=
  ⟨rfl, rfl⟩


/-! ## Idempotence of `createReviewFolder` (claim C9) -/

theorem dedupFolders_foldl_id (l : List JSONStoreFolder) :
    ∀ acc : List JSONStoreFolder,
      (∀ f ∈ l, folderKey f.name ≠ []) →
      l.Pairwise (fun a b => folderKey a.name ≠ folderKey b.name) →
      (∀ g ∈ acc, ∀ f ∈ l, folderKey g.name ≠ folderKey f.name) →
      l.foldl
        (fun acc f =>
          if folderKey f.name = [] ∨ acc.any (fun g => folderKey g.name = folderKey f.name)
          then acc else acc ++ [f])
        acc = acc ++ l := by
  induction l with
  | nil =>
    intro acc _ _ _
    rw [List.foldl_nil, List.append_nil]
  | cons x xs ih =>
    intro acc h1 h2 hacc
    rw [List.foldl_cons]
    have hcond : ¬(folderKey x.name = [] ∨
        acc.any (fun g => folderKey g.name = folderKey x.name) = true) := by
      rintro (hk | hany)
      · exact h1 x (List.mem_cons_self x xs) hk
      · rcases List.any_eq_true.mp hany with ⟨g, hg, hgk⟩
        exact hacc g hg x (List.mem_cons_self x xs) (of_decide_eq_true hgk)
    rw [if_neg hcond]
    rw [ih (acc ++ [x]) (fun f hf => h1 f (List.mem_cons_of_mem x hf))
      (List.Pairwise.sublist (List.sublist_cons_self x xs) h2) ?_]
    · rw [List.append_assoc]
      rfl
    · intro g hg f hf
      rcases List.mem_append.mp hg with hg1 | hg1
      · exact hacc g hg1 f (List.mem_cons_of_mem x hf)
      · rw [List.mem_singleton] at hg1
        subst hg1
        exact (List.pairwise_cons.mp h2).1 f hf

theorem dedupFolders_id {l : List JSONStoreFolder}
    (h1 : ∀ f ∈ l, folderKey f.name ≠ [])
    (h2 : l.Pairwise (fun a b => folderKey a.name ≠ folderKey b.name)) :
    dedupFolders l = l := by
  unfold dedupFolders
  rw [dedupFolders_foldl_id l [] h1 h2 (fun g hg => absurd hg (List.not_mem_nil g))]
  rfl

theorem ensureStoreIntegrity_folders_stable {now : Nat} {t : JSONStoreData}
    (hg : ∀ f ∈ t.folders, folderKey f.name ≠ [])
    (hu : t.folders.Pairwise (fun a b => folderKey a.name ≠ folderKey b.name))
    (hd : ∃ f₀ ∈ t.folders, folderKey f₀.name = folderKey DEFAULT_FOLDER_NAME) :
    (ensureStoreIntegrity now t).folders = t.folders := by
  have hpre : (integrityPre now t).folders = t.folders := by
    rw [integrityPre_folders]
    rcases findFolderByName_isSome_of_key (s := { t with
        schemaVersion := 2,
        createdAt := if t.createdAt = 0 then now else t.createdAt,
        updatedAt := if t.updatedAt = 0 then now else t.updatedAt })
      (n := DEFAULT_FOLDER_NAME) hd with ⟨f, hf⟩
    rcases ensureDefaultFolder_spec now { t with
        schemaVersion := 2,
        createdAt := if t.createdAt = 0 then now else t.createdAt,
        updatedAt := if t.updatedAt = 0 then now else t.updatedAt } with
      ⟨-, hs⟩ | ⟨hnonef, -, -⟩
    · rw [hs]
      exact dedupFolders_id hg hu
    · rw [hnonef] at hf
      exact absurd hf (by simp)
  rw [ensureStoreIntegrity_folders_nm]
  by_cases he : (nmIDs (integrityPre now t) none).isEmpty = true
  · rw [nm_folders_of_empty he]
    exact hpre
  · rw [nm_folders_of_nonempty he]
    have hd2 : ∃ f₀ ∈ (integrityPre now t).folders,
        folderKey f₀.name = folderKey DEFAULT_FOLDER_NAME := by
      rw [hpre]
      exact hd
    rcases findFolderByName_isSome_of_key hd2 with ⟨f, hf⟩
    rcases ensureDefaultFolder_spec now (integrityPre now t) with ⟨-, hs⟩ | ⟨hnonef, -, -⟩
    · rw [hs]
      exact hpre
    · rw [hnonef] at hf
      exact absurd hf (by simp)

theorem goodNames_loadStoreData (now : Nat) (file : JSONStoreData) :
    GoodNames (loadStoreData now file) :=
  ensureStoreIntegrity_goodNames (normalizeStoreData_goodNames now file)


/-- C9: `createReviewFolder` is idempotent — if the first call returns folder
`f₁` and store `s₁`, calling it again with the same name returns the same
folder `f₁` (same id) and does not add a duplicate folder (the folder list is
unchanged); and in general, when a folder whose name matches the
trimmed/case-folded input already exists in the repaired store, the call
returns that existing folder with the store unchanged. -/
theorem claim_C9 {now now₂ : Nat} {file : JSONStoreData} {name : List Char}
    {s₁ : JSONStoreData} {f₁ : JSONStoreFolder}
    (h₁ : createReviewFolder now (loadStoreData now file) name = Except.ok (s₁, f₁)) :
    (createReviewFolder now₂ s₁ name = Except.ok (ensureStoreIntegrity now₂ s₁, f₁) ∧
      (ensureStoreIntegrity now₂ s₁).folders = s₁.folders) ∧
    (∀ existing, findFolderByName (ensureStoreIntegrity now (loadStoreData now file))
        (normalizeFolderName name) = some existing →
      createReviewFolder now (loadStoreData now file) name =
        Except.ok (ensureStoreIntegrity now (loadStoreData now file), existing)) := by
  have hgE : GoodNames (ensureStoreIntegrity now (loadStoreData now file)) :=
    ensureStoreIntegrity_goodNames (goodNames_loadStoreData now file)
  have huE : KeysUnique (ensureStoreIntegrity now (loadStoreData now file)) :=
    ensureStoreIntegrity_keysUnique now (loadStoreData now file)
  have hdE := ensureStoreIntegrity_has_default now (loadStoreData now file)
  have hdmemE : ∃ f₀ ∈ (ensureStoreIntegrity now (loadStoreData now file)).folders,
      folderKey f₀.name = folderKey DEFAULT_FOLDER_NAME := by
    rcases hdE with ⟨f, hf⟩
    unfold findFolderByName at hf
    exact ⟨f, List.mem_of_find?_eq_some hf, by simpa using List.find?_some hf⟩
  rw [createReviewFolder_eq] at h₁
  split at h₁
  · simp at h₁
  · rename_i hne
    have hgen : ∀ existing,
        findFolderByName (ensureStoreIntegrity now (loadStoreData now file))
          (normalizeFolderName name) = some existing →
        createReviewFolder now (loadStoreData now file) name =
          Except.ok (ensureStoreIntegrity now (loadStoreData now file), existing) := by
      intro existing hfound
      rw [createReviewFolder_eq, if_neg hne, hfound]
    split at h₁
    · rename_i existing hfound
      rw [Except.ok.injEq, Prod.mk.injEq] at h₁
      obtain ⟨he1, he2⟩ := h₁
      subst he1
      subst he2
      have hstable : (ensureStoreIntegrity now₂
            (ensureStoreIntegrity now (loadStoreData now file))).folders =
          (ensureStoreIntegrity now (loadStoreData now file)).folders :=
        ensureStoreIntegrity_folders_stable (fun f hf => (hgE f hf).2) huE hdmemE
      refine ⟨⟨?_, hstable⟩, hgen⟩
      rw [createReviewFolder_eq, if_neg hne,
        findFolderByName_eq_of_folders (normalizeFolderName name) hstable, hfound]
    · rename_i hnone
      rw [Except.ok.injEq, Prod.mk.injEq] at h₁
      obtain ⟨he1, he2⟩ := h₁
      subst he1
      subst he2
      have hnone' : (ensureStoreIntegrity now (loadStoreData now file)).folders.find?
          (fun f => folderKey f.name = folderKey (normalizeFolderName name)) = none := hnone
      have hg₁ : ∀ f ∈ (markStoreUpdated now
          { ensureStoreIntegrity now (loadStoreData now file) with
            nextFolderID :=
              Nat.max 1 (ensureStoreIntegrity now (loadStoreData now file)).nextFolderID + 1,
            folders := (ensureStoreIntegrity now (loadStoreData now file)).folders ++
              [⟨Nat.max 1 (ensureStoreIntegrity now (loadStoreData now file)).nextFolderID,
                normalizeFolderName name, now, now⟩] }).folders,
          folderKey f.name ≠ [] := by
        intro f hf
        rcases List.mem_append.mp hf with hf1 | hf1
        · exact (hgE f hf1).2
        · rw [List.mem_singleton] at hf1
          subst hf1
          exact normalizeFolderName_key_ne_nil hne
      have hu₁ : (markStoreUpdated now
          { ensureStoreIntegrity now (loadStoreData now file) with
            nextFolderID :=
              Nat.max 1 (ensureStoreIntegrity now (loadStoreData now file)).nextFolderID + 1,
            folders := (ensureStoreIntegrity now (loadStoreData now file)).folders ++
              [⟨Nat.max 1 (ensureStoreIntegrity now (loadStoreData now file)).nextFolderID,
                normalizeFolderName name, now, now⟩] }).folders.Pairwise
          (fun a b => folderKey a.name ≠ folderKey b.name) := by
        show ((ensureStoreIntegrity now (loadStoreData now file)).folders ++ [_]).Pairwise _
        rw [List.pairwise_append]
        refine ⟨huE, List.pairwise_singleton _ _, ?_⟩
        intro a ha b hb
        rw [List.mem_singleton] at hb
        subst hb
        intro hk
        exact absurd (decide_eq_true hk) (by simpa using List.find?_eq_none.mp hnone' a ha)
      have hd₁ : ∃ f₀ ∈ (markStoreUpdated now
          { ensureStoreIntegrity now (loadStoreData now file) with
            nextFolderID :=
              Nat.max 1 (ensureStoreIntegrity now (loadStoreData now file)).nextFolderID + 1,
            folders := (ensureStoreIntegrity now (loadStoreData now file)).folders ++
              [⟨Nat.max 1 (ensureStoreIntegrity now (loadStoreData now file)).nextFolderID,
                normalizeFolderName name, now, now⟩] }).folders,
          folderKey f₀.name = folderKey DEFAULT_FOLDER_NAME := by
        rcases hdmemE with ⟨f₀, hmem, hk⟩
        exact ⟨f₀, List.mem_append_left _ hmem, hk⟩
      have hstable := @ensureStoreIntegrity_folders_stable now₂ _ hg₁ hu₁ hd₁
      have hfind₁ : findFolderByName (markStoreUpdated now
          { ensureStoreIntegrity now (loadStoreData now file) with
            nextFolderID :=
              Nat.max 1 (ensureStoreIntegrity now (loadStoreData now file)).nextFolderID + 1,
            folders := (ensureStoreIntegrity now (loadStoreData now file)).folders ++
              [⟨Nat.max 1 (ensureStoreIntegrity now (loadStoreData now file)).nextFolderID,
                normalizeFolderName name, now, now⟩] }) (normalizeFolderName name) =
          some ⟨Nat.max 1 (ensureStoreIntegrity now (loadStoreData now file)).nextFolderID,
            normalizeFolderName name, now, now⟩ := by
        unfold findFolderByName
        show ((ensureStoreIntegrity now (loadStoreData now file)).folders ++ [_]).find? _ =
          some _
        rw [find?_append_none _ _ hnone']
        rw [List.find?_cons_of_pos _ (by simp)]
      refine ⟨⟨?_, hstable⟩, hgen⟩
      rw [createReviewFolder_eq, if_neg hne,
        findFolderByName_eq_of_folders (normalizeFolderName name) hstable, hfind₁]

theorem claim_C9_witness :
    createReviewFolder 1 (loadStoreData 1 emptyStore) "X".toList =
      Except.ok (okFolderPairOf (emptyStore, ⟨0, [], 0, 0⟩)
        (createReviewFolder 1 (loadStoreData 1 emptyStore) "X".toList)) ∧
    ((createReviewFolder 2 (okFolderPairOf (emptyStore, ⟨0, [], 0, 0⟩)
          (createReviewFolder 1 (loadStoreData 1 emptyStore) "X".toList)).1 "X".toList =
        Except.ok (ensureStoreIntegrity 2 (okFolderPairOf (emptyStore, ⟨0, [], 0, 0⟩)
            (createReviewFolder 1 (loadStoreData 1 emptyStore) "X".toList)).1,
          (okFolderPairOf (emptyStore, ⟨0, [], 0, 0⟩)
            (createReviewFolder 1 (loadStoreData 1 emptyStore) "X".toList)).2) ∧
      (ensureStoreIntegrity 2 (okFolderPairOf (emptyStore, ⟨0, [], 0, 0⟩)
          (createReviewFolder 1 (loadStoreData 1 emptyStore) "X".toList)).1).folders =
        (okFolderPairOf (emptyStore, ⟨0, [], 0, 0⟩)
          (createReviewFolder 1 (loadStoreData 1 emptyStore) "X".toList)).1.folders) ∧
    (∀ existing, findFolderByName (ensureStoreIntegrity 1 (loadStoreData 1 emptyStore))
        (normalizeFolderName "X".toList) = some existing →
      createReviewFolder 1 (loadStoreData 1 emptyStore) "X".toList =
        Except.ok (ensureStoreIntegrity 1 (loadStoreData 1 emptyStore), existing))) :=
  ⟨rfl, @claim_C9 1 2 emptyStore "X".toList
    (okFolderPairOf (emptyStore, ⟨0, [], 0, 0⟩)
      (createReviewFolder 1 (loadStoreData 1 emptyStore) "X".toList)).1
    (okFolderPairOf (emptyStore, ⟨0, [], 0, 0⟩)
      (createReviewFolder 1 (loadStoreData 1 emptyStore) "X".toList)).2 rfl⟩


/-! ## Upsert-twice semantics (claim C3) -/

theorem markStoreUpdated_records (now : Nat) (s : JSONStoreData) :
    (markStoreUpdated now s).records = s.records := rfl

theorem upsertMatcher_overwrite {now : Nat} {draft : LiteratureReviewDraft} {z : Nat}
    {r : JSONStoreRecord} (h : upsertMatcher z r = true) :
    upsertMatcher z (overwriteFromDraft now draft r) = true := by
  unfold upsertMatcher at h ⊢
  rw [Bool.and_eq_true] at h ⊢
  exact ⟨rfl, h.2⟩

theorem upsertMatcher_new (now id : Nat) (draft : LiteratureReviewDraft) :
    upsertMatcher draft.zoteroItemID (newRecordFromDraft now id draft) = true := by
  unfold upsertMatcher
  rw [Bool.and_eq_true]
  exact ⟨rfl, decide_eq_true rfl⟩

theorem upsert_find_next {now : Nat} {s : JSONStoreData} {draft : LiteratureReviewDraft}
    {folderArg : FolderArg} {s₁ : JSONStoreData} {r₁ : JSONStoreRecord}
    (h : upsertReviewRecord now s draft folderArg = Except.ok (s₁, r₁)) :
    s₁.records.find? (upsertMatcher draft.zoteroItemID) = some r₁ := by
  unfold upsertReviewRecord at h
  simp only [] at h
  set s₀ := ensureStoreIntegrity now s with hs₀def
  clear_value s₀
  cases folderArg with
  | absent =>
    simp only [] at h
    split at h
    · rename_i existing heq
      rw [Except.ok.injEq, Prod.mk.injEq] at h
      rw [← h.1, ← h.2]
      rw [markStoreUpdated_records, nm_records]
      exact find?_replaceFirst heq (upsertMatcher_overwrite (List.find?_some heq))
    · rename_i hnone
      rw [Except.ok.injEq, Prod.mk.injEq] at h
      rw [← h.1, ← h.2]
      rw [markStoreUpdated_records, nm_records]
      show (s₀.records ++ [newRecordFromDraft now (Nat.max 1 s₀.nextRecordID) draft]).find?
        _ = _
      rw [find?_append_none _ _ hnone,
        List.find?_cons_of_pos _ (upsertMatcher_new now (Nat.max 1 s₀.nextRecordID) draft)]
      rfl
  | null =>
    rw [resolveTargetFolderID_none] at h
    simp only [] at h
    split at h
    · rename_i existing heq
      rw [Except.ok.injEq, Prod.mk.injEq] at h
      rw [← h.1, ← h.2]
      rw [markStoreUpdated_records, nm_records, addRecordFolderLink_records,
        ensureDefaultFolder_records]
      exact find?_replaceFirst heq (upsertMatcher_overwrite (List.find?_some heq))
    · rename_i hnone
      rw [Except.ok.injEq, Prod.mk.injEq] at h
      rw [← h.1, ← h.2]
      rw [markStoreUpdated_records, nm_records, addRecordFolderLink_records,
        ensureDefaultFolder_records]
      show (s₀.records ++ [newRecordFromDraft now (Nat.max 1 s₀.nextRecordID) draft]).find?
        _ = _
      rw [find?_append_none _ _ hnone,
        List.find?_cons_of_pos _ (upsertMatcher_new now (Nat.max 1 s₀.nextRecordID) draft)]
      rfl
  | explicit fid =>
    simp only [] at h
    rw [resolveTargetFolderID_some] at h
    cases hstep : List.find? (upsertMatcher draft.zoteroItemID) s₀.records with
    | some existing =>
      rw [hstep] at h
      simp only [] at h
      cases hfid : findFolderByID { s₀ with records := replaceFirst (upsertMatcher draft.zoteroItemID) (overwriteFromDraft now draft) s₀.records } fid with
      | none =>
        rw [hfid] at h
        simp at h
      | some g =>
        rw [hfid] at h
        simp only [] at h
        rw [Except.ok.injEq, Prod.mk.injEq] at h
        rw [← h.1, ← h.2]
        rw [markStoreUpdated_records, nm_records, addRecordFolderLink_records]
        exact find?_replaceFirst hstep (upsertMatcher_overwrite (List.find?_some hstep))
    | none =>
      rw [hstep] at h
      simp only [] at h
      cases hfid : findFolderByID { (allocRecordID s₀).1 with records := (allocRecordID s₀).1.records ++ [newRecordFromDraft now (allocRecordID s₀).2 draft] } fid with
      | none =>
        rw [hfid] at h
        simp at h
      | some g =>
        rw [hfid] at h
        simp only [] at h
        rw [Except.ok.injEq, Prod.mk.injEq] at h
        rw [← h.1, ← h.2]
        rw [markStoreUpdated_records, nm_records, addRecordFolderLink_records]
        show (s₀.records ++ [newRecordFromDraft now (Nat.max 1 s₀.nextRecordID) draft]).find?
          _ = _
        rw [find?_append_none _ _ hstep,
          List.find?_cons_of_pos _ (upsertMatcher_new now (Nat.max 1 s₀.nextRecordID) draft)]
        rfl


/-- C3: after a first `upsertReviewRecord` call has produced record `r₁`, a
second call with a draft carrying the same `zoteroItemID` but different
content updates that single record in place: it returns the overwrite of
`r₁` — preserving its id, `createdAt` and `zoteroItemID`, overwriting the
content fields with the new draft, and clearing the synthesis-only
`sourceRecordIDs` and `sourceZoteroItemIDs` — and the second call replaces
the record in the list instead of appending, so the record count does not
increase. -/
theorem claim_C3 {now now₂ : Nat} {file : JSONStoreData}
    {draft draft₂ : LiteratureReviewDraft} {folderArg : FolderArg}
    {s₁ : JSONStoreData} {r₁ : JSONStoreRecord}
    (h₁ : upsertReviewRecord now (loadStoreData now file) draft folderArg =
      Except.ok (s₁, r₁))
    (hz : draft₂.zoteroItemID = draft.zoteroItemID) :
    ∃ s₂, upsertReviewRecord now₂ s₁ draft₂ FolderArg.absent =
        Except.ok (s₂, overwriteFromDraft now₂ draft₂ r₁) ∧
      s₂.records.length = s₁.records.length ∧
      s₂.records = replaceFirst (upsertMatcher draft₂.zoteroItemID)
        (overwriteFromDraft now₂ draft₂) s₁.records ∧
      (overwriteFromDraft now₂ draft₂ r₁).id = r₁.id ∧
      (overwriteFromDraft now₂ draft₂ r₁).createdAt = r₁.createdAt ∧
      (overwriteFromDraft now₂ draft₂ r₁).zoteroItemID = r₁.zoteroItemID ∧
      (overwriteFromDraft now₂ draft₂ r₁).title = draft₂.title ∧
      (overwriteFromDraft now₂ draft₂ r₁).abstractText = draft₂.abstractText ∧
      (overwriteFromDraft now₂ draft₂ r₁).literatureReview = draft₂.literatureReview ∧
      (overwriteFromDraft now₂ draft₂ r₁).rawAIResponse = draft₂.rawAIResponse ∧
      (overwriteFromDraft now₂ draft₂ r₁).sourceRecordIDs = [] ∧
      (overwriteFromDraft now₂ draft₂ r₁).sourceZoteroItemIDs = [] := by
  have hfind : List.find? (upsertMatcher draft₂.zoteroItemID)
      (ensureStoreIntegrity now₂ s₁).records = some r₁ := by
    rw [ensureStoreIntegrity_records, hz]
    exact upsert_find_next h₁
  refine ⟨markStoreUpdated now₂ (normalizeRecordFolderMemberships now₂ { ensureStoreIntegrity now₂ s₁ with records := replaceFirst (upsertMatcher draft₂.zoteroItemID) (overwriteFromDraft now₂ draft₂) (ensureStoreIntegrity now₂ s₁).records } (some [(overwriteFromDraft now₂ draft₂ r₁).id])), ?_, ?_, ?_, rfl, rfl, rfl, rfl, rfl, rfl, rfl, rfl, rfl⟩
  · unfold upsertReviewRecord
    simp only []
    rw [hfind]
  · rw [markStoreUpdated_records, nm_records]
    show (replaceFirst (upsertMatcher draft₂.zoteroItemID) (overwriteFromDraft now₂ draft₂)
      (ensureStoreIntegrity now₂ s₁).records).length = s₁.records.length
    rw [replaceFirst_length, ensureStoreIntegrity_records]
  · rw [markStoreUpdated_records, nm_records]
    show replaceFirst (upsertMatcher draft₂.zoteroItemID) (overwriteFromDraft now₂ draft₂)
      (ensureStoreIntegrity now₂ s₁).records = _
    rw [ensureStoreIntegrity_records]


theorem claim_C3_witness :
    (upsertReviewRecord 1 (loadStoreData 1 emptyStore) (sampleDraft 7 "t1") FolderArg.absent =
      Except.ok ((okPairOf (emptyStore, sampleRecord 1 7) (upsertReviewRecord 1 (loadStoreData 1 emptyStore) (sampleDraft 7 "t1") FolderArg.absent)).1, (okPairOf (emptyStore, sampleRecord 1 7) (upsertReviewRecord 1 (loadStoreData 1 emptyStore) (sampleDraft 7 "t1") FolderArg.absent)).2)) ∧
    (sampleDraft 7 "t2").zoteroItemID = (sampleDraft 7 "t1").zoteroItemID ∧
    (∃ s₂, upsertReviewRecord 2 (okPairOf (emptyStore, sampleRecord 1 7) (upsertReviewRecord 1 (loadStoreData 1 emptyStore) (sampleDraft 7 "t1") FolderArg.absent)).1 (sampleDraft 7 "t2") FolderArg.absent =
        Except.ok (s₂, overwriteFromDraft 2 (sampleDraft 7 "t2") (okPairOf (emptyStore, sampleRecord 1 7) (upsertReviewRecord 1 (loadStoreData 1 emptyStore) (sampleDraft 7 "t1") FolderArg.absent)).2) ∧
      s₂.records.length = (okPairOf (emptyStore, sampleRecord 1 7) (upsertReviewRecord 1 (loadStoreData 1 emptyStore) (sampleDraft 7 "t1") FolderArg.absent)).1.records.length ∧
      s₂.records = replaceFirst (upsertMatcher (sampleDraft 7 "t2").zoteroItemID)
        (overwriteFromDraft 2 (sampleDraft 7 "t2")) (okPairOf (emptyStore, sampleRecord 1 7) (upsertReviewRecord 1 (loadStoreData 1 emptyStore) (sampleDraft 7 "t1") FolderArg.absent)).1.records ∧
      (overwriteFromDraft 2 (sampleDraft 7 "t2") (okPairOf (emptyStore, sampleRecord 1 7) (upsertReviewRecord 1 (loadStoreData 1 emptyStore) (sampleDraft 7 "t1") FolderArg.absent)).2).id = (okPairOf (emptyStore, sampleRecord 1 7) (upsertReviewRecord 1 (loadStoreData 1 emptyStore) (sampleDraft 7 "t1") FolderArg.absent)).2.id ∧
      (overwriteFromDraft 2 (sampleDraft 7 "t2") (okPairOf (emptyStore, sampleRecord 1 7) (upsertReviewRecord 1 (loadStoreData 1 emptyStore) (sampleDraft 7 "t1") FolderArg.absent)).2).createdAt = (okPairOf (emptyStore, sampleRecord 1 7) (upsertReviewRecord 1 (loadStoreData 1 emptyStore) (sampleDraft 7 "t1") FolderArg.absent)).2.createdAt ∧
      (overwriteFromDraft 2 (sampleDraft 7 "t2") (okPairOf (emptyStore, sampleRecord 1 7) (upsertReviewRecord 1 (loadStoreData 1 emptyStore) (sampleDraft 7 "t1") FolderArg.absent)).2).zoteroItemID = (okPairOf (emptyStore, sampleRecord 1 7) (upsertReviewRecord 1 (loadStoreData 1 emptyStore) (sampleDraft 7 "t1") FolderArg.absent)).2.zoteroItemID ∧
      (overwriteFromDraft 2 (sampleDraft 7 "t2") (okPairOf (emptyStore, sampleRecord 1 7) (upsertReviewRecord 1 (loadStoreData 1 emptyStore) (sampleDraft 7 "t1") FolderArg.absent)).2).title = (sampleDraft 7 "t2").title ∧
      (overwriteFromDraft 2 (sampleDraft 7 "t2") (okPairOf (emptyStore, sampleRecord 1 7) (upsertReviewRecord 1 (loadStoreData 1 emptyStore) (sampleDraft 7 "t1") FolderArg.absent)).2).abstractText = (sampleDraft 7 "t2").abstractText ∧
      (overwriteFromDraft 2 (sampleDraft 7 "t2") (okPairOf (emptyStore, sampleRecord 1 7) (upsertReviewRecord 1 (loadStoreData 1 emptyStore) (sampleDraft 7 "t1") FolderArg.absent)).2).literatureReview = (sampleDraft 7 "t2").literatureReview ∧
      (overwriteFromDraft 2 (sampleDraft 7 "t2") (okPairOf (emptyStore, sampleRecord 1 7) (upsertReviewRecord 1 (loadStoreData 1 emptyStore) (sampleDraft 7 "t1") FolderArg.absent)).2).rawAIResponse = (sampleDraft 7 "t2").rawAIResponse ∧
      (overwriteFromDraft 2 (sampleDraft 7 "t2") (okPairOf (emptyStore, sampleRecord 1 7) (upsertReviewRecord 1 (loadStoreData 1 emptyStore) (sampleDraft 7 "t1") FolderArg.absent)).2).sourceRecordIDs = [] ∧
      (overwriteFromDraft 2 (sampleDraft 7 "t2") (okPairOf (emptyStore, sampleRecord 1 7) (upsertReviewRecord 1 (loadStoreData 1 emptyStore) (sampleDraft 7 "t1") FolderArg.absent)).2).sourceZoteroItemIDs = []) :=
  ⟨rfl, rfl, @claim_C3 1 2 emptyStore (sampleDraft 7 "t1") (sampleDraft 7 "t2")
    FolderArg.absent (okPairOf (emptyStore, sampleRecord 1 7) (upsertReviewRecord 1 (loadStoreData 1 emptyStore) (sampleDraft 7 "t1") FolderArg.absent)).1 (okPairOf (emptyStore, sampleRecord 1 7) (upsertReviewRecord 1 (loadStoreData 1 emptyStore) (sampleDraft 7 "t1") FolderArg.absent)).2 rfl rfl⟩


/-- C6 (amended): every chunk the Text Chunker produces has length at most
1800 characters — 1.5 times the configured 1200-character budget, the true
bound, since a paragraph of up to 1.5×budget is kept whole — and chunking a
3000-character single-paragraph text yields exactly 3 chunks of 1200, 1200
and 600 characters, none exceeding 1200 (the hard-split path). -/
theorem claim_C6 :
    (∀ text : List Char, ∀ c ∈ chunkTextForEmbedding text, c.length ≤ 1800) ∧
    chunkTextForEmbedding (List.replicate 3000 'a') =
      [List.replicate 1200 'a', List.replicate 1200 'a', List.replicate 600 'a'] :=
  ⟨chunkTextForEmbedding_le_1800, chunkTextForEmbedding_3000⟩

theorem claim_C6_counterexample :
    ∃ c ∈ chunkTextForEmbedding (List.replicate 1500 'a'), 1200 < c.length := by
  rw [chunkTextForEmbedding_1500]
  refine ⟨List.replicate 1500 'a', List.mem_singleton_self _, ?_⟩
  rw [List.length_replicate]
  norm_num

/-- C7: the Vector Ranker's selection keeps the `min k n` candidates whose
cosine-similarity scores dominate every candidate left out, and re-sorts
them into ascending original index order before returning; ranking query
`[1,0]` against candidates `[[1,0],[0,1],[0.7,0.7]]` with `k = 2` selects
the candidates at indices 0 and 2 and returns them in index order `[0, 2]`. -/
theorem claim_C7 :
    (∀ (k : Nat) (ranked : List RankedChunk), ∃ rest : List RankedChunk,
      ranked.Perm (selectTopK k ranked ++ rest) ∧
      (∀ a ∈ selectTopK k ranked, ∀ b ∈ rest, b.score ≤ a.score) ∧
      (selectTopK k ranked).length = min k ranked.length ∧
      List.Sorted indexAsc (selectTopK k ranked)) ∧
    selectTopKIndices 2 [some 1, some 0]
      [[some 1, some 0], [some 0, some 1], [some (7/10 : ℚ), some (7/10 : ℚ)]] = [0, 2] :=
  ⟨selectTopK_spec, selectTopKIndices_scenarioE⟩

/-- C8 (amended): a candidate vector with zero norm (or an empty common
prefix with the query) is scored −1, the minimum cosine-similarity score, so
it is ranked behind every non-degenerate candidate — but it is not excluded
from the returned top-k when `k` is at least the number of candidates; and a
non-finite entry in a vector is dropped individually by `toNumericVector`
rather than the whole vector being treated as absent. -/
theorem claim_C8 :
    (∀ q v : List ℚ, ((q.zip v).map (fun p => p.2 * p.2)).sum = 0 →
      cosineSimilarity q v = -1) ∧
    toNumericVector [some (1 : ℚ), none] = [1] :=
  ⟨cosineSimilarity_zero_norm, rfl⟩

theorem claim_C8_counterexample :
    selectTopKIndices EMBEDDING_TOP_K [some 1, some 0]
      [[some 1, some 0], [some 0, some 0]] = [0, 1] :=
  selectTopKIndices_zero_norm_selected

/-- C10 (amended): when the source content contains no dollar character the
assembled prompt contains it in full — substituted at the placeholder when
one is present, appended after the template otherwise — and when the custom
template lacks both source placeholders the content is appended verbatim
whatever it contains; but content substituted into a placeholder passes
through the replacement-string processing of `String.prototype.replace`
(`GetSubstitution`), which interprets dollar escapes, so dollar-bearing
content can be garbled instead of contained. -/
theorem claim_C10 :
    (∀ sourceContent customPromptTemplate : List Char, '$' ∉ sourceContent →
      sourceContent <:+: buildPrompt sourceContent customPromptTemplate) ∧
    (∀ folderName recordsContent customPromptTemplate : List Char,
      '$' ∉ folderName → '$' ∉ recordsContent →
      recordsContent <:+:
        buildFolderSummaryPrompt folderName recordsContent customPromptTemplate) ∧
    (∀ sourceContent customPromptTemplate : List Char,
      jsTrim customPromptTemplate ≠ [] →
      (containsSeg PH_SOURCE (jsTrim customPromptTemplate) ||
        containsSeg PH_SOURCE_US (jsTrim customPromptTemplate)) = false →
      buildPrompt sourceContent customPromptTemplate =
        jsTrim customPromptTemplate ++ '\n' ::
          ('\n' :: ("文献信息如下：".toList ++ '\n' :: sourceContent))) := by
  refine ⟨buildPrompt_contains_source, buildFolderSummaryPrompt_contains_records, ?_⟩
  intro sourceContent customPromptTemplate h1 h2
  have hx : ¬((containsSeg PH_SOURCE (jsTrim customPromptTemplate) ||
      containsSeg PH_SOURCE_US (jsTrim customPromptTemplate)) = true) := by
    rw [h2]
    exact Bool.false_ne_true
  unfold buildPrompt
  rw [if_neg h1, if_neg hx]
  rfl

set_option maxRecDepth 100000 in
theorem claim_C10_counterexample :
    buildPrompt "$$".toList PH_SOURCE = "$".toList ∧
    ¬("$$".toList <:+: buildPrompt "$$".toList PH_SOURCE) := by
  refine ⟨by decide, ?_⟩
  intro hinf
  have hx := containsSeg_iff.mpr hinf
  rw [show containsSeg "$$".toList (buildPrompt "$$".toList PH_SOURCE) = false from by
    decide] at hx
  exact Bool.false_ne_true hx

end Exitem
